import Mathlib

/-!
Verification of the ampack container-image codec (`src/crc32.rs`,
`src/image.rs`, `src/sha1sum.rs`) against its natural-language
specification.

Modelling conventions, shared by every definition below:
* Machine integers (`u8`, `u16`, `u32`, `u64`, `usize`) are modelled as
  `Nat`; where the Rust code truncates through an `as` cast to a narrower
  type the model takes the value `% 2^w` explicitly.
* Rust `String` values are UTF-8 byte strings and every comparison the
  program performs on them is byte-wise, so names are modelled as
  `List Nat` of byte values; `strA` turns an ASCII literal into that form.
* Byte buffers (`Vec<u8>`, `[u8; N]`) are `List Nat`.
* Fallible Rust code returning `Result` is modelled with `Except Error`;
  a Rust runtime panic (division by zero) is modelled by the dedicated
  error value `Error.divisionByZero`.
* The SHA-1 digest comes from the external `sha1` crate, which is not
  part of this repository; `sha1Hash` below is modelled from the spec
  ("standard 160-bit cryptographic hash (SHA-1) over raw bytes") as the
  standard SHA-1 algorithm.
-/

set_option maxRecDepth 100000

/-- Bytes of an ASCII string literal (UTF-8 bytes of the Rust string). -/
def strA (s : String) : List Nat := s.data.map Char.toNat

/-- Little-endian serialization of `n` into `w` bytes (truncating at
`2 ^ (8 * w)`, as storing into a `w`-byte integer field does). -/
def leBytes : Nat → Nat → List Nat
  | 0, _ => []
  | w + 1, n => n % 256 :: leBytes w (n / 256)

/-- A `u16` little-endian field. -/
def u16le (n : Nat) : List Nat := leBytes 2 n

/-- A `u32` little-endian field. -/
def u32le (n : Nat) : List Nat := leBytes 4 n

/-- A `u64` little-endian field. -/
def u64le (n : Nat) : List Nat := leBytes 8 n

/-- Value of a little-endian byte sequence. -/
def leVal (bs : List Nat) : Nat := bs.foldr (fun b acc => b + 256 * acc) 0

theorem leBytes_length (w n : Nat) : (leBytes w n).length = w := by
  induction w generalizing n with
  | zero => rfl
  | succ w ih => simp [leBytes, ih]

theorem leVal_leBytes (w n : Nat) : leVal (leBytes w n) = n % 256 ^ w := by
  induction w generalizing n with
  | zero => simp [leBytes, leVal, Nat.mod_one]
  | succ w ih =>
    simp only [leBytes, leVal, List.foldr] at *
    rw [ih, pow_succ', Nat.mod_mul]

/-- The slice `bs[off .. off+len]`. -/
def bslice (bs : List Nat) (off len : Nat) : List Nat := (bs.drop off).take len

/- ===================================================================
   CRC-32 primitive, translated from `src/crc32.rs`.
   =================================================================== -/

/-- One halving step of the table construction in `Crc32Table::default`
(`src/crc32.rs` lines 34-42): `int = byte >> 1`, then replace `byte` by
`int` or `int ^ 0xedb88320` depending on the low bit. -/
def crc32TableStep (byte : Nat) : Nat :=
  let int := byte >>> 1
  if byte &&& 1 == 0 then int else int ^^^ 0xedb88320

/-- Entry `id` of the 256-entry table of `Crc32Table::default`: eight
iterations of `crc32TableStep` starting from the index.  (The source
stores the 256 values in an array; it only ever indexes the array with
values below `0x100`, so the table is modelled as this function.) -/
def crc32Table (id : Nat) : Nat := crc32TableStep^[8] id

/-- One byte of `Crc32Hasher::update` (`src/crc32.rs` lines 70-72):
`value = table[(value ^ byte) & 0xff] ^ (value >> 8)`. -/
def crc32UpdateByte (value byte : Nat) : Nat :=
  crc32Table ((value ^^^ byte) &&& 0xff) ^^^ (value >>> 8)

/-- `Crc32Hasher::update` over a byte sequence. -/
def crc32Update (value : Nat) (data : List Nat) : Nat :=
  data.foldl crc32UpdateByte value

/-- The externally visible checksum of hashing `data` from a fresh
`Crc32Hasher::new()` (initial value `0xffffffff`, `src/crc32.rs` line 57):
the raw final state, with no closing complement. -/
def crc32 (data : List Nat) : Nat := crc32Update 0xffffffff data

/- Specification-side rendering of the same primitive, written from the
spec's words for the refinement claim C1. -/

/-- Modelled from the spec: one bit step of the standard bit-reversed
CRC-32 table construction with reversed polynomial `0xEDB88320`: shift
right one bit and conditionally xor the polynomial when the bit shifted
out was set. -/
def specCrc32Bit (b : Nat) : Nat :=
  if b % 2 = 1 then (b / 2) ^^^ 0xedb88320 else b / 2

/-- Modelled from the spec: entry `id` of the 256-entry table built from
the reversed polynomial `0xEDB88320`. -/
def specCrc32Table (id : Nat) : Nat := specCrc32Bit^[8] id

/-- Modelled from the spec: "Running state initializes to `0xFFFFFFFF`.
For each input byte: `state = table[(state ^ byte) & 0xFF] ^ (state >> 8)`.
No finishing complement is applied — the externally visible checksum is
the raw final state." -/
def specCrc32 (data : List Nat) : Nat :=
  data.foldl
    (fun state byte => specCrc32Table ((state ^^^ byte) &&& 0xff) ^^^ (state >>> 8))
    0xffffffff

/- ===================================================================
   SHA-1 digest primitive.

   `src/sha1sum.rs` delegates to the external `sha1` crate, which is not
   part of this repository.  Modelled from the spec: "standard 160-bit
   cryptographic hash (SHA-1) over raw bytes; exposed as 40 lowercase hex
   characters for textual embedding and as a 20-byte value for
   comparison".  The definitions below are the standard SHA-1 algorithm
   (FIPS 180-1) over byte sequences.
   =================================================================== -/

/-- Rotate a 32-bit word left by `n` bits. -/
def rotl32 (n x : Nat) : Nat := ((x <<< n) ||| (x >>> (32 - n))) % 2 ^ 32

/-- Big-endian serialization of `n` into `w` bytes. -/
def beBytes (w n : Nat) : List Nat := (leBytes w n).reverse

/-- Value of a big-endian byte sequence. -/
def beVal (bs : List Nat) : Nat := bs.foldl (fun acc b => 256 * acc + b) 0

/-- SHA-1 message padding: append `0x80`, zeros up to 56 mod 64, and the
message length in bits as an 8-byte big-endian integer. -/
def sha1Pad (msg : List Nat) : List Nat :=
  msg ++ [0x80] ++ List.replicate ((119 - msg.length % 64) % 64) 0 ++
    beBytes 8 (8 * msg.length)

/-- Split a byte sequence into 64-byte blocks (fuel-indexed structural
recursion so that the definition evaluates by kernel reduction; the fuel
is the length of the list, which is always sufficient). -/
def blocks64Go : Nat → List Nat → List (List Nat)
  | _, [] => []
  | 0, _ :: _ => []
  | fuel + 1, b :: rest => ((b :: rest).take 64) :: blocks64Go fuel ((b :: rest).drop 64)

/-- Split a byte sequence into 64-byte blocks. -/
def blocks64 (l : List Nat) : List (List Nat) := blocks64Go l.length l

/-- The 80-entry SHA-1 message schedule of one 64-byte block. -/
def sha1Words (block : List Nat) : List Nat :=
  (List.range 64).foldl
    (fun ws _ =>
      ws ++ [rotl32 1 ((ws.getD (ws.length - 3) 0) ^^^ (ws.getD (ws.length - 8) 0) ^^^
        (ws.getD (ws.length - 14) 0) ^^^ (ws.getD (ws.length - 16) 0))])
    ((List.range 16).map (fun i => beVal (bslice block (4 * i) 4)))

/-- The SHA-1 round function. -/
def sha1F (t b c d : Nat) : Nat :=
  if t < 20 then (b &&& c) ||| ((b ^^^ 0xffffffff) &&& d)
  else if t < 40 then b ^^^ c ^^^ d
  else if t < 60 then (b &&& c) ||| (b &&& d) ||| (c &&& d)
  else b ^^^ c ^^^ d

/-- The SHA-1 round constants. -/
def sha1K (t : Nat) : Nat :=
  if t < 20 then 0x5a827999
  else if t < 40 then 0x6ed9eba1
  else if t < 60 then 0x8f1bbcdc
  else 0xca62c1d6

/-- Process one 64-byte block into the running 5-word SHA-1 state. -/
def sha1Block (h : Nat × Nat × Nat × Nat × Nat) (block : List Nat) :
    Nat × Nat × Nat × Nat × Nat :=
  let ws := sha1Words block
  let (h0, h1, h2, h3, h4) := h
  let final := (List.range 80).foldl
    (fun (st : Nat × Nat × Nat × Nat × Nat) t =>
      let (a, b, c, d, e) := st
      let temp := (rotl32 5 a + sha1F t b c d + e + sha1K t + ws.getD t 0) % 2 ^ 32
      (temp, a, rotl32 30 b, c, d))
    (h0, h1, h2, h3, h4)
  let (a, b, c, d, e) := final
  ((h0 + a) % 2 ^ 32, (h1 + b) % 2 ^ 32, (h2 + c) % 2 ^ 32,
   (h3 + d) % 2 ^ 32, (h4 + e) % 2 ^ 32)

/-- The 20-byte SHA-1 digest of a byte sequence. -/
def sha1Hash (msg : List Nat) : List Nat :=
  let (h0, h1, h2, h3, h4) :=
    (blocks64 (sha1Pad msg)).foldl sha1Block
      (0x67452301, 0xefcdab89, 0x98badcfe, 0x10325476, 0xc3d2e1f0)
  beBytes 4 h0 ++ beBytes 4 h1 ++ beBytes 4 h2 ++ beBytes 4 h3 ++ beBytes 4 h4

/-- Sanity check of the SHA-1 model against the published test vector
for the string "abc". -/
theorem sha1Hash_abc :
    sha1Hash (strA "abc") =
      [0xa9, 0x99, 0x3e, 0x36, 0x47, 0x06, 0x81, 0x6a, 0xba, 0x3e,
       0x25, 0x71, 0x78, 0x50, 0xc2, 0x6c, 0x9c, 0xd0, 0xd8, 0x9d] := by
  set_option maxRecDepth 10000 in decide

/- ===================================================================
   Claim C1: the CRC-32 primitive.
   =================================================================== -/

theorem crc32TableStep_eq_specCrc32Bit (b : Nat) :
    crc32TableStep b = specCrc32Bit b := by
  simp only [crc32TableStep, specCrc32Bit, Nat.shiftRight_eq_div_pow, pow_one,
    Nat.and_one_is_mod, beq_iff_eq]
  rcases Nat.mod_two_eq_zero_or_one b with h | h <;> simp [h]

theorem crc32Table_eq_specCrc32Table (i : Nat) :
    crc32Table i = specCrc32Table i := by
  simp only [crc32Table, specCrc32Table]
  have : crc32TableStep = specCrc32Bit := funext crc32TableStep_eq_specCrc32Bit
  rw [this]

/-- C1: the 32-bit checksum primitive of `src/crc32.rs` is exactly the
specified no-final-complement CRC-32 variant: the table construction from
the reversed polynomial `0xEDB88320`, initial state `0xFFFFFFFF`, the
per-byte update `state = table[(state ^ byte) & 0xFF] ^ (state >> 8)`,
and the raw final state as checksum (no closing complement) coincide with
the spec-side definition for every byte sequence; the empty input hashes
to the raw initial state `0xFFFFFFFF`, and the checksum of the standard
test vector "123456789" equals the conventional CRC-32 check value
`0xCBF43926` with its final complement removed (`0x340BC6D9`). -/
theorem c1_crc32_is_no_complement_variant :
    (∀ data : List Nat, crc32 data = specCrc32 data) ∧
    crc32 [] = 0xffffffff ∧
    crc32 (strA "123456789") = 0xcbf43926 ^^^ 0xffffffff ∧
    crc32 (strA "123456789") = 0x340bc6d9 := by
  refine ⟨fun data => ?_, rfl, by decide, by decide⟩
  simp only [crc32, specCrc32, crc32Update]
  congr 1
  funext state byte
  simp only [crc32UpdateByte, crc32Table_eq_specCrc32Table]

/- ===================================================================
   Data model and error taxonomy, translated from `src/image.rs` and
   `src/error.rs`.
   =================================================================== -/

/-- The fixed magic constant (`src/image.rs` line 29). -/
def MAGIC : Nat := 0x27b51956

/-- Generic file type (`src/image.rs` line 30). -/
def FILE_TYPE_GENERIC : Nat := 0

/-- Sparse file type (`src/image.rs` line 31). -/
def FILE_TYPE_SPARSE : Nat := 254

/-- The Android sparse image magic bytes (`src/image.rs` line 32). -/
def ANDROID_SPARSE_IMAGE_MAGIC_BYTES : List Nat := [0x3a, 0xff, 0x26, 0xed]

/-- The `ImageError` enum of `src/image.rs` (the field name `exptected`
preserves the source's spelling). -/
inductive ImageError where
  | invalidMagic (magic : Nat)
  | illegalVerify
  | invalidVersion (version : Nat)
  | unmatchedVerify
  | duplicatedItem (stem extension : List Nat)
  | missingItem (stem extension : List Nat)
  | unexpectedItem (stem extension : List Nat)
  | sizeMismatch (exptected actual : Nat)
deriving DecidableEq, Repr

/-- The `Error` enum of `src/error.rs`, restricted to the variants the
codec can produce; `divisionByZero` additionally models a Rust runtime
panic (there is no panic variant in the source because a panic aborts). -/
inductive Error where
  | ioError
  | fromHexError
  | imageError (e : ImageError)
  | divisionByZero
deriving DecidableEq, Repr

/-- The `ImageVersion` enum. -/
inductive ImageVersion where
  | V1
  | V2
deriving DecidableEq, Repr

/-- `Into<RawImageVersion> for &ImageVersion`. -/
def ImageVersion.toRaw : ImageVersion → Nat
  | .V1 => 1
  | .V2 => 2

/-- `TryFrom<RawImageVersion> for ImageVersion`. -/
def imageVersionFromRaw (v : Nat) : Except Error ImageVersion :=
  if v = 1 then .ok .V1
  else if v = 2 then .ok .V2
  else .error (.imageError (.invalidVersion v))

/-- `size_of::<RawImageHead>()`: 4+4+4+8+4+4+36 packed bytes. -/
def SIZE_RAW_IMAGE_HEAD : Nat := 64

/-- Name-field width of a V1 item-table record. -/
def SIZE_ITEM_TYPE_V1 : Nat := 32

/-- Name-field width of a V2 item-table record. -/
def SIZE_ITEM_TYPE_V2 : Nat := 256

/-- Name-field width selected by the format version. -/
def ImageVersion.sizeItemType : ImageVersion → Nat
  | .V1 => SIZE_ITEM_TYPE_V1
  | .V2 => SIZE_ITEM_TYPE_V2

/-- `ImageVersion::size_raw_info`: the packed record size
`4+4+8+8+8+LEN+LEN+4+2+2+24 = 64 + 2*LEN` bytes. -/
def ImageVersion.sizeRawInfo (v : ImageVersion) : Nat := 64 + 2 * v.sizeItemType

/-- The in-memory `Item`: data bytes, extension (main type), stem
(sub type), and optional SHA-1 digest.  Names are byte strings. -/
structure Item where
  data : List Nat
  extension : List Nat
  stem : List Nat
  sha1sum : Option (List Nat)
deriving DecidableEq, Repr

/-- The in-memory `Image`. -/
structure Image where
  version : ImageVersion
  align : Nat
  items : List Item
deriving DecidableEq, Repr

/-- The decoded fields of `RawImageHead` (the 36 reserved bytes carry no
information). -/
structure RawImageHead where
  crc : Nat
  version : Nat
  magic : Nat
  image_size : Nat
  item_align_size : Nat
  item_count : Nat
deriving DecidableEq, Repr

/-- `RawImageHead::new`. -/
def RawImageHead.new (version : ImageVersion) (item_align_size : Nat) : RawImageHead :=
  { crc := 0, version := version.toRaw, magic := MAGIC, image_size := 0,
    item_align_size := item_align_size, item_count := 0 }

/-- The name-decoded item-table record `RawItemInfo` (name fields as byte
strings; the 24 reserved bytes carry no information). -/
structure RawItemInfo where
  item_id : Nat
  file_type : Nat
  current_offset_in_item : Nat
  offset_in_image : Nat
  item_size : Nat
  item_main_type : List Nat
  item_sub_type : List Nat
  verify : Nat
  is_backup_item : Nat
  backup_item_id : Nat
deriving DecidableEq, Repr

/-- Byte string of the literal `"PARTITION"`. -/
def sPARTITION : List Nat := strA "PARTITION"

/-- Byte string of the literal `"VERIFY"`. -/
def sVERIFY : List Nat := strA "VERIFY"

/-- Byte string of the literal `"sha1sum "` (with trailing space). -/
def sSHA1SUMSP : List Nat := strA "sha1sum "

/-- Byte string of the literal `"USB"`. -/
def sUSB : List Nat := strA "USB"

/-- Byte string of the literal `"_ENC"`. -/
def sENC : List Nat := strA "_ENC"

/-- Byte string of the literal `"DDR"`. -/
def sDDR : List Nat := strA "DDR"

/-- Byte string of the literal `"UBOOT"`. -/
def sUBOOT : List Nat := strA "UBOOT"

/-- Byte string of the literal `"DDR_ENC"`. -/
def sDDR_ENC : List Nat := strA "DDR_ENC"

/-- Byte string of the literal `"UBOOT_ENC"`. -/
def sUBOOT_ENC : List Nat := strA "UBOOT_ENC"

/- ===================================================================
   Hex codec for SHA-1 digests (`hex` crate `FromHex` for `[u8; 20]` and
   the `Display` impl of `src/sha1sum.rs`).
   =================================================================== -/

/-- Value of one ASCII hex digit (`0-9`, `a-f`, `A-F`), as the `hex`
crate accepts. -/
def hexDigitVal (c : Nat) : Option Nat :=
  if 48 ≤ c ∧ c ≤ 57 then some (c - 48)
  else if 97 ≤ c ∧ c ≤ 102 then some (c - 87)
  else if 65 ≤ c ∧ c ≤ 70 then some (c - 55)
  else none

/-- Decode pairs of hex digits into bytes; fails on a stray digit or a
non-digit. -/
def hexPairs : List Nat → Option (List Nat)
  | [] => some []
  | [_] => none
  | hi :: lo :: rest => do
      let h ← hexDigitVal hi
      let l ← hexDigitVal lo
      let r ← hexPairs rest
      pure ((16 * h + l) :: r)

/-- `Sha1sum::from_hex` via `<[u8; 20]>::from_hex`: exactly 40 hex
characters decoding to 20 bytes. -/
def sha1sumFromHex (bs : List Nat) : Option (List Nat) :=
  if bs.length = 40 then hexPairs bs else none

/-- The lowercase hex character of a digit value. -/
def hexDigitChar (n : Nat) : Nat := if n < 10 then n + 48 else n + 87

/-- `{:02x}` of one digest byte (a `u8`, so two lowercase hex digits; the
`% 16` keeps the model total on out-of-range values). -/
def hex02 (b : Nat) : List Nat := [hexDigitChar (b / 16 % 16), hexDigitChar (b % 16)]

/-- The `Display` impl of `Sha1sum`: each byte as two lowercase hex
characters. -/
def sha1Display (d : List Nat) : List Nat := d.flatMap hex02

/-- The verify-record payload `format!("sha1sum {}", sha1sum)`. -/
def sha1sumLine (d : List Nat) : List Nat := sSHA1SUMSP ++ sha1Display d

/- ===================================================================
   Decoder (`Image::try_read_file`, `src/image.rs` lines 457-585).
   =================================================================== -/

/-- NUL-terminated parse of a fixed-width name field
(`string_from_slice_u8_c_string`; the lossy UTF-8 conversion is the
identity on the byte strings the encoder writes). -/
def parseName (bs : List Nat) : List Nat := bs.takeWhile (fun b => b ≠ 0)

/-- Decode a `RawImageHead` from its 64 serialized bytes. -/
def parseHead (bs : List Nat) : RawImageHead :=
  { crc := leVal (bslice bs 0 4)
    version := leVal (bslice bs 4 4)
    magic := leVal (bslice bs 8 4)
    image_size := leVal (bslice bs 12 8)
    item_align_size := leVal (bslice bs 20 4)
    item_count := leVal (bslice bs 24 4) }

/-- Decode a `RawItemInfo` from one serialized record with name-field
width `L`. -/
def parseInfo (L : Nat) (bs : List Nat) : RawItemInfo :=
  { item_id := leVal (bslice bs 0 4)
    file_type := leVal (bslice bs 4 4)
    current_offset_in_item := leVal (bslice bs 8 8)
    offset_in_image := leVal (bslice bs 16 8)
    item_size := leVal (bslice bs 24 8)
    item_main_type := parseName (bslice bs 32 L)
    item_sub_type := parseName (bslice bs (32 + L) L)
    verify := leVal (bslice bs (32 + 2 * L) 4)
    is_backup_item := leVal (bslice bs (36 + 2 * L) 2)
    backup_item_id := leVal (bslice bs (38 + 2 * L) 2) }

/-- `seek` + `read_exact`: the requested slice of the file, or an I/O
error when it reaches past the end. -/
def readExact (image : List Nat) (off len : Nat) : Except Error (List Nat) :=
  if off + len ≤ image.length then .ok (bslice image off len) else .error .ioError

/-- One step of the decode state machine over the pending-verify slot
(`src/image.rs` lines 496-543): returns the items emitted by this record
and the new pending slot. -/
def machineStep (need : Option Item) (info : RawItemInfo) (data : List Nat) :
    Except Error (List Item × Option Item) :=
  match need with
  | some pend =>
    if info.item_sub_type ≠ pend.stem then .error (.imageError .unmatchedVerify)
    else if info.item_main_type ≠ sVERIFY then .error (.imageError .unmatchedVerify)
    else if info.item_size = 48 ∧ sSHA1SUMSP.isPrefixOf data ∧ info.verify = 0 then
      match sha1sumFromHex (bslice data 8 40) with
      | some d => .ok ([{ pend with sha1sum := some d }], none)
      | none => .error .fromHexError
    else .error (.imageError .illegalVerify)
  | none =>
    let item : Item := { data := data, extension := info.item_main_type,
                         stem := info.item_sub_type, sha1sum := none }
    if item.extension = sPARTITION then
      if info.verify = 0 then .error (.imageError .unmatchedVerify)
      else .ok ([], some item)
    else
      if info.verify ≠ 0 then .error (.imageError .illegalVerify)
      else .ok ([item], none)

/-- The record loop of `Image::try_read_file` over the remaining record
indices: seek to and read the record, read its payload, then run the
state machine; a still-pending slot after the last record is an
`UnmatchedVerify` error (`src/image.rs` lines 481-576). -/
def decodeLoop (image : List Nat) (v : ImageVersion) :
    List Nat → Option Item → Except Error (List Item)
  | [], some _ => .error (.imageError .unmatchedVerify)
  | [], none => .ok []
  | i :: rest, need => do
      let infoBytes ← readExact image (SIZE_RAW_IMAGE_HEAD + v.sizeRawInfo * i) v.sizeRawInfo
      let info := parseInfo v.sizeItemType infoBytes
      let data ← readExact image info.offset_in_image info.item_size
      let (emitted, need') ← machineStep need info data
      let restItems ← decodeLoop image v rest need'
      pure (emitted ++ restItems)

/-- `Image::try_read_file` over the raw file bytes: read and check the
header, then run the record loop over all `item_count` records. -/
def tryReadFile (image : List Nat) : Except Error Image := do
  let headBytes ← readExact image 0 SIZE_RAW_IMAGE_HEAD
  let header := parseHead headBytes
  if header.magic ≠ MAGIC then throw (.imageError (.invalidMagic header.magic))
  let version ← imageVersionFromRaw header.version
  let items ← decodeLoop image version (List.range header.item_count) none
  pure { version := version, align := header.item_align_size, items := items }

/-- Decidable equality for `Except`, used to evaluate the codec on
concrete inputs. -/
instance {α β : Type} [DecidableEq α] [DecidableEq β] : DecidableEq (Except α β) := fun x y =>
  match x, y with
  | .ok a, .ok b => if h : a = b then .isTrue (by rw [h]) else .isFalse (by simp [h])
  | .error a, .error b => if h : a = b then .isTrue (by rw [h]) else .isFalse (by simp [h])
  | .ok _, .error _ => .isFalse (by simp)
  | .error _, .ok _ => .isFalse (by simp)

/- ===================================================================
   Claim C2: decode dispatch when no verify record is pending.
   =================================================================== -/

/-- A PARTITION record with `verify = 0`, read while nothing is pending. -/
def c2PartInfo : RawItemInfo :=
  { item_id := 0, file_type := 0, current_offset_in_item := 0, offset_in_image := 0,
    item_size := 0, item_main_type := sPARTITION, item_sub_type := strA "boot",
    verify := 0, is_backup_item := 0, backup_item_id := 0 }

/-- A non-PARTITION record with `verify = 1`, read while nothing is
pending. -/
def c2GenInfo : RawItemInfo :=
  { item_id := 0, file_type := 0, current_offset_in_item := 0, offset_in_image := 0,
    item_size := 0, item_main_type := strA "ini", item_sub_type := strA "aml_sdc_burn",
    verify := 1, is_backup_item := 0, backup_item_id := 0 }

/-- C2 is false as stated: with no verify record pending, a PARTITION
record whose `verify` flag is 0 is not emitted — decode fails with
`UnmatchedVerify` — and a non-PARTITION record whose `verify` flag is 1
does not become pending — decode fails with `IllegalVerify`.  The
emission/pending dispatch is not independent of the record's extension. -/
theorem c2_counterexample :
    machineStep none c2PartInfo [] = .error (.imageError .unmatchedVerify) ∧
    machineStep none c2PartInfo [] ≠
      .ok ([{ data := [], extension := sPARTITION, stem := strA "boot", sha1sum := none }],
        none) ∧
    machineStep none c2GenInfo [] = .error (.imageError .illegalVerify) ∧
    machineStep none c2GenInfo [] ≠
      .ok ([], some { data := [], extension := strA "ini",
                      stem := strA "aml_sdc_burn", sha1sum := none }) := by
  decide

/-- C2 (amended): in decode, for every record encountered while no verify
record is pending, the dispatch depends on the record's extension: a
PARTITION record with `verify ≠ 0` becomes the new pending slot, a
PARTITION record with `verify = 0` is an `UnmatchedVerify` error, a
non-PARTITION record with `verify = 0` is emitted immediately with no
digest, and a non-PARTITION record with `verify ≠ 0` is an
`IllegalVerify` error. -/
theorem c2_no_pending_dispatch (info : RawItemInfo) (data : List Nat) :
    (info.item_main_type = sPARTITION → info.verify ≠ 0 →
      machineStep none info data =
        .ok ([], some { data := data, extension := info.item_main_type,
                        stem := info.item_sub_type, sha1sum := none })) ∧
    (info.item_main_type = sPARTITION → info.verify = 0 →
      machineStep none info data = .error (.imageError .unmatchedVerify)) ∧
    (info.item_main_type ≠ sPARTITION → info.verify = 0 →
      machineStep none info data =
        .ok ([{ data := data, extension := info.item_main_type,
                stem := info.item_sub_type, sha1sum := none }], none)) ∧
    (info.item_main_type ≠ sPARTITION → info.verify ≠ 0 →
      machineStep none info data = .error (.imageError .illegalVerify)) := by
  refine ⟨fun h hv => ?_, fun h hv => ?_, fun h hv => ?_, fun h hv => ?_⟩ <;>
    simp [machineStep, h, hv]

/-- Witness for the amended C2 at concrete records: a PARTITION record
with `verify = 1` becomes pending, and an `ini` record with `verify = 0`
is emitted without a digest. -/
theorem c2_no_pending_dispatch_witness :
    machineStep none { c2PartInfo with verify := 1 } [7] =
      .ok ([], some { data := [7], extension := sPARTITION,
                      stem := strA "boot", sha1sum := none }) ∧
    machineStep none { c2GenInfo with verify := 0 } [9] =
      .ok ([{ data := [9], extension := strA "ini",
              stem := strA "aml_sdc_burn", sha1sum := none }], none) :=
  ⟨(c2_no_pending_dispatch { c2PartInfo with verify := 1 } [7]).1 rfl (by decide),
   (c2_no_pending_dispatch { c2GenInfo with verify := 0 } [9]).2.2.1 (by decide) rfl⟩

/- ===================================================================
   Claim C3: the pending-verify pairing rules of decode.
   =================================================================== -/

/-- C3: while an item is pending verification, the next record must have
the pending item's stem and main type exactly `"VERIFY"`, else decode
fails with `UnmatchedVerify`; with a matching pairing, a payload that is
not exactly 48 bytes starting with the 8 bytes `"sha1sum "` with
`verify = 0` fails with `IllegalVerify`; otherwise the trailing 40 bytes
are parsed as a hex digest, attached to the pending item, and the item is
emitted with the slot cleared; and an exhausted item table with a still
pending slot fails with `UnmatchedVerify`.  (In decode the payload always
has exactly `item_size` bytes, which is the `hlen` premise.) -/
theorem c3_pending_verify_pairing :
    (∀ (pend : Item) (info : RawItemInfo) (data : List Nat),
      (info.item_sub_type ≠ pend.stem ∨ info.item_main_type ≠ sVERIFY) →
        machineStep (some pend) info data = .error (.imageError .unmatchedVerify)) ∧
    (∀ (pend : Item) (info : RawItemInfo) (data : List Nat),
      info.item_sub_type = pend.stem → info.item_main_type = sVERIFY →
      data.length = info.item_size →
      ¬(info.item_size = 48 ∧ sSHA1SUMSP.isPrefixOf data ∧ info.verify = 0) →
        machineStep (some pend) info data = .error (.imageError .illegalVerify)) ∧
    (∀ (pend : Item) (info : RawItemInfo) (data : List Nat) (d : List Nat),
      info.item_sub_type = pend.stem → info.item_main_type = sVERIFY →
      info.item_size = 48 → sSHA1SUMSP.isPrefixOf data → info.verify = 0 →
      sha1sumFromHex (bslice data 8 40) = some d →
        machineStep (some pend) info data =
          .ok ([{ pend with sha1sum := some d }], none)) ∧
    (∀ (image : List Nat) (v : ImageVersion) (pend : Item),
      decodeLoop image v [] (some pend) = .error (.imageError .unmatchedVerify)) := by
  refine ⟨?_, ?_, ?_, fun image v pend => rfl⟩
  · intro pend info data h
    rcases h with h | h
    · simp [machineStep, h]
    · by_cases hs : info.item_sub_type = pend.stem
      · simp [machineStep, hs, h]
      · simp [machineStep, hs]
  · intro pend info data hs hm _ hc
    simp only [machineStep, hs, hm, ne_eq, not_true_eq_false, if_false]
    rw [if_neg hc]
  · intro pend info data d hs hm h48 hpre hv hhex
    simp [machineStep, hs, hm, h48, hpre, hv, hhex]

/-- Witness for C3 at concrete inputs: a well-formed VERIFY record whose
48-byte payload is `"sha1sum "` followed by forty `'0'` hex characters is
consumed, attaching the all-zero digest to the pending partition, and an
empty remaining table with a pending item fails with `UnmatchedVerify`. -/
theorem c3_pending_verify_pairing_witness :
    machineStep
        (some { data := [1], extension := sPARTITION, stem := strA "boot", sha1sum := none })
        { item_id := 1, file_type := 0, current_offset_in_item := 0, offset_in_image := 0,
          item_size := 48, item_main_type := sVERIFY, item_sub_type := strA "boot",
          verify := 0, is_backup_item := 0, backup_item_id := 0 }
        (sha1sumLine (List.replicate 20 0)) =
      .ok ([{ data := [1], extension := sPARTITION, stem := strA "boot",
              sha1sum := some (List.replicate 20 0) }], none) ∧
    decodeLoop [] .V1 []
        (some { data := [1], extension := sPARTITION, stem := strA "boot", sha1sum := none }) =
      .error (.imageError .unmatchedVerify) :=
  ⟨c3_pending_verify_pairing.2.2.1 _ _ _ _ rfl rfl rfl (by decide) rfl (by decide),
   c3_pending_verify_pairing.2.2.2 [] .V1 _⟩

/- ===================================================================
   Verifier (`Image::find_item`, `Image::find_essentials`,
   `Image::verify`, `src/image.rs` lines 338-420).
   =================================================================== -/

/-- The scan loop of `Image::find_item`: remember the first match, fail
with `DuplicatedItem` on a second match, fail with `MissingItem` when the
scan ends without a match. -/
def findItemGo (stem extension : List Nat) :
    List Item → Option Item → Except Error Item
  | [], result =>
    match result with
    | some item => .ok item
    | none => .error (.imageError (.missingItem stem extension))
  | item :: rest, result =>
    if item.stem = stem ∧ item.extension = extension then
      match result with
      | some _ => .error (.imageError (.duplicatedItem stem extension))
      | none => findItemGo stem extension rest (some item)
    else findItemGo stem extension rest result

/-- `Image::find_item`. -/
def Image.find_item (image : Image) (stem extension : List Nat) : Except Error Item :=
  findItemGo stem extension image.items none

/-- `Image::find_essentials`: the five reserved items, in the order the
source looks them up. -/
def Image.find_essentials (image : Image) :
    Except Error (Item × Item × Item × Item × Item) := do
  let a ← image.find_item sDDR sUSB
  let b ← image.find_item sUBOOT sUSB
  let c ← image.find_item (strA "aml_sdc_burn") (strA "ini")
  let d ← image.find_item (strA "meson1") (strA "dtb")
  let e ← image.find_item (strA "platform") (strA "conf")
  pure (a, b, c, d, e)

/-- The digest comparison of `Image::verify` over the digest-carrying
items, in item order.  The source runs the comparisons in parallel and
surfaces the first error in item order (`find_first`), which is the same
observable result as this sequential first-error loop; the `none` branch
is unreachable because the list is pre-filtered, and is kept as in the
source. -/
def verifyLoop : List Item → Except Error Unit
  | [] => .ok ()
  | item :: rest =>
    match item.sha1sum with
    | none => .error (.imageError (.missingItem item.stem sVERIFY))
    | some d =>
      if sha1Hash item.data ≠ d then .error (.imageError .illegalVerify)
      else verifyLoop rest

/-- `Image::verify`: the essential-item lookup `self.find_essentials()`
is performed by the source but its result is bound to `_` and discarded,
so it does not influence the returned value and does not appear here;
then every digest-carrying item is re-hashed and compared. -/
def Image.verify (image : Image) : Except Error Unit :=
  verifyLoop (image.items.filter (fun item => item.sha1sum.isSome))

/-- `Image::set_ver_align`'s alignment rounding on the `u8` argument:
`(align + 3) >> 2 << 2` with wrapping `u8` addition. -/
def setAlignU8 (align : Nat) : Nat := ((align + 3) % 256) >>> 2 <<< 2

/-- `Image::set_ver_align` (the advisory `guess_align_size` warning is
print-only and does not affect the resulting image). -/
def Image.set_ver_align (image : Image) (ver : ImageVersion) (align : Nat) : Image :=
  { image with version := ver, align := setAlignU8 align }

/- ===================================================================
   Encoder (`ImageToWrite`, `src/image.rs` lines 777-1027).
   =================================================================== -/

/-- The encoder state `ImageToWrite`. -/
structure ImageToWrite where
  head : RawImageHead
  infos : List RawItemInfo
  sha1sums : List (List Nat)
  data_head_infos : List Nat
  data_body : List Nat
deriving DecidableEq, Repr

/-- The scan loop of `ImageToWrite::find_backup` over the zipped
digest/record list with its enumeration index. -/
def findBackupGo (d : List Nat) :
    List (List Nat × RawItemInfo) → Nat → Nat × Nat × Nat
  | [], _ => (0, 0, 0)
  | (s, info) :: rest, id =>
    if d = s ∧ ¬(info.item_main_type = sUSB ∧ sENC.isSuffixOf info.item_sub_type) then
      (1, id % 2 ^ 16, info.offset_in_image)
    else findBackupGo d rest (id + 1)

/-- `ImageToWrite::find_backup`: the first previously appended entry with
an equal digest whose record is not a `*_ENC.USB` record, as
`(is_backup_item, backup_item_id, offset_in_image)`; all zeros when there
is none. -/
def ImageToWrite.find_backup (s : ImageToWrite) (d : List Nat) : Nat × Nat × Nat :=
  findBackupGo d (s.sha1sums.zip s.infos) 0

/-- `ImageToWrite::append_item` (`src/image.rs` lines 797-864).  The
division computing the aligned offset is preceded by the model of Rust's
division-by-zero panic; everything else is a direct transcription. -/
def ImageToWrite.append_item (s : ImageToWrite) (item : Item) :
    Except Error ImageToWrite := do
  let sha1sum ← match item.sha1sum with
    | some d => pure d
    | none => throw (.imageError .illegalVerify)
  let (is_backup_item, backup_item_id, offset0) := s.find_backup sha1sum
  let align_size := s.head.item_align_size
  let (offset, data_body) ←
    if is_backup_item = 0 then do
      if align_size = 0 then throw Error.divisionByZero
      let offset := (s.data_body.length + align_size - 1) / align_size * align_size
      pure (offset,
        s.data_body ++ List.replicate (offset - s.data_body.length) 0 ++ item.data)
    else pure (offset0, s.data_body)
  let info : RawItemInfo :=
    { item_id := s.infos.length % 2 ^ 32
      file_type :=
        if ANDROID_SPARSE_IMAGE_MAGIC_BYTES.isPrefixOf item.data then FILE_TYPE_SPARSE
        else FILE_TYPE_GENERIC
      current_offset_in_item := 0
      offset_in_image := offset
      item_size := item.data.length
      item_main_type := item.extension
      item_sub_type := item.stem
      verify := if item.extension = sPARTITION then 1 else 0
      is_backup_item := is_backup_item
      backup_item_id := backup_item_id }
  let s1 : ImageToWrite :=
    { s with infos := s.infos ++ [info], sha1sums := s.sha1sums ++ [sha1sum],
             data_body := data_body,
             head := { s.head with item_count := s.head.item_count + 1 } }
  let offset := offset + item.data.length
  if item.extension = sPARTITION then do
    let bytes := sha1sumLine sha1sum
    if bytes.length ≠ 48 then
      throw (.imageError (.sizeMismatch 48 bytes.length))
    let vinfo : RawItemInfo :=
      { item_id := s1.infos.length % 2 ^ 32
        file_type := 0
        current_offset_in_item := 0
        offset_in_image := offset
        item_size := 48
        item_main_type := sVERIFY
        item_sub_type := item.stem
        verify := 0
        is_backup_item := is_backup_item
        backup_item_id := if is_backup_item = 0 then 0 else backup_item_id + 1 }
    pure { s1 with data_body := s1.data_body ++ bytes,
                   sha1sums := s1.sha1sums ++ [sha1Hash bytes],
                   infos := s1.infos ++ [vinfo],
                   head := { s1.head with item_count := s1.head.item_count + 1 } }
  else
    pure s1

/-- Serialize a `RawImageHead` into its 64 packed little-endian bytes. -/
def serializeHead (h : RawImageHead) : List Nat :=
  u32le h.crc ++ u32le h.version ++ u32le h.magic ++ u64le h.image_size ++
    u32le h.item_align_size ++ u32le h.item_count ++ List.replicate 36 0

/-- `bytes_fill_from_str`: a `len`-byte field holding the first
`min (len - 1) src.length` bytes of the name followed by zero padding. -/
def bytes_fill_from_str (len : Nat) (src : List Nat) : List Nat :=
  let k := min (len - 1) src.length
  src.take k ++ List.replicate (len - k) 0

/-- Serialize a `RawItemInfo` into one packed record with name-field
width `L` (`Into<RawItemInfoVariableLength<LEN>>`). -/
def serializeInfo (L : Nat) (i : RawItemInfo) : List Nat :=
  u32le i.item_id ++ u32le i.file_type ++ u64le i.current_offset_in_item ++
    u64le i.offset_in_image ++ u64le i.item_size ++
    bytes_fill_from_str L i.item_main_type ++ bytes_fill_from_str L i.item_sub_type ++
    u32le i.verify ++ u16le i.is_backup_item ++ u16le i.backup_item_id ++
    List.replicate 24 0

/-- `ImageToWrite::finalize` (`src/image.rs` lines 866-914): fix
`image_size` and `version`, serialize the head, shift every record offset
by the head-plus-table size, serialize all records, and require the head
buffer length to be exactly the computed offset. -/
def ImageToWrite.finalize (s : ImageToWrite) (version : ImageVersion) :
    Except Error ImageToWrite := do
  let size_info := version.sizeRawInfo
  let offset := SIZE_RAW_IMAGE_HEAD + size_info * s.head.item_count
  let head : RawImageHead :=
    { s.head with image_size := s.data_body.length + offset, version := version.toRaw }
  let infos := s.infos.map
    (fun i => { i with offset_in_image := i.offset_in_image + offset })
  let data_head_infos := serializeHead head ++
    (infos.map (serializeInfo version.sizeItemType)).flatten
  if offset ≠ data_head_infos.length then
    throw (.imageError (.sizeMismatch offset data_head_infos.length))
  pure { s with head := head, infos := infos, data_head_infos := data_head_infos }

/-- The checksum step at the end of `ImageToWrite::try_from`
(`src/image.rs` lines 1016-1023): hash the head buffer from byte 4 on,
then the whole body, store the value in the head, and overwrite the first
four buffer bytes with its little-endian encoding (the unchecked `u32`
pointer store on the little-endian target). -/
def ImageToWrite.seal (s : ImageToWrite) : ImageToWrite :=
  let crc := crc32Update (crc32Update 0xffffffff (s.data_head_infos.drop 4)) s.data_body
  { s with head := { s.head with crc := crc },
           data_head_infos := u32le crc ++ s.data_head_infos.drop 4 }

/-- The reserved-USB classification loop of `ImageToWrite::try_from`
(`src/image.rs` lines 933-960), threading the four reserved slots and the
generic-item list. -/
def classifyUsb :
    List Item → Option Item → Option Item → Option Item → Option Item → List Item →
      Except Error (Option Item × Option Item × Option Item × Option Item × List Item)
  | [], ddr, ddr_enc, uboot, uboot_enc, generic =>
    .ok (ddr, ddr_enc, uboot, uboot_enc, generic)
  | item :: rest, ddr, ddr_enc, uboot, uboot_enc, generic =>
    if item.extension = sUSB then
      if item.stem = sDDR then
        if ddr.isSome then .error (.imageError (.duplicatedItem item.stem sUSB))
        else classifyUsb rest (some item) ddr_enc uboot uboot_enc generic
      else if item.stem = sUBOOT then
        if uboot.isSome then .error (.imageError (.duplicatedItem item.stem sUSB))
        else classifyUsb rest ddr ddr_enc (some item) uboot_enc generic
      else if item.stem = sDDR_ENC then
        if ddr_enc.isSome then .error (.imageError (.duplicatedItem item.stem sUSB))
        else classifyUsb rest ddr (some item) uboot uboot_enc generic
      else if item.stem = sUBOOT_ENC then
        if uboot_enc.isSome then .error (.imageError (.duplicatedItem item.stem sUSB))
        else classifyUsb rest ddr ddr_enc uboot (some item) generic
      else .error (.imageError (.unexpectedItem item.stem sUSB))
    else classifyUsb rest ddr ddr_enc uboot uboot_enc (generic ++ [item])

/-- `sort_ref_items_by_name` / `sort_items_by_name`: compare stems, then
extensions, byte-lexicographically (Rust `cmp` on `String`). -/
def bytesCmp : List Nat → List Nat → Ordering
  | [], [] => .eq
  | [], _ :: _ => .lt
  | _ :: _, [] => .gt
  | a :: x, b :: y => if a < b then .lt else if b < a then .gt else bytesCmp x y

/-- The item comparator of `sort_items_by_name`. -/
def sort_items_by_name (a b : Item) : Ordering :=
  match bytesCmp a.stem b.stem with
  | .eq => bytesCmp a.extension b.extension
  | o => o

/-- The `≤`-style predicate induced by the item comparator. -/
def nameLe (a b : Item) : Prop := sort_items_by_name a b ≠ .gt

instance : DecidableRel nameLe := fun _ _ => instDecidableNot

/-- Rust's stable `sort_by` under the item comparator.  `sort_by` is a
stable ascending sort and the comparator is a total preorder, so its
result is the unique stable sort; it is computed here by stable insertion
sort under the non-strict predicate `cmp ≠ Greater`. -/
def sortItems (l : List Item) : List Item := l.insertionSort nameLe

/-- The emission order of `ImageToWrite::try_from` (`src/image.rs` lines
928-1006): classify the reserved `USB` slots, require `DDR.USB` and
`UBOOT.USB`, then `DDR.USB`, optional `DDR_ENC.USB`, `UBOOT.USB`,
optional `UBOOT_ENC.USB`, then the generic items sorted by name. -/
def orderedItems (image : Image) : Except Error (List Item) := do
  let (ddr_usb, ddr_enc_usb, uboot_usb, uboot_enc_usb, generic_items) ←
    classifyUsb image.items none none none none []
  let ddr_usb ← match ddr_usb with
    | some i => pure i
    | none => throw (.imageError (.missingItem sDDR sUSB))
  let uboot_usb ← match uboot_usb with
    | some i => pure i
    | none => throw (.imageError (.missingItem sUBOOT sUSB))
  pure ([ddr_usb] ++ ddr_enc_usb.toList ++ [uboot_usb] ++ uboot_enc_usb.toList ++
    sortItems generic_items)

/-- `ImageToWrite::try_from`: append every item in emission order onto
the empty encoder state, finalize, and seal with the checksum. -/
def imageToWriteFromImage (image : Image) : Except Error ImageToWrite := do
  let s0 : ImageToWrite :=
    { head := RawImageHead.new image.version image.align,
      infos := [], sha1sums := [], data_head_infos := [], data_body := [] }
  let emission ← orderedItems image
  let s ← emission.foldlM ImageToWrite.append_item s0
  let s ← s.finalize image.version
  pure s.seal

/-- `Image::try_write_file`'s output bytes: the head-plus-table buffer
followed by the body. -/
def encodeImage (image : Image) : Except Error (List Nat) := do
  let s ← imageToWriteFromImage image
  pure (s.data_head_infos ++ s.data_body)

/- ===================================================================
   Claim C9: the verifier.
   =================================================================== -/

theorem verifyLoop_spec (l : List Item) (h : ∀ i ∈ l, i.sha1sum.isSome) :
    (verifyLoop l = .ok () ↔
      ∀ i ∈ l, ∀ d, i.sha1sum = some d → sha1Hash i.data = d) ∧
    (verifyLoop l = .ok () ∨ verifyLoop l = .error (.imageError .illegalVerify)) := by
  induction l with
  | nil => simp [verifyLoop]
  | cons a rest ih =>
    obtain ⟨d, hd⟩ := Option.isSome_iff_exists.mp (h a (by simp))
    have hrest := ih (fun i hi => h i (by simp [hi]))
    by_cases he : sha1Hash a.data = d
    · have hv : verifyLoop (a :: rest) = verifyLoop rest := by
        simp [verifyLoop, hd, he]
      rw [hv, hrest.1]
      refine ⟨⟨fun hall i hi d' hd' => ?_, fun hall i hi d' hd' => ?_⟩,
        hrest.2.imp (fun hok => hrest.1.mp hok) id⟩
      · rcases List.mem_cons.mp hi with rfl | hi'
        · rw [hd] at hd'
          cases hd'
          exact he
        · exact hall i hi' d' hd'
      · exact hall i (by simp [hi]) d' hd'
    · have hv : verifyLoop (a :: rest) = .error (.imageError .illegalVerify) := by
        simp [verifyLoop, hd, he]
      refine ⟨?_, Or.inr hv⟩
      rw [hv]
      constructor
      · intro hcon
        exact Except.noConfusion hcon
      · intro hall
        exact absurd (hall a (by simp) d hd) he

/-- C9: `verify` recomputes the digest of every digest-carrying item and
compares it with the stored one: it succeeds exactly when every stored
digest matches the recomputed one (digest-less items are skipped and are
never an error), any mismatch makes it fail with `IllegalVerify` (the
single fail-fast error value, so only the first failure is surfaced), and
the essential-item presence check is not surfaced: on the empty image
`verify` returns `Ok` while `find_essentials` fails with
`MissingItem DDR.USB`. -/
theorem c9_verify_digest_check :
    (∀ image : Image,
      Image.verify image = .ok () ↔
        ∀ i ∈ image.items, ∀ d, i.sha1sum = some d → sha1Hash i.data = d) ∧
    (∀ image : Image,
      (∃ i ∈ image.items, ∃ d, i.sha1sum = some d ∧ sha1Hash i.data ≠ d) →
        Image.verify image = .error (.imageError .illegalVerify)) ∧
    Image.verify { version := .V2, align := 4, items := [] } = .ok () ∧
    Image.find_essentials { version := .V2, align := 4, items := [] } =
      .error (.imageError (.missingItem sDDR sUSB)) := by
  have hfilter : ∀ image : Image, ∀ i ∈ image.items.filter (fun i => i.sha1sum.isSome),
      i.sha1sum.isSome := by
    intro image i hi
    simpa using (List.mem_filter.mp hi).2
  have key : ∀ image : Image,
      Image.verify image = .ok () ↔
        ∀ i ∈ image.items, ∀ d, i.sha1sum = some d → sha1Hash i.data = d := by
    intro image
    rw [Image.verify, (verifyLoop_spec _ (hfilter image)).1]
    constructor
    · intro hall i hi d hd
      refine hall i ?_ d hd
      exact List.mem_filter.mpr ⟨hi, by simp [hd]⟩
    · intro hall i hi d hd
      exact hall i (List.mem_filter.mp hi).1 d hd
  refine ⟨key, fun image hbad => ?_, by decide, by decide⟩
  obtain ⟨i, hi, d, hd, hne⟩ := hbad
  rcases (verifyLoop_spec _ (hfilter image)).2 with hok | herr
  · exact absurd (((key image).mp hok) i hi d hd) hne
  · exact herr

/-- Witness for C9: an image whose single item stores a digest different
from the SHA-1 of its bytes fails verification with `IllegalVerify`. -/
theorem c9_verify_digest_check_witness :
    Image.verify
        { version := .V2, align := 4,
          items := [{ data := [], extension := sPARTITION, stem := strA "boot",
                      sha1sum := some (List.replicate 20 1) }] } =
      .error (.imageError .illegalVerify) :=
  c9_verify_digest_check.2.1 _
    ⟨{ data := [], extension := sPARTITION, stem := strA "boot",
       sha1sum := some (List.replicate 20 1) }, by simp, List.replicate 20 1, rfl, by decide⟩

/- ===================================================================
   Claim C10: encoding requires a positive alignment.
   =================================================================== -/

/-- C10: appending a non-backup item divides by the configured alignment
(`(body_len + align - 1) / align * align`), so with `align = 0` the
append is the modelled division-by-zero panic instead of an error value;
a whole image with `align = 0` whose emission order is computable and
whose first emitted item carries a digest encodes to the panic; and
`set_ver_align` rounds a requested alignment `a ≤ 252` up to a multiple
of four via `(align + 3) >> 2 << 2` but maps a requested `0` to `0`, so
it does not establish the `align ≥ 1` precondition. -/
theorem c10_encode_partial_at_zero_align :
    (∀ (s : ImageToWrite) (item : Item) (d : List Nat),
      item.sha1sum = some d → s.head.item_align_size = 0 →
      (s.find_backup d).1 = 0 →
      s.append_item item = .error .divisionByZero) ∧
    (∀ (image : Image) (l : List Item),
      image.align = 0 → orderedItems image = .ok l →
      (l.head?.bind Item.sha1sum).isSome →
      encodeImage image = .error .divisionByZero) ∧
    (∀ a : Nat, a ≤ 252 → setAlignU8 a = 4 * ((a + 3) / 4)) ∧
    setAlignU8 0 = 0 ∧
    (∀ (image : Image) (ver : ImageVersion), (image.set_ver_align ver 0).align = 0) := by
  have part1 : ∀ (s : ImageToWrite) (item : Item) (d : List Nat),
      item.sha1sum = some d → s.head.item_align_size = 0 →
      (s.find_backup d).1 = 0 →
      s.append_item item = .error .divisionByZero := by
    intro s item d hd h0 hb
    rcases hfb : s.find_backup d with ⟨b1, brest⟩
    rw [hfb] at hb
    simp only at hb
    subst hb
    simp [ImageToWrite.append_item, hd, hfb, h0, Bind.bind, Except.bind, pure,
      Except.pure]
  have hz : setAlignU8 0 = 0 := by decide
  refine ⟨part1, ?_, ?_, hz, fun image ver => by simpa [Image.set_ver_align] using hz⟩
  · intro image l hal horder hsome
    obtain ⟨a, rest, rfl⟩ : ∃ a rest, l = a :: rest := by
      cases l with
      | nil => simp at hsome
      | cons a rest => exact ⟨a, rest, rfl⟩
    obtain ⟨dd, hdd⟩ : ∃ dd, a.sha1sum = some dd := by
      cases hh : a.sha1sum with
      | none => rw [List.head?_cons] at hsome; simp [hh] at hsome
      | some dd => exact ⟨dd, rfl⟩
    have her : ImageToWrite.append_item
        { head := RawImageHead.new image.version image.align, infos := [],
          sha1sums := [], data_head_infos := [], data_body := [] } a =
        .error .divisionByZero := by
      refine part1 _ a dd hdd ?_ rfl
      simp [RawImageHead.new, hal]
    simp [encodeImage, imageToWriteFromImage, horder, her, List.foldlM_cons,
      Bind.bind, Except.bind, Except.map, Functor.map]
  · intro a ha
    have h3 : (a + 3) % 256 = a + 3 := Nat.mod_eq_of_lt (by omega)
    simp only [setAlignU8, h3, Nat.shiftRight_eq_div_pow, Nat.shiftLeft_eq]
    norm_num
    omega

/-- A concrete image with alignment `0` used as the C10 witness. -/
def c10Img : Image :=
  { version := .V2, align := 0,
    items := [{ data := [1], extension := sUSB, stem := sDDR,
                sha1sum := some (List.replicate 20 2) },
              { data := [2], extension := sUSB, stem := sUBOOT,
                sha1sum := some (List.replicate 20 3) }] }

/-- Witness for C10: encoding the concrete zero-alignment image hits the
modelled division-by-zero panic. -/
theorem c10_encode_partial_at_zero_align_witness :
    encodeImage c10Img = .error .divisionByZero :=
  c10_encode_partial_at_zero_align.2.1 c10Img
    [{ data := [1], extension := sUSB, stem := sDDR, sha1sum := some (List.replicate 20 2) },
     { data := [2], extension := sUSB, stem := sUBOOT, sha1sum := some (List.replicate 20 3) }]
    rfl (by decide) (by decide)

/- ===================================================================
   Claim C5: backup deduplication and alignment in the encoder.
   =================================================================== -/

theorem findBackupGo_none (d : List Nat) (pairs : List (List Nat × RawItemInfo))
    (k : Nat)
    (h : ∀ q ∈ pairs,
      ¬(d = q.1 ∧ ¬(q.2.item_main_type = sUSB ∧ sENC.isSuffixOf q.2.item_sub_type))) :
    findBackupGo d pairs k = (0, 0, 0) := by
  induction pairs generalizing k with
  | nil => rfl
  | cons p rest ih =>
    rcases p with ⟨ps, pinfo⟩
    simp only [findBackupGo]
    rw [if_neg (h (ps, pinfo) (by simp))]
    exact ih (k + 1) (fun q hq => h q (by simp [hq]))

theorem findBackupGo_found (d : List Nat) (pre : List (List Nat × RawItemInfo))
    (p : List Nat × RawItemInfo) (post : List (List Nat × RawItemInfo)) (k : Nat)
    (hpre : ∀ q ∈ pre,
      ¬(d = q.1 ∧ ¬(q.2.item_main_type = sUSB ∧ sENC.isSuffixOf q.2.item_sub_type)))
    (hp : d = p.1 ∧ ¬(p.2.item_main_type = sUSB ∧ sENC.isSuffixOf p.2.item_sub_type)) :
    findBackupGo d (pre ++ p :: post) k =
      (1, (k + pre.length) % 2 ^ 16, p.2.offset_in_image) := by
  induction pre generalizing k with
  | nil =>
    rcases p with ⟨ps, pinfo⟩
    simp only [List.nil_append, findBackupGo]
    rw [if_pos hp]
    simp
  | cons q rest ih =>
    rcases q with ⟨qs, qinfo⟩
    simp only [List.cons_append, findBackupGo, List.append_eq]
    rw [if_neg (hpre (qs, qinfo) (by simp))]
    rw [ih (k + 1) (fun r hr => hpre r (by simp [hr]))]
    have : k + 1 + rest.length = k + (rest.length + 1) := by omega
    simp [this]

/-- C5: for every item the encoder appends, the previously appended
entries are scanned in emission order for the first one whose digest
equals the item's digest, excluding candidates whose record has main type
`USB` and a stem ending in `_ENC`; when such a candidate exists the new
record is marked `is_backup_item = 1` with the candidate's id and body
offset and the item's bytes are not appended (the body is unchanged for a
non-PARTITION item, and gains only the 48-byte verify payload for a
PARTITION item); when none exists the item's bytes are appended at the
next offset that is a multiple of the configured alignment, preceded by
zero padding up to that boundary. -/
theorem c5_backup_dedup_and_alignment :
    (∀ (s : ImageToWrite) (d : List Nat)
        (pre : List (List Nat × RawItemInfo)) (p : List Nat × RawItemInfo)
        (post : List (List Nat × RawItemInfo)),
      s.sha1sums.zip s.infos = pre ++ p :: post →
      (∀ q ∈ pre,
        ¬(d = q.1 ∧ ¬(q.2.item_main_type = sUSB ∧ sENC.isSuffixOf q.2.item_sub_type))) →
      (d = p.1 ∧ ¬(p.2.item_main_type = sUSB ∧ sENC.isSuffixOf p.2.item_sub_type)) →
      s.find_backup d = (1, pre.length % 2 ^ 16, p.2.offset_in_image)) ∧
    (∀ (s : ImageToWrite) (d : List Nat),
      (∀ q ∈ s.sha1sums.zip s.infos,
        ¬(d = q.1 ∧ ¬(q.2.item_main_type = sUSB ∧ sENC.isSuffixOf q.2.item_sub_type))) →
      s.find_backup d = (0, 0, 0)) ∧
    (∀ (s : ImageToWrite) (item : Item) (d : List Nat) (id off : Nat),
      item.sha1sum = some d → s.find_backup d = (1, id, off) →
      item.extension ≠ sPARTITION →
      s.append_item item = .ok
        { head := { s.head with item_count := s.head.item_count + 1 },
          infos := s.infos ++
            [{ item_id := s.infos.length % 2 ^ 32,
               file_type :=
                 if ANDROID_SPARSE_IMAGE_MAGIC_BYTES.isPrefixOf item.data then
                   FILE_TYPE_SPARSE
                 else FILE_TYPE_GENERIC,
               current_offset_in_item := 0, offset_in_image := off,
               item_size := item.data.length, item_main_type := item.extension,
               item_sub_type := item.stem, verify := 0, is_backup_item := 1,
               backup_item_id := id }],
          sha1sums := s.sha1sums ++ [d],
          data_head_infos := s.data_head_infos,
          data_body := s.data_body }) ∧
    (∀ (s : ImageToWrite) (item : Item) (d : List Nat) (id off : Nat),
      item.sha1sum = some d → s.find_backup d = (1, id, off) →
      item.extension = sPARTITION → (sha1sumLine d).length = 48 →
      s.append_item item = .ok
        { head := { s.head with item_count := s.head.item_count + 1 + 1 },
          infos := s.infos ++
            [{ item_id := s.infos.length % 2 ^ 32,
               file_type :=
                 if ANDROID_SPARSE_IMAGE_MAGIC_BYTES.isPrefixOf item.data then
                   FILE_TYPE_SPARSE
                 else FILE_TYPE_GENERIC,
               current_offset_in_item := 0, offset_in_image := off,
               item_size := item.data.length, item_main_type := item.extension,
               item_sub_type := item.stem, verify := 1, is_backup_item := 1,
               backup_item_id := id },
             { item_id := (s.infos.length + 1) % 2 ^ 32, file_type := 0,
               current_offset_in_item := 0, offset_in_image := off + item.data.length,
               item_size := 48, item_main_type := sVERIFY, item_sub_type := item.stem,
               verify := 0, is_backup_item := 1, backup_item_id := id + 1 }],
          sha1sums := s.sha1sums ++ [d, sha1Hash (sha1sumLine d)],
          data_head_infos := s.data_head_infos,
          data_body := s.data_body ++ sha1sumLine d }) ∧
    (∀ (s : ImageToWrite) (item : Item) (d : List Nat),
      item.sha1sum = some d → s.find_backup d = (0, 0, 0) →
      s.head.item_align_size ≠ 0 →
      (s.head.item_align_size ∣
        (s.data_body.length + s.head.item_align_size - 1) / s.head.item_align_size *
          s.head.item_align_size ∧
       s.data_body.length ≤
        (s.data_body.length + s.head.item_align_size - 1) / s.head.item_align_size *
          s.head.item_align_size ∧
       (s.data_body.length + s.head.item_align_size - 1) / s.head.item_align_size *
          s.head.item_align_size < s.data_body.length + s.head.item_align_size) ∧
      (item.extension ≠ sPARTITION →
        s.append_item item = .ok
          { head := { s.head with item_count := s.head.item_count + 1 },
            infos := s.infos ++
              [{ item_id := s.infos.length % 2 ^ 32,
                 file_type :=
                   if ANDROID_SPARSE_IMAGE_MAGIC_BYTES.isPrefixOf item.data then
                     FILE_TYPE_SPARSE
                   else FILE_TYPE_GENERIC,
                 current_offset_in_item := 0,
                 offset_in_image :=
                   (s.data_body.length + s.head.item_align_size - 1) /
                     s.head.item_align_size * s.head.item_align_size,
                 item_size := item.data.length, item_main_type := item.extension,
                 item_sub_type := item.stem, verify := 0, is_backup_item := 0,
                 backup_item_id := 0 }],
            sha1sums := s.sha1sums ++ [d],
            data_head_infos := s.data_head_infos,
            data_body := s.data_body ++
              List.replicate
                ((s.data_body.length + s.head.item_align_size - 1) /
                    s.head.item_align_size * s.head.item_align_size -
                  s.data_body.length) 0 ++ item.data })) := by
  have hdiv : ∀ len a : Nat, a ≠ 0 →
      a ∣ (len + a - 1) / a * a ∧ len ≤ (len + a - 1) / a * a ∧
        (len + a - 1) / a * a < len + a := by
    intro len a ha
    refine ⟨Dvd.intro_left _ rfl, ?_, ?_⟩
    · have h1 := Nat.div_add_mod' (len + a - 1) a
      have h2 := Nat.mod_lt (len + a - 1) (Nat.pos_of_ne_zero ha)
      omega
    · have h1 := Nat.div_add_mod' (len + a - 1) a
      omega
  refine ⟨?_, ?_, ?_, ?_, ?_⟩
  · intro s d pre p post hz hpre hp
    rw [ImageToWrite.find_backup, hz]
    simpa using findBackupGo_found d pre p post 0 hpre hp
  · intro s d h
    exact findBackupGo_none d _ 0 h
  · intro s item d id off hd hfb hext
    simp [ImageToWrite.append_item, hd, hfb, hext, Bind.bind, Except.bind, pure,
      Except.pure]
  · intro s item d id off hd hfb hext h48
    simp [ImageToWrite.append_item, hd, hfb, hext, h48, Bind.bind, Except.bind, pure,
      Except.pure]
  · intro s item d hd hfb ha
    refine ⟨hdiv s.data_body.length s.head.item_align_size ha, fun hext => ?_⟩
    simp [ImageToWrite.append_item, hd, hfb, hext, ha, Bind.bind, Except.bind, pure,
      Except.pure]

/-- A `DDR_ENC.USB` record used in the C5 witness (excluded from backup
candidacy despite its equal digest). -/
def c5EncInfo : RawItemInfo :=
  { item_id := 0, file_type := 0, current_offset_in_item := 0, offset_in_image := 3,
    item_size := 1, item_main_type := sUSB, item_sub_type := sDDR_ENC, verify := 0,
    is_backup_item := 0, backup_item_id := 0 }

/-- A generic record used in the C5 witness (the first valid backup
candidate). -/
def c5GenInfo : RawItemInfo :=
  { item_id := 1, file_type := 0, current_offset_in_item := 0, offset_in_image := 7,
    item_size := 1, item_main_type := strA "bin", item_sub_type := strA "cfg",
    verify := 0, is_backup_item := 0, backup_item_id := 0 }

/-- Witness for C5: with two previously appended entries carrying the
searched digest, the `DDR_ENC.USB` one is skipped and the scan returns
the second entry's id and body offset. -/
theorem c5_backup_dedup_and_alignment_witness :
    ImageToWrite.find_backup
        { head := RawImageHead.new .V2 4, infos := [c5EncInfo, c5GenInfo],
          sha1sums := [List.replicate 20 7, List.replicate 20 7],
          data_head_infos := [], data_body := [] }
        (List.replicate 20 7) = (1, 1 % 2 ^ 16, 7) :=
  c5_backup_dedup_and_alignment.1 _ (List.replicate 20 7)
    [(List.replicate 20 7, c5EncInfo)] (List.replicate 20 7, c5GenInfo) []
    rfl (by decide) (by decide)

/- ===================================================================
   Claim C6: the synthesized VERIFY record of a backup PARTITION.
   =================================================================== -/

/-- Encoder state after one 4-byte partition `boot.PARTITION` (digest of
twenty zero bytes) and its verify record: body holds the 4 data bytes at
offset 0 and the 48 payload bytes at offset 4. -/
def c6State : ImageToWrite :=
  { head := { crc := 0, version := 2, magic := MAGIC, image_size := 0,
              item_align_size := 4, item_count := 2 },
    infos := [{ item_id := 0, file_type := 0, current_offset_in_item := 0,
                offset_in_image := 0, item_size := 4, item_main_type := sPARTITION,
                item_sub_type := strA "boot", verify := 1, is_backup_item := 0,
                backup_item_id := 0 },
              { item_id := 1, file_type := 0, current_offset_in_item := 0,
                offset_in_image := 4, item_size := 48, item_main_type := sVERIFY,
                item_sub_type := strA "boot", verify := 0, is_backup_item := 0,
                backup_item_id := 0 }],
    sha1sums := [List.replicate 20 0, sha1Hash (sha1sumLine (List.replicate 20 0))],
    data_head_infos := [],
    data_body := [9, 9, 9, 9] ++ sha1sumLine (List.replicate 20 0) }

/-- A second partition with the same digest, so it becomes a backup of
the first. -/
def c6Item : Item :=
  { data := [9, 9, 9, 9], extension := sPARTITION, stem := strA "boot_b",
    sha1sum := some (List.replicate 20 0) }

/-- C6 failing input, evaluated: appending the backup partition `c6Item`
marks both its record and its synthesized VERIFY record as backups
(`backup_item_id` 0 and 0+1) with offsets 0 and 4 pointing into the
original partition's bytes — but, divergence from the claim, the 48-byte
verify payload IS appended to the body (`src/image.rs` line 847 runs
unconditionally), leaving the body 48 bytes longer with no record
pointing at the new copy. -/
theorem c6_backup_verify_payload_appended :
    (ImageToWrite.append_item c6State c6Item).map
        (fun s2 => (s2.data_body, s2.infos.map
          (fun i => (i.item_main_type, i.offset_in_image, i.is_backup_item,
            i.backup_item_id)))) =
      .ok (c6State.data_body ++ sha1sumLine (List.replicate 20 0),
        [(sPARTITION, 0, 0, 0), (sVERIFY, 4, 0, 0),
         (sPARTITION, 0, 1, 0), (sVERIFY, 4, 1, 1)]) ∧
    c6State.data_body.length = 52 ∧
    (ImageToWrite.append_item c6State c6Item).map (fun s2 => s2.data_body.length) =
      .ok 100 := by
  exact ⟨by decide, by decide, by decide⟩

/- ===================================================================
   Claim C7: finalize layout and whole-image checksum.
   =================================================================== -/

theorem bytes_fill_from_str_length (L : Nat) (s : List Nat) :
    (bytes_fill_from_str L s).length = L := by
  simp only [bytes_fill_from_str, List.length_append, List.length_take,
    List.length_replicate]
  omega

theorem serializeHead_length (h : RawImageHead) :
    (serializeHead h).length = SIZE_RAW_IMAGE_HEAD := by
  simp [serializeHead, u32le, u64le, leBytes_length, SIZE_RAW_IMAGE_HEAD]

theorem serializeInfo_length (L : Nat) (i : RawItemInfo) :
    (serializeInfo L i).length = 64 + 2 * L := by
  simp [serializeInfo, u32le, u64le, u16le, leBytes_length, bytes_fill_from_str_length]
  omega

theorem serializeInfos_length (W : Nat) (infos : List RawItemInfo) :
    ((infos.map (serializeInfo W)).flatten).length = infos.length * (64 + 2 * W) := by
  induction infos with
  | nil => simp
  | cons i rest ih =>
    simp [ih, serializeInfo_length]
    ring

/-- C7: finalize computes `table_offset = header_size + record_size *
item_count`, shifts every recorded `offset_in_image` up by it, produces a
head buffer of exactly that length (so the `SizeMismatch` guard passes),
and sets `image_size = body_length + table_offset`; the seal step then
writes into the first four header bytes the CRC primitive run over the
head buffer from byte 4 to its end followed by all body bytes — every
byte of the final image except the first 4. -/
theorem c7_finalize_layout_and_checksum :
    (∀ (s : ImageToWrite) (v : ImageVersion),
      s.head.item_count = s.infos.length →
      ∃ s', s.finalize v = .ok s' ∧
        s'.data_head_infos.length =
          SIZE_RAW_IMAGE_HEAD + v.sizeRawInfo * s.head.item_count ∧
        s'.infos = s.infos.map (fun i =>
          { i with offset_in_image := i.offset_in_image +
              (SIZE_RAW_IMAGE_HEAD + v.sizeRawInfo * s.head.item_count) }) ∧
        s'.head.image_size = s.data_body.length +
          (SIZE_RAW_IMAGE_HEAD + v.sizeRawInfo * s.head.item_count) ∧
        s'.data_body = s.data_body) ∧
    (∀ s : ImageToWrite,
      s.seal.data_head_infos =
        u32le (crc32 (s.data_head_infos.drop 4 ++ s.data_body)) ++
          s.data_head_infos.drop 4 ∧
      s.seal.head.crc = crc32 (s.data_head_infos.drop 4 ++ s.data_body) ∧
      s.seal.data_body = s.data_body ∧
      s.seal.data_head_infos.take 4 =
        u32le (crc32 (s.data_head_infos.drop 4 ++ s.data_body))) := by
  constructor
  · intro s v hc
    refine ⟨{ s with
          head := { s.head with
            image_size := s.data_body.length +
              (SIZE_RAW_IMAGE_HEAD + v.sizeRawInfo * s.head.item_count),
            version := v.toRaw },
          infos := s.infos.map (fun i =>
            { i with offset_in_image := i.offset_in_image +
                (SIZE_RAW_IMAGE_HEAD + v.sizeRawInfo * s.head.item_count) }),
          data_head_infos := serializeHead
              { s.head with
                image_size := s.data_body.length +
                  (SIZE_RAW_IMAGE_HEAD + v.sizeRawInfo * s.head.item_count),
                version := v.toRaw } ++
            ((s.infos.map (fun i =>
              { i with offset_in_image := i.offset_in_image +
                  (SIZE_RAW_IMAGE_HEAD + v.sizeRawInfo * s.head.item_count) })).map
                (serializeInfo v.sizeItemType)).flatten },
      ?_, ?_, rfl, rfl, rfl⟩
    · simp only [ImageToWrite.finalize, Bind.bind, Except.bind, pure, Except.pure]
      split
      · next hcond =>
        exfalso
        apply hcond
        rw [List.length_append, serializeHead_length, serializeInfos_length]
        simp only [hc, ImageVersion.sizeRawInfo, List.length_map]
        ring
      · rfl
    · rw [List.length_append, serializeHead_length, serializeInfos_length]
      simp only [hc, ImageVersion.sizeRawInfo, List.length_map]
      ring
  · intro s
    have hcv : crc32 (s.data_head_infos.drop 4 ++ s.data_body) =
        crc32Update (crc32Update 0xffffffff (s.data_head_infos.drop 4)) s.data_body := by
      simp [crc32, crc32Update, List.foldl_append]
    refine ⟨by simp [ImageToWrite.seal, hcv], by simp [ImageToWrite.seal, hcv], rfl, ?_⟩
    have h1 : s.seal.data_head_infos =
        u32le (crc32 (s.data_head_infos.drop 4 ++ s.data_body)) ++
          s.data_head_infos.drop 4 := by
      simp [ImageToWrite.seal, hcv]
    rw [h1, List.take_left' (by simp [u32le, leBytes_length])]

/-- A small encoder state used as the C7 witness. -/
def c7State : ImageToWrite :=
  { head := RawImageHead.new .V1 4, infos := [], sha1sums := [],
    data_head_infos := [], data_body := [1, 2] }

/-- Witness for C7 at the concrete state `c7State` (item count 0, body
of two bytes). -/
theorem c7_finalize_layout_and_checksum_witness :
    ∃ s', ImageToWrite.finalize c7State .V1 = .ok s' ∧
      s'.data_head_infos.length =
        SIZE_RAW_IMAGE_HEAD + ImageVersion.sizeRawInfo .V1 * c7State.head.item_count ∧
      s'.infos = c7State.infos.map (fun i =>
        { i with offset_in_image := i.offset_in_image +
            (SIZE_RAW_IMAGE_HEAD +
              ImageVersion.sizeRawInfo .V1 * c7State.head.item_count) }) ∧
      s'.head.image_size = c7State.data_body.length +
        (SIZE_RAW_IMAGE_HEAD + ImageVersion.sizeRawInfo .V1 * c7State.head.item_count) ∧
      s'.data_body = c7State.data_body :=
  c7_finalize_layout_and_checksum.1 c7State .V1 rfl

/- ===================================================================
   Claim C4: the emission order and reserved-USB slot errors.
   =================================================================== -/

/-- Whether an item is a `*.USB` item. -/
def isUsbItem (i : Item) : Bool := i.extension == sUSB

/-- Whether an item is the reserved `<st>.USB` item. -/
def isRes (st : List Nat) (i : Item) : Bool := (i.extension == sUSB) && (i.stem == st)

/-- Whether a `*.USB` stem is one of the four reserved ones. -/
def reservedStem (st : List Nat) : Bool :=
  (st == sDDR) || (st == sUBOOT) || (st == sDDR_ENC) || (st == sUBOOT_ENC)

theorem isRes_false_of_stem_ne (st : List Nat) (i : Item) (h : i.stem ≠ st) :
    isRes st i = false := by
  simp [isRes, h]

theorem isRes_false_of_ext_ne (st : List Nat) (i : Item) (h : i.extension ≠ sUSB) :
    isRes st i = false := by
  simp [isRes, h]

theorem classifyUsb_ok (rest : List Item) :
    ∀ (d0 de0 u0 ue0 : Option Item) (g0 : List Item)
      (d de u ue : Option Item) (g : List Item),
    classifyUsb rest d0 de0 u0 ue0 g0 = .ok (d, de, u, ue, g) →
    d = (match d0 with | some x => some x | none => rest.find? (isRes sDDR)) ∧
    de = (match de0 with | some x => some x | none => rest.find? (isRes sDDR_ENC)) ∧
    u = (match u0 with | some x => some x | none => rest.find? (isRes sUBOOT)) ∧
    ue = (match ue0 with | some x => some x | none => rest.find? (isRes sUBOOT_ENC)) ∧
    g = g0 ++ rest.filter (fun i => !(i.extension == sUSB)) ∧
    (∀ i ∈ rest, i.extension = sUSB → reservedStem i.stem = true) ∧
    (d0.isSome → ∀ j ∈ rest, isRes sDDR j = false) ∧
    (de0.isSome → ∀ j ∈ rest, isRes sDDR_ENC j = false) ∧
    (u0.isSome → ∀ j ∈ rest, isRes sUBOOT j = false) ∧
    (ue0.isSome → ∀ j ∈ rest, isRes sUBOOT_ENC j = false) ∧
    (rest.filter isUsbItem).Pairwise (fun a b => a.stem ≠ b.stem) := by
  induction rest with
  | nil =>
    intro d0 de0 u0 ue0 g0 d de u ue g h
    simp only [classifyUsb, Except.ok.injEq, Prod.mk.injEq] at h
    obtain ⟨h1, h2, h3, h4, h5⟩ := h
    subst h1; subst h2; subst h3; subst h4; subst h5
    refine ⟨?_, ?_, ?_, ?_, by simp, by simp, by simp, by simp, by simp, by simp,
      by simp⟩
    all_goals cases d0 <;> cases de0 <;> cases u0 <;> cases ue0 <;> simp
  | cons i rest ih =>
    intro d0 de0 u0 ue0 g0 d de u ue g h
    by_cases hu : i.extension = sUSB
    · have husb : isUsbItem i = true := by simp [isUsbItem, hu]
      by_cases h1 : i.stem = sDDR
      · simp only [classifyUsb, if_pos hu, if_pos h1] at h
        cases d0 with
        | some x => simp at h
        | none =>
          simp only [Option.isSome_none, Bool.false_eq_true, if_false] at h
          obtain ⟨c1, c2, c3, c4, c5, c6, c7, c8, c9, c10, c11⟩ :=
            ih _ _ _ _ _ _ _ _ _ _ h
          simp only at c1
          have hres : isRes sDDR i = true := by simp [isRes, hu, h1]
          have hn2 : isRes sDDR_ENC i = false :=
            isRes_false_of_stem_ne _ _ (by rw [h1]; decide)
          have hn3 : isRes sUBOOT i = false :=
            isRes_false_of_stem_ne _ _ (by rw [h1]; decide)
          have hn4 : isRes sUBOOT_ENC i = false :=
            isRes_false_of_stem_ne _ _ (by rw [h1]; decide)
          refine ⟨?_, ?_, ?_, ?_, ?_, ?_, by simp, ?_, ?_, ?_, ?_⟩
          · rw [List.find?_cons_of_pos _ hres]; exact c1
          · rw [List.find?_cons_of_neg _ (by simp [hn2])]; exact c2
          · rw [List.find?_cons_of_neg _ (by simp [hn3])]; exact c3
          · rw [List.find?_cons_of_neg _ (by simp [hn4])]; exact c4
          · rw [List.filter_cons_of_neg (by simp [hu])]; exact c5
          · intro j hj hju
            rcases List.mem_cons.mp hj with rfl | hj'
            · simp [reservedStem, h1]
            · exact c6 j hj' hju
          · intro hs j hj
            rcases List.mem_cons.mp hj with rfl | hj'
            · exact hn2
            · exact c8 hs j hj'
          · intro hs j hj
            rcases List.mem_cons.mp hj with rfl | hj'
            · exact hn3
            · exact c9 hs j hj'
          · intro hs j hj
            rcases List.mem_cons.mp hj with rfl | hj'
            · exact hn4
            · exact c10 hs j hj'
          · rw [List.filter_cons_of_pos husb]
            refine List.Pairwise.cons ?_ c11
            intro j hj heq
            have hjm := List.mem_of_mem_filter hj
            have hju : isUsbItem j = true := List.of_mem_filter hj
            have hres' : isRes sDDR j = true := by
              have hje : j.extension = sUSB := by simpa [isUsbItem] using hju
              have hjs : j.stem = sDDR := heq ▸ h1
              simp [isRes, hje, hjs]
            rw [c7 (by simp) j hjm] at hres'
            cases hres'
      · by_cases h2 : i.stem = sUBOOT
        · simp only [classifyUsb, if_pos hu, if_neg h1, if_pos h2] at h
          cases u0 with
          | some x => simp at h
          | none =>
            simp only [Option.isSome_none, Bool.false_eq_true, if_false] at h
            obtain ⟨c1, c2, c3, c4, c5, c6, c7, c8, c9, c10, c11⟩ :=
              ih _ _ _ _ _ _ _ _ _ _ h
            simp only at c3
            have hres : isRes sUBOOT i = true := by simp [isRes, hu, h2]
            have hn1 : isRes sDDR i = false :=
              isRes_false_of_stem_ne _ _ (by rw [h2]; decide)
            have hn2 : isRes sDDR_ENC i = false :=
              isRes_false_of_stem_ne _ _ (by rw [h2]; decide)
            have hn4 : isRes sUBOOT_ENC i = false :=
              isRes_false_of_stem_ne _ _ (by rw [h2]; decide)
            refine ⟨?_, ?_, ?_, ?_, ?_, ?_, ?_, ?_, by simp, ?_, ?_⟩
            · rw [List.find?_cons_of_neg _ (by simp [hn1])]; exact c1
            · rw [List.find?_cons_of_neg _ (by simp [hn2])]; exact c2
            · rw [List.find?_cons_of_pos _ hres]; exact c3
            · rw [List.find?_cons_of_neg _ (by simp [hn4])]; exact c4
            · rw [List.filter_cons_of_neg (by simp [hu])]; exact c5
            · intro j hj hju
              rcases List.mem_cons.mp hj with rfl | hj'
              · simp [reservedStem, h2]
              · exact c6 j hj' hju
            · intro hs j hj
              rcases List.mem_cons.mp hj with rfl | hj'
              · exact hn1
              · exact c7 hs j hj'
            · intro hs j hj
              rcases List.mem_cons.mp hj with rfl | hj'
              · exact hn2
              · exact c8 hs j hj'
            · intro hs j hj
              rcases List.mem_cons.mp hj with rfl | hj'
              · exact hn4
              · exact c10 hs j hj'
            · rw [List.filter_cons_of_pos husb]
              refine List.Pairwise.cons ?_ c11
              intro j hj heq
              have hjm := List.mem_of_mem_filter hj
              have hju : isUsbItem j = true := List.of_mem_filter hj
              have hres' : isRes sUBOOT j = true := by
                have hje : j.extension = sUSB := by simpa [isUsbItem] using hju
                have hjs : j.stem = sUBOOT := heq ▸ h2
                simp [isRes, hje, hjs]
              rw [c9 (by simp) j hjm] at hres'
              cases hres'
        · by_cases h3 : i.stem = sDDR_ENC
          · simp only [classifyUsb, if_pos hu, if_neg h1, if_neg h2, if_pos h3] at h
            cases de0 with
            | some x => simp at h
            | none =>
              simp only [Option.isSome_none, Bool.false_eq_true, if_false] at h
              obtain ⟨c1, c2, c3, c4, c5, c6, c7, c8, c9, c10, c11⟩ :=
                ih _ _ _ _ _ _ _ _ _ _ h
              simp only at c2
              have hres : isRes sDDR_ENC i = true := by simp [isRes, hu, h3]
              have hn1 : isRes sDDR i = false :=
                isRes_false_of_stem_ne _ _ (by rw [h3]; decide)
              have hn3 : isRes sUBOOT i = false :=
                isRes_false_of_stem_ne _ _ (by rw [h3]; decide)
              have hn4 : isRes sUBOOT_ENC i = false :=
                isRes_false_of_stem_ne _ _ (by rw [h3]; decide)
              refine ⟨?_, ?_, ?_, ?_, ?_, ?_, ?_, by simp, ?_, ?_, ?_⟩
              · rw [List.find?_cons_of_neg _ (by simp [hn1])]; exact c1
              · rw [List.find?_cons_of_pos _ hres]; exact c2
              · rw [List.find?_cons_of_neg _ (by simp [hn3])]; exact c3
              · rw [List.find?_cons_of_neg _ (by simp [hn4])]; exact c4
              · rw [List.filter_cons_of_neg (by simp [hu])]; exact c5
              · intro j hj hju
                rcases List.mem_cons.mp hj with rfl | hj'
                · simp [reservedStem, h3]
                · exact c6 j hj' hju
              · intro hs j hj
                rcases List.mem_cons.mp hj with rfl | hj'
                · exact hn1
                · exact c7 hs j hj'
              · intro hs j hj
                rcases List.mem_cons.mp hj with rfl | hj'
                · exact hn3
                · exact c9 hs j hj'
              · intro hs j hj
                rcases List.mem_cons.mp hj with rfl | hj'
                · exact hn4
                · exact c10 hs j hj'
              · rw [List.filter_cons_of_pos husb]
                refine List.Pairwise.cons ?_ c11
                intro j hj heq
                have hjm := List.mem_of_mem_filter hj
                have hju : isUsbItem j = true := List.of_mem_filter hj
                have hres' : isRes sDDR_ENC j = true := by
                  have hje : j.extension = sUSB := by simpa [isUsbItem] using hju
                  have hjs : j.stem = sDDR_ENC := heq ▸ h3
                  simp [isRes, hje, hjs]
                rw [c8 (by simp) j hjm] at hres'
                cases hres'
          · by_cases h4 : i.stem = sUBOOT_ENC
            · simp only [classifyUsb, if_pos hu, if_neg h1, if_neg h2, if_neg h3,
                if_pos h4] at h
              cases ue0 with
              | some x => simp at h
              | none =>
                simp only [Option.isSome_none, Bool.false_eq_true, if_false] at h
                obtain ⟨c1, c2, c3, c4, c5, c6, c7, c8, c9, c10, c11⟩ :=
                  ih _ _ _ _ _ _ _ _ _ _ h
                simp only at c4
                have hres : isRes sUBOOT_ENC i = true := by simp [isRes, hu, h4]
                have hn1 : isRes sDDR i = false :=
                  isRes_false_of_stem_ne _ _ (by rw [h4]; decide)
                have hn2 : isRes sDDR_ENC i = false :=
                  isRes_false_of_stem_ne _ _ (by rw [h4]; decide)
                have hn3 : isRes sUBOOT i = false :=
                  isRes_false_of_stem_ne _ _ (by rw [h4]; decide)
                refine ⟨?_, ?_, ?_, ?_, ?_, ?_, ?_, ?_, ?_, by simp, ?_⟩
                · rw [List.find?_cons_of_neg _ (by simp [hn1])]; exact c1
                · rw [List.find?_cons_of_neg _ (by simp [hn2])]; exact c2
                · rw [List.find?_cons_of_neg _ (by simp [hn3])]; exact c3
                · rw [List.find?_cons_of_pos _ hres]; exact c4
                · rw [List.filter_cons_of_neg (by simp [hu])]; exact c5
                · intro j hj hju
                  rcases List.mem_cons.mp hj with rfl | hj'
                  · simp [reservedStem, h4]
                  · exact c6 j hj' hju
                · intro hs j hj
                  rcases List.mem_cons.mp hj with rfl | hj'
                  · exact hn1
                  · exact c7 hs j hj'
                · intro hs j hj
                  rcases List.mem_cons.mp hj with rfl | hj'
                  · exact hn2
                  · exact c8 hs j hj'
                · intro hs j hj
                  rcases List.mem_cons.mp hj with rfl | hj'
                  · exact hn3
                  · exact c9 hs j hj'
                · rw [List.filter_cons_of_pos husb]
                  refine List.Pairwise.cons ?_ c11
                  intro j hj heq
                  have hjm := List.mem_of_mem_filter hj
                  have hju : isUsbItem j = true := List.of_mem_filter hj
                  have hres' : isRes sUBOOT_ENC j = true := by
                    have hje : j.extension = sUSB := by simpa [isUsbItem] using hju
                    have hjs : j.stem = sUBOOT_ENC := heq ▸ h4
                    simp [isRes, hje, hjs]
                  rw [c10 (by simp) j hjm] at hres'
                  cases hres'
            · simp only [classifyUsb, if_pos hu, if_neg h1, if_neg h2, if_neg h3,
                if_neg h4] at h
              simp at h
    · simp only [classifyUsb, if_neg hu] at h
      obtain ⟨c1, c2, c3, c4, c5, c6, c7, c8, c9, c10, c11⟩ :=
        ih _ _ _ _ _ _ _ _ _ _ h
      have husb : isUsbItem i = false := by simp [isUsbItem, hu]
      have hn1 : isRes sDDR i = false := isRes_false_of_ext_ne _ _ hu
      have hn2 : isRes sDDR_ENC i = false := isRes_false_of_ext_ne _ _ hu
      have hn3 : isRes sUBOOT i = false := isRes_false_of_ext_ne _ _ hu
      have hn4 : isRes sUBOOT_ENC i = false := isRes_false_of_ext_ne _ _ hu
      refine ⟨?_, ?_, ?_, ?_, ?_, ?_, ?_, ?_, ?_, ?_, ?_⟩
      · rw [List.find?_cons_of_neg _ (by simp [hn1])]; exact c1
      · rw [List.find?_cons_of_neg _ (by simp [hn2])]; exact c2
      · rw [List.find?_cons_of_neg _ (by simp [hn3])]; exact c3
      · rw [List.find?_cons_of_neg _ (by simp [hn4])]; exact c4
      · rw [List.filter_cons_of_pos (by simp [hu])]
        rw [c5]
        simp
      · intro j hj hju
        rcases List.mem_cons.mp hj with rfl | hj'
        · exact absurd hju hu
        · exact c6 j hj' hju
      · intro hs j hj
        rcases List.mem_cons.mp hj with rfl | hj'
        · exact hn1
        · exact c7 hs j hj'
      · intro hs j hj
        rcases List.mem_cons.mp hj with rfl | hj'
        · exact hn2
        · exact c8 hs j hj'
      · intro hs j hj
        rcases List.mem_cons.mp hj with rfl | hj'
        · exact hn3
        · exact c9 hs j hj'
      · intro hs j hj
        rcases List.mem_cons.mp hj with rfl | hj'
        · exact hn4
        · exact c10 hs j hj'
      · rw [List.filter_cons_of_neg (by simp [husb])]
        exact c11

theorem slot_free_of_pairwise (i : Item) (rest : List Item) (st : List Nat)
    (husb : isUsbItem i = true) (hstem : i.stem = st)
    (hp : ((i :: rest).filter isUsbItem).Pairwise (fun a b => a.stem ≠ b.stem)) :
    ∀ j ∈ rest, isRes st j = false := by
  intro j hj
  rw [List.filter_cons_of_pos husb] at hp
  by_cases hjres : isRes st j = true
  · have hje : j.extension = sUSB ∧ j.stem = st := by simpa [isRes] using hjres
    have hjf : j ∈ rest.filter isUsbItem :=
      List.mem_filter.mpr ⟨hj, by simp [isUsbItem, hje.1]⟩
    have := (List.pairwise_cons.mp hp).1 j hjf
    exact absurd (hstem.trans hje.2.symm) this
  · simpa using hjres

theorem pairwise_tail_filter (i : Item) (rest : List Item)
    (hp : ((i :: rest).filter isUsbItem).Pairwise (fun a b => a.stem ≠ b.stem)) :
    (rest.filter isUsbItem).Pairwise (fun a b => a.stem ≠ b.stem) := by
  by_cases husb : isUsbItem i = true
  · rw [List.filter_cons_of_pos husb] at hp
    exact (List.pairwise_cons.mp hp).2
  · rwa [List.filter_cons_of_neg (by simpa using husb)] at hp

theorem classifyUsb_unexpected (rest : List Item) :
    ∀ (d0 de0 u0 ue0 : Option Item) (g0 : List Item) (b : Item),
    rest.find? (fun i => isUsbItem i && !reservedStem i.stem) = some b →
    ((rest.filter isUsbItem).Pairwise (fun a b => a.stem ≠ b.stem)) →
    (d0.isSome → ∀ j ∈ rest, isRes sDDR j = false) →
    (de0.isSome → ∀ j ∈ rest, isRes sDDR_ENC j = false) →
    (u0.isSome → ∀ j ∈ rest, isRes sUBOOT j = false) →
    (ue0.isSome → ∀ j ∈ rest, isRes sUBOOT_ENC j = false) →
    classifyUsb rest d0 de0 u0 ue0 g0 =
      .error (.imageError (.unexpectedItem b.stem sUSB)) := by
  induction rest with
  | nil =>
    intro _ _ _ _ _ b hb
    simp at hb
  | cons i rest ih =>
    intro d0 de0 u0 ue0 g0 b hb hp hc1 hc2 hc3 hc4
    by_cases hbad : (isUsbItem i && !reservedStem i.stem) = true
    · rw [@List.find?_cons_of_pos _ (fun i => isUsbItem i && !reservedStem i.stem)
        i rest hbad] at hb
      injection hb with hb
      subst hb
      obtain ⟨husb, hres⟩ := Bool.and_eq_true_iff.mp hbad
      have hu : i.extension = sUSB := by simpa [isUsbItem] using husb
      have hres' : reservedStem i.stem = false := by simpa using hres
      simp only [reservedStem, Bool.or_eq_false_iff, beq_eq_false_iff_ne] at hres'
      obtain ⟨⟨⟨hs1, hs2⟩, hs3⟩, hs4⟩ := hres'
      simp only [classifyUsb, if_pos hu, if_neg hs1, if_neg hs2, if_neg hs3,
        if_neg hs4]
    · rw [@List.find?_cons_of_neg _ (fun i => isUsbItem i && !reservedStem i.stem)
        i rest hbad] at hb
      have hptail := pairwise_tail_filter i rest hp
      by_cases hu : i.extension = sUSB
      · have husb : isUsbItem i = true := by simp [isUsbItem, hu]
        have hres : reservedStem i.stem = true := by
          rcases Bool.eq_false_or_eq_true (reservedStem i.stem) with ht | hf
          · exact ht
          · exact absurd (by simp [husb, hf]) hbad
        simp only [reservedStem, Bool.or_eq_true_iff, beq_iff_eq] at hres
        rcases hres with ((h1 | h2) | h3) | h4
        · cases d0 with
          | some x =>
            exact absurd (hc1 (by simp) i (by simp)) (by simp [isRes, hu, h1])
          | none =>
            simp only [classifyUsb, if_pos hu, if_pos h1, Option.isSome_none,
              Bool.false_eq_true, if_false]
            exact ih _ _ _ _ _ b hb hptail
              (fun _ => slot_free_of_pairwise i rest sDDR husb h1 hp)
              (fun hs j hj => hc2 hs j (by simp [hj]))
              (fun hs j hj => hc3 hs j (by simp [hj]))
              (fun hs j hj => hc4 hs j (by simp [hj]))
        · cases u0 with
          | some x =>
            exact absurd (hc3 (by simp) i (by simp)) (by simp [isRes, hu, h2])
          | none =>
            have hn1 : i.stem ≠ sDDR := by rw [h2]; decide
            simp only [classifyUsb, if_pos hu, if_neg hn1, if_pos h2,
              Option.isSome_none, Bool.false_eq_true, if_false]
            exact ih _ _ _ _ _ b hb hptail
              (fun hs j hj => hc1 hs j (by simp [hj]))
              (fun hs j hj => hc2 hs j (by simp [hj]))
              (fun _ => slot_free_of_pairwise i rest sUBOOT husb h2 hp)
              (fun hs j hj => hc4 hs j (by simp [hj]))
        · cases de0 with
          | some x =>
            exact absurd (hc2 (by simp) i (by simp)) (by simp [isRes, hu, h3])
          | none =>
            have hn1 : i.stem ≠ sDDR := by rw [h3]; decide
            have hn2 : i.stem ≠ sUBOOT := by rw [h3]; decide
            simp only [classifyUsb, if_pos hu, if_neg hn1, if_neg hn2, if_pos h3,
              Option.isSome_none, Bool.false_eq_true, if_false]
            exact ih _ _ _ _ _ b hb hptail
              (fun hs j hj => hc1 hs j (by simp [hj]))
              (fun _ => slot_free_of_pairwise i rest sDDR_ENC husb h3 hp)
              (fun hs j hj => hc3 hs j (by simp [hj]))
              (fun hs j hj => hc4 hs j (by simp [hj]))
        · cases ue0 with
          | some x =>
            exact absurd (hc4 (by simp) i (by simp)) (by simp [isRes, hu, h4])
          | none =>
            have hn1 : i.stem ≠ sDDR := by rw [h4]; decide
            have hn2 : i.stem ≠ sUBOOT := by rw [h4]; decide
            have hn3 : i.stem ≠ sDDR_ENC := by rw [h4]; decide
            simp only [classifyUsb, if_pos hu, if_neg hn1, if_neg hn2, if_neg hn3,
              if_pos h4, Option.isSome_none, Bool.false_eq_true, if_false]
            exact ih _ _ _ _ _ b hb hptail
              (fun hs j hj => hc1 hs j (by simp [hj]))
              (fun hs j hj => hc2 hs j (by simp [hj]))
              (fun hs j hj => hc3 hs j (by simp [hj]))
              (fun _ => slot_free_of_pairwise i rest sUBOOT_ENC husb h4 hp)
      · simp only [classifyUsb, if_neg hu]
        exact ih _ _ _ _ _ b hb hptail
          (fun hs j hj => hc1 hs j (by simp [hj]))
          (fun hs j hj => hc2 hs j (by simp [hj]))
          (fun hs j hj => hc3 hs j (by simp [hj]))
          (fun hs j hj => hc4 hs j (by simp [hj]))

theorem classifyUsb_error_duplicated (rest : List Item) :
    ∀ (d0 de0 u0 ue0 : Option Item) (g0 : List Item) (e : Error),
    (∀ i ∈ rest, i.extension = sUSB → reservedStem i.stem = true) →
    classifyUsb rest d0 de0 u0 ue0 g0 = .error e →
    ∃ st, e = .imageError (.duplicatedItem st sUSB) := by
  induction rest with
  | nil =>
    intro _ _ _ _ _ e _ h
    simp [classifyUsb] at h
  | cons i rest ih =>
    intro d0 de0 u0 ue0 g0 e hgood h
    have hgood' : ∀ j ∈ rest, j.extension = sUSB → reservedStem j.stem = true :=
      fun j hj => hgood j (by simp [hj])
    by_cases hu : i.extension = sUSB
    · have hres := hgood i (by simp) hu
      simp only [reservedStem, Bool.or_eq_true_iff, beq_iff_eq] at hres
      rcases hres with ((h1 | h2) | h3) | h4
      · simp only [classifyUsb, if_pos hu, if_pos h1] at h
        cases d0 with
        | some x =>
          simp only [Option.isSome_some, if_true] at h
          injection h with h
          exact ⟨i.stem, h.symm⟩
        | none =>
          simp only [Option.isSome_none, Bool.false_eq_true, if_false] at h
          exact ih _ _ _ _ _ _ hgood' h
      · have hn1 : i.stem ≠ sDDR := by rw [h2]; decide
        simp only [classifyUsb, if_pos hu, if_neg hn1, if_pos h2] at h
        cases u0 with
        | some x =>
          simp only [Option.isSome_some, if_true] at h
          injection h with h
          exact ⟨i.stem, h.symm⟩
        | none =>
          simp only [Option.isSome_none, Bool.false_eq_true, if_false] at h
          exact ih _ _ _ _ _ _ hgood' h
      · have hn1 : i.stem ≠ sDDR := by rw [h3]; decide
        have hn2 : i.stem ≠ sUBOOT := by rw [h3]; decide
        simp only [classifyUsb, if_pos hu, if_neg hn1, if_neg hn2, if_pos h3] at h
        cases de0 with
        | some x =>
          simp only [Option.isSome_some, if_true] at h
          injection h with h
          exact ⟨i.stem, h.symm⟩
        | none =>
          simp only [Option.isSome_none, Bool.false_eq_true, if_false] at h
          exact ih _ _ _ _ _ _ hgood' h
      · have hn1 : i.stem ≠ sDDR := by rw [h4]; decide
        have hn2 : i.stem ≠ sUBOOT := by rw [h4]; decide
        have hn3 : i.stem ≠ sDDR_ENC := by rw [h4]; decide
        simp only [classifyUsb, if_pos hu, if_neg hn1, if_neg hn2, if_neg hn3,
          if_pos h4] at h
        cases ue0 with
        | some x =>
          simp only [Option.isSome_some, if_true] at h
          injection h with h
          exact ⟨i.stem, h.symm⟩
        | none =>
          simp only [Option.isSome_none, Bool.false_eq_true, if_false] at h
          exact ih _ _ _ _ _ _ hgood' h
    · simp only [classifyUsb, if_neg hu] at h
      exact ih _ _ _ _ _ _ hgood' h

theorem classifyUsb_total (rest : List Item) :
    ∀ (d0 de0 u0 ue0 : Option Item) (g0 : List Item),
    (∀ i ∈ rest, i.extension = sUSB → reservedStem i.stem = true) →
    ((rest.filter isUsbItem).Pairwise (fun a b => a.stem ≠ b.stem)) →
    (d0.isSome → ∀ j ∈ rest, isRes sDDR j = false) →
    (de0.isSome → ∀ j ∈ rest, isRes sDDR_ENC j = false) →
    (u0.isSome → ∀ j ∈ rest, isRes sUBOOT j = false) →
    (ue0.isSome → ∀ j ∈ rest, isRes sUBOOT_ENC j = false) →
    ∃ res, classifyUsb rest d0 de0 u0 ue0 g0 = .ok res := by
  induction rest with
  | nil =>
    intro d0 de0 u0 ue0 g0 _ _ _ _ _ _
    exact ⟨_, rfl⟩
  | cons i rest ih =>
    intro d0 de0 u0 ue0 g0 hgood hp hc1 hc2 hc3 hc4
    have hptail := pairwise_tail_filter i rest hp
    have hgood' : ∀ j ∈ rest, j.extension = sUSB → reservedStem j.stem = true :=
      fun j hj => hgood j (by simp [hj])
    by_cases hu : i.extension = sUSB
    · have husb : isUsbItem i = true := by simp [isUsbItem, hu]
      have hres := hgood i (by simp) hu
      simp only [reservedStem, Bool.or_eq_true_iff, beq_iff_eq] at hres
      rcases hres with ((h1 | h2) | h3) | h4
      · cases d0 with
        | some x =>
          exact absurd (hc1 (by simp) i (by simp)) (by simp [isRes, hu, h1])
        | none =>
          simp only [classifyUsb, if_pos hu, if_pos h1, Option.isSome_none,
            Bool.false_eq_true, if_false]
          exact ih _ _ _ _ _ hgood' hptail
            (fun _ => slot_free_of_pairwise i rest sDDR husb h1 hp)
            (fun hs j hj => hc2 hs j (by simp [hj]))
            (fun hs j hj => hc3 hs j (by simp [hj]))
            (fun hs j hj => hc4 hs j (by simp [hj]))
      · cases u0 with
        | some x =>
          exact absurd (hc3 (by simp) i (by simp)) (by simp [isRes, hu, h2])
        | none =>
          have hn1 : i.stem ≠ sDDR := by rw [h2]; decide
          simp only [classifyUsb, if_pos hu, if_neg hn1, if_pos h2,
            Option.isSome_none, Bool.false_eq_true, if_false]
          exact ih _ _ _ _ _ hgood' hptail
            (fun hs j hj => hc1 hs j (by simp [hj]))
            (fun hs j hj => hc2 hs j (by simp [hj]))
            (fun _ => slot_free_of_pairwise i rest sUBOOT husb h2 hp)
            (fun hs j hj => hc4 hs j (by simp [hj]))
      · cases de0 with
        | some x =>
          exact absurd (hc2 (by simp) i (by simp)) (by simp [isRes, hu, h3])
        | none =>
          have hn1 : i.stem ≠ sDDR := by rw [h3]; decide
          have hn2 : i.stem ≠ sUBOOT := by rw [h3]; decide
          simp only [classifyUsb, if_pos hu, if_neg hn1, if_neg hn2, if_pos h3,
            Option.isSome_none, Bool.false_eq_true, if_false]
          exact ih _ _ _ _ _ hgood' hptail
            (fun hs j hj => hc1 hs j (by simp [hj]))
            (fun _ => slot_free_of_pairwise i rest sDDR_ENC husb h3 hp)
            (fun hs j hj => hc3 hs j (by simp [hj]))
            (fun hs j hj => hc4 hs j (by simp [hj]))
      · cases ue0 with
        | some x =>
          exact absurd (hc4 (by simp) i (by simp)) (by simp [isRes, hu, h4])
        | none =>
          have hn1 : i.stem ≠ sDDR := by rw [h4]; decide
          have hn2 : i.stem ≠ sUBOOT := by rw [h4]; decide
          have hn3 : i.stem ≠ sDDR_ENC := by rw [h4]; decide
          simp only [classifyUsb, if_pos hu, if_neg hn1, if_neg hn2, if_neg hn3,
            if_pos h4, Option.isSome_none, Bool.false_eq_true, if_false]
          exact ih _ _ _ _ _ hgood' hptail
            (fun hs j hj => hc1 hs j (by simp [hj]))
            (fun hs j hj => hc2 hs j (by simp [hj]))
            (fun hs j hj => hc3 hs j (by simp [hj]))
            (fun _ => slot_free_of_pairwise i rest sUBOOT_ENC husb h4 hp)
    · simp only [classifyUsb, if_neg hu]
      exact ih _ _ _ _ _ hgood' hptail
        (fun hs j hj => hc1 hs j (by simp [hj]))
        (fun hs j hj => hc2 hs j (by simp [hj]))
        (fun hs j hj => hc3 hs j (by simp [hj]))
        (fun hs j hj => hc4 hs j (by simp [hj]))

theorem bytesCmp_eq_iff (x : List Nat) : ∀ y, bytesCmp x y = .eq ↔ x = y := by
  induction x with
  | nil =>
    intro y
    cases y <;> simp [bytesCmp]
  | cons a xs ih =>
    intro y
    cases y with
    | nil => simp [bytesCmp]
    | cons b ys =>
      rcases Nat.lt_trichotomy a b with h | h | h
      · simp [bytesCmp, h, Nat.ne_of_lt h]
      · subst h
        simp [bytesCmp, lt_irrefl, ih]
      · have h1 : ¬ a < b := by omega
        simp [bytesCmp, h1, h, (Nat.ne_of_lt h).symm]
  
theorem bytesCmp_lt_trans (x : List Nat) :
    ∀ y z, bytesCmp x y = .lt → bytesCmp y z = .lt → bytesCmp x z = .lt := by
  induction x with
  | nil =>
    intro y z hxy hyz
    cases y with
    | nil => simp [bytesCmp] at hxy
    | cons b ys =>
      cases z with
      | nil => simp [bytesCmp] at hyz
      | cons c zs => simp [bytesCmp]
  | cons a xs ih =>
    intro y z hxy hyz
    cases y with
    | nil => simp [bytesCmp] at hxy
    | cons b ys =>
      cases z with
      | nil => simp [bytesCmp] at hyz
      | cons c zs =>
        simp only [bytesCmp] at hxy hyz ⊢
        split_ifs at hxy hyz ⊢ <;>
          first
          | rfl
          | omega
          | (exact ih ys zs hxy hyz)

theorem bytesCmp_gt_iff (x : List Nat) :
    ∀ y, bytesCmp x y = .gt ↔ bytesCmp y x = .lt := by
  induction x with
  | nil =>
    intro y
    cases y <;> simp [bytesCmp]
  | cons a xs ih =>
    intro y
    cases y with
    | nil => simp [bytesCmp]
    | cons b ys =>
      simp only [bytesCmp]
      split_ifs <;>
        first
        | omega
        | simp
        | (exact ih ys)

theorem bytesCmp_le_trans (x y z : List Nat) (h1 : bytesCmp x y ≠ .gt)
    (h2 : bytesCmp y z ≠ .gt) : bytesCmp x z ≠ .gt := by
  cases hxy : bytesCmp x y with
  | gt => exact absurd hxy h1
  | eq =>
    rw [bytesCmp_eq_iff] at hxy
    subst hxy
    exact h2
  | lt =>
    cases hyz : bytesCmp y z with
    | gt => exact absurd hyz h2
    | eq =>
      rw [bytesCmp_eq_iff] at hyz
      subst hyz
      simp [hxy]
    | lt => simp [bytesCmp_lt_trans x y z hxy hyz]

theorem nameLe_total (a b : Item) : nameLe a b ∨ nameLe b a := by
  by_cases h : sort_items_by_name a b = .gt
  · right
    unfold nameLe sort_items_by_name at *
    cases hs : bytesCmp a.stem b.stem with
    | eq =>
      rw [hs] at h
      simp only at h
      have hs' : bytesCmp b.stem a.stem = .eq := by
        rw [bytesCmp_eq_iff] at hs ⊢
        exact hs.symm
      rw [hs']
      have : bytesCmp b.extension a.extension = .lt := (bytesCmp_gt_iff _ _).mp h
      simp [this]
    | lt =>
      rw [hs] at h
      simp at h
    | gt =>
      have : bytesCmp b.stem a.stem = .lt := (bytesCmp_gt_iff _ _).mp hs
      rw [this]
      simp
  · left
    exact h

theorem nameLe_trans (a b c : Item) (hab : nameLe a b) (hbc : nameLe b c) :
    nameLe a c := by
  unfold nameLe sort_items_by_name at *
  cases hsab : bytesCmp a.stem b.stem with
  | gt =>
    rw [hsab] at hab
    exact absurd rfl hab
  | eq =>
    rw [hsab] at hab
    simp only at hab
    have hs : a.stem = b.stem := (bytesCmp_eq_iff _ _).mp hsab
    cases hsbc : bytesCmp b.stem c.stem with
    | gt =>
      rw [hsbc] at hbc
      exact absurd rfl hbc
    | eq =>
      rw [hsbc] at hbc
      simp only at hbc
      have hs2 : b.stem = c.stem := (bytesCmp_eq_iff _ _).mp hsbc
      have hac : bytesCmp a.stem c.stem = .eq :=
        (bytesCmp_eq_iff _ _).mpr (hs.trans hs2)
      rw [hac]
      exact bytesCmp_le_trans _ _ _ hab hbc
    | lt =>
      have hac : bytesCmp a.stem c.stem = .lt := by
        rw [hs]
        exact hsbc
      rw [hac]
      simp
  | lt =>
    cases hsbc : bytesCmp b.stem c.stem with
    | gt =>
      rw [hsbc] at hbc
      exact absurd rfl hbc
    | eq =>
      have hs2 : b.stem = c.stem := (bytesCmp_eq_iff _ _).mp hsbc
      have hac : bytesCmp a.stem c.stem = .lt := by
        rw [← hs2]
        exact hsab
      rw [hac]
      simp
    | lt =>
      have hac := bytesCmp_lt_trans _ _ _ hsab hsbc
      rw [hac]
      simp

instance : IsTotal Item nameLe := ⟨nameLe_total⟩

instance : IsTrans Item nameLe := ⟨nameLe_trans⟩

theorem sortItems_perm (l : List Item) : (sortItems l).Perm l :=
  List.perm_insertionSort _ l

theorem sortItems_sorted (l : List Item) : (sortItems l).Pairwise nameLe :=
  List.sorted_insertionSort _ l

/-- C4: on success the encoder emits `DDR.USB`, then `DDR_ENC.USB` when
present, then `UBOOT.USB`, then `UBOOT_ENC.USB` when present, then the
remaining items stably sorted ascending by `(stem, extension)` in
byte-lexicographic order (the sorted tail is a sorted permutation of the
non-USB items); a `USB` item with any other stem yields `UnexpectedItem`
(first such item, in the absence of an earlier duplicate); two items
claiming the same reserved `USB` slot yield `DuplicatedItem`; and a
missing `DDR.USB` or `UBOOT.USB` yields the corresponding
`MissingItem`. -/
theorem c4_emission_order_and_usb_errors :
    (∀ (image : Image) (l : List Item),
      orderedItems image = .ok l →
      ∃ dd uu,
        image.items.find? (isRes sDDR) = some dd ∧
        image.items.find? (isRes sUBOOT) = some uu ∧
        l = [dd] ++ (image.items.find? (isRes sDDR_ENC)).toList ++ [uu] ++
          (image.items.find? (isRes sUBOOT_ENC)).toList ++
          sortItems (image.items.filter (fun i => !(i.extension == sUSB))) ∧
        (sortItems (image.items.filter (fun i => !(i.extension == sUSB)))).Pairwise
          nameLe ∧
        (sortItems (image.items.filter (fun i => !(i.extension == sUSB)))).Perm
          (image.items.filter (fun i => !(i.extension == sUSB)))) ∧
    (∀ (image : Image) (b : Item),
      ((image.items.filter isUsbItem).Pairwise (fun a b => a.stem ≠ b.stem)) →
      image.items.find? (fun i => isUsbItem i && !reservedStem i.stem) = some b →
      orderedItems image = .error (.imageError (.unexpectedItem b.stem sUSB))) ∧
    (∀ image : Image,
      (∀ i ∈ image.items, i.extension = sUSB → reservedStem i.stem = true) →
      ¬((image.items.filter isUsbItem).Pairwise (fun a b => a.stem ≠ b.stem)) →
      ∃ st, orderedItems image = .error (.imageError (.duplicatedItem st sUSB))) ∧
    (∀ image : Image,
      (∀ i ∈ image.items, i.extension = sUSB → reservedStem i.stem = true) →
      ((image.items.filter isUsbItem).Pairwise (fun a b => a.stem ≠ b.stem)) →
      image.items.find? (isRes sDDR) = none →
      orderedItems image = .error (.imageError (.missingItem sDDR sUSB))) ∧
    (∀ image : Image,
      (∀ i ∈ image.items, i.extension = sUSB → reservedStem i.stem = true) →
      ((image.items.filter isUsbItem).Pairwise (fun a b => a.stem ≠ b.stem)) →
      image.items.find? (isRes sDDR) ≠ none →
      image.items.find? (isRes sUBOOT) = none →
      orderedItems image = .error (.imageError (.missingItem sUBOOT sUSB))) := by
  refine ⟨?_, ?_, ?_, ?_, ?_⟩
  · intro image l horder
    cases hcl : classifyUsb image.items none none none none [] with
    | error e => simp [orderedItems, hcl, Bind.bind, Except.bind, pure, Except.pure] at horder
    | ok res =>
      rcases res with ⟨d, de, u, ue, g⟩
      obtain ⟨c1, c2, c3, c4, c5, _, _, _, _, _, _⟩ :=
        classifyUsb_ok _ _ _ _ _ _ _ _ _ _ _ hcl
      simp only at c1 c2 c3 c4
      simp only [List.nil_append] at c5
      cases d with
      | none => simp [orderedItems, hcl, Bind.bind, Except.bind, pure, Except.pure] at horder
      | some dd =>
        cases u with
        | none => simp [orderedItems, hcl, Bind.bind, Except.bind, pure, Except.pure] at horder
        | some uu =>
          simp only [orderedItems, hcl, Bind.bind, Except.bind, pure,
            Except.pure, Except.ok.injEq] at horder
          subst c2
          subst c4
          subst c5
          refine ⟨dd, uu, c1.symm, c3.symm, horder.symm.trans ?_,
            sortItems_sorted _, sortItems_perm _⟩
          simp
  · intro image b hp hb
    have hcl := classifyUsb_unexpected image.items none none none none [] b hb hp
      (by simp) (by simp) (by simp) (by simp)
    simp [orderedItems, hcl, Bind.bind, Except.bind, pure, Except.pure]
  · intro image hgood hdup
    cases hcl : classifyUsb image.items none none none none [] with
    | ok res =>
      rcases res with ⟨d, de, u, ue, g⟩
      obtain ⟨_, _, _, _, _, _, _, _, _, _, c11⟩ :=
        classifyUsb_ok _ _ _ _ _ _ _ _ _ _ _ hcl
      exact absurd c11 hdup
    | error e =>
      obtain ⟨st, hst⟩ :=
        classifyUsb_error_duplicated image.items _ _ _ _ _ e hgood hcl
      refine ⟨st, ?_⟩
      rw [← hst]
      simp [orderedItems, hcl, Bind.bind, Except.bind, pure, Except.pure]
  · intro image hgood hp hddr
    obtain ⟨res, hcl⟩ := classifyUsb_total image.items none none none none []
      hgood hp (by simp) (by simp) (by simp) (by simp)
    rcases res with ⟨d, de, u, ue, g⟩
    obtain ⟨c1, _, _, _, _, _, _, _, _, _, _⟩ :=
      classifyUsb_ok _ _ _ _ _ _ _ _ _ _ _ hcl
    simp only at c1
    rw [hddr] at c1
    subst c1
    simp [orderedItems, hcl, Bind.bind, Except.bind, pure, Except.pure]
  · intro image hgood hp hddr huboot
    obtain ⟨res, hcl⟩ := classifyUsb_total image.items none none none none []
      hgood hp (by simp) (by simp) (by simp) (by simp)
    rcases res with ⟨d, de, u, ue, g⟩
    obtain ⟨c1, _, c3, _, _, _, _, _, _, _, _⟩ :=
      classifyUsb_ok _ _ _ _ _ _ _ _ _ _ _ hcl
    simp only at c1 c3
    rw [huboot] at c3
    subst c3
    obtain ⟨dd, hdd⟩ : ∃ dd, image.items.find? (isRes sDDR) = some dd := by
      cases hx : image.items.find? (isRes sDDR) with
      | none => exact absurd hx hddr
      | some dd => exact ⟨dd, rfl⟩
    rw [hdd] at c1
    subst c1
    simp [orderedItems, hcl, Bind.bind, Except.bind, pure, Except.pure]

/-- Concrete items for the C4 witness. -/
def c4Ddr : Item := { data := [1], extension := sUSB, stem := sDDR, sha1sum := none }

/-- Concrete items for the C4 witness. -/
def c4Uboot : Item := { data := [2], extension := sUSB, stem := sUBOOT, sha1sum := none }

/-- Concrete items for the C4 witness. -/
def c4GenA : Item := { data := [3], extension := strA "bin", stem := strA "a", sha1sum := none }

/-- Concrete items for the C4 witness. -/
def c4GenB : Item := { data := [4], extension := strA "bin", stem := strA "b", sha1sum := none }

/-- Concrete image for the C4 witness, stored out of emission order. -/
def c4Img : Image :=
  { version := .V2, align := 4, items := [c4GenB, c4Uboot, c4Ddr, c4GenA] }

/-- Witness for C4: the concrete image emits `DDR.USB`, `UBOOT.USB`, then
the generic items sorted by name. -/
theorem c4_emission_order_and_usb_errors_witness :
    ∃ dd uu,
      c4Img.items.find? (isRes sDDR) = some dd ∧
      c4Img.items.find? (isRes sUBOOT) = some uu ∧
      [c4Ddr, c4Uboot, c4GenA, c4GenB] = [dd] ++
        (c4Img.items.find? (isRes sDDR_ENC)).toList ++ [uu] ++
        (c4Img.items.find? (isRes sUBOOT_ENC)).toList ++
        sortItems (c4Img.items.filter (fun i => !(i.extension == sUSB))) ∧
      (sortItems (c4Img.items.filter (fun i => !(i.extension == sUSB)))).Pairwise
        nameLe ∧
      (sortItems (c4Img.items.filter (fun i => !(i.extension == sUSB)))).Perm
        (c4Img.items.filter (fun i => !(i.extension == sUSB))) :=
  c4_emission_order_and_usb_errors.1 c4Img [c4Ddr, c4Uboot, c4GenA, c4GenB] (by decide)

/- ===================================================================
   Claim C8: the encode/decode round trip.

   Supporting development: byte-slice arithmetic, field-level
   round-trip lemmas for the serializers, an invariant of the encoder
   state over the emission list, and a correctness lemma for the
   decode loop over the serialized table.
   =================================================================== -/

theorem bslice_append_right (a b : List Nat) (off len : Nat) (h : a.length ≤ off) :
    bslice (a ++ b) off len = bslice b (off - a.length) len := by
  have hd : a.drop off = [] := List.drop_eq_nil_of_le h
  simp [bslice, List.drop_append_eq_append_drop, hd]

theorem bslice_append_left (a b : List Nat) (off len : Nat) (h : off + len ≤ a.length) :
    bslice (a ++ b) off len = bslice a off len := by
  have h1 : off ≤ a.length := by omega
  rw [bslice, bslice, List.drop_append_of_le_length h1,
    List.take_append_of_le_length (by simp [List.length_drop]; omega)]

theorem bslice_front (a b : List Nat) (len : Nat) (h : a.length = len) :
    bslice (a ++ b) 0 len = a := by
  simp [bslice, List.take_left' h]

theorem bslice_at (a b : List Nat) : bslice (a ++ b) a.length b.length = b := by
  simp [bslice, List.drop_left' rfl]

theorem bslice_all (a : List Nat) : bslice a 0 a.length = a := by
  simp [bslice]

theorem takeWhile_ne_zero_append_zeros (s : List Nat) (h0 : 0 ∉ s) (n : Nat) :
    List.takeWhile (fun b => b ≠ 0) (s ++ List.replicate (n + 1) 0) = s := by
  induction s with
  | nil => simp [List.replicate_succ, List.takeWhile_cons]
  | cons a rest ih =>
    have ha : a ≠ 0 := by
      intro h
      exact h0 (by simp [h])
    have h0' : 0 ∉ rest := by
      intro h
      exact h0 (List.mem_cons_of_mem a h)
    simp only [List.cons_append, List.takeWhile_cons, ha]
    simpa [ha] using ih h0'

/-- `parseName` recovers a NUL-free name that fits the zero-padded field. -/
theorem parseName_fill (W : Nat) (s : List Nat) (h0 : 0 ∉ s)
    (hl : s.length ≤ W - 1) (hW : 1 ≤ W) :
    parseName (bytes_fill_from_str W s) = s := by
  have hk : min (W - 1) s.length = s.length := by omega
  rw [parseName, bytes_fill_from_str, hk, List.take_length]
  rw [show W - s.length = (W - s.length - 1) + 1 by omega]
  exact takeWhile_ne_zero_append_zeros s h0 _

theorem hexDigitVal_hexDigitChar (n : Nat) (h : n < 16) :
    hexDigitVal (hexDigitChar n) = some n := by
  unfold hexDigitVal hexDigitChar
  by_cases h10 : n < 10
  · rw [if_pos h10, if_pos (by omega)]
    simp
  · rw [if_neg h10, if_neg (by omega), if_pos (by omega)]
    congr 1

theorem hex02_length (b : Nat) : (hex02 b).length = 2 := rfl

theorem sha1Display_length (d : List Nat) : (sha1Display d).length = 2 * d.length := by
  induction d with
  | nil => rfl
  | cons a rest ih =>
    simp only [sha1Display, List.flatMap_cons, List.length_append] at ih ⊢
    rw [ih]
    simp [hex02]
    ring

theorem sha1sumLine_length (d : List Nat) (h : d.length = 20) :
    (sha1sumLine d).length = 48 := by
  rw [sha1sumLine, List.length_append, sha1Display_length, h]
  rfl

theorem hexPairs_hex02_append (b : Nat) (hb : b < 256) (rest : List Nat)
    (r : List Nat) (hr : hexPairs rest = some r) :
    hexPairs (hex02 b ++ rest) = some (b :: r) := by
  have h1 : b / 16 % 16 < 16 := Nat.mod_lt _ (by omega)
  have h2 : b % 16 < 16 := Nat.mod_lt _ (by omega)
  have : 16 * (b / 16 % 16) + b % 16 = b := by
    have hd : b / 16 < 16 := by omega
    rw [Nat.mod_eq_of_lt hd]
    omega
  simp only [hex02, List.cons_append, List.nil_append, hexPairs,
    hexDigitVal_hexDigitChar _ h1, hexDigitVal_hexDigitChar _ h2,
    Bind.bind, Option.bind, List.append, hr, this, pure]

theorem hexPairs_sha1Display (d : List Nat) (hb : ∀ b ∈ d, b < 256) :
    hexPairs (sha1Display d) = some d := by
  induction d with
  | nil => rfl
  | cons a rest ih =>
    have ha : a < 256 := hb a (by simp)
    have hrest : ∀ b ∈ rest, b < 256 := fun b h => hb b (List.mem_cons_of_mem a h)
    simp only [sha1Display, List.flatMap_cons]
    exact hexPairs_hex02_append a ha _ rest (ih hrest)

/-- The hex digest written by the encoder parses back to the digest. -/
theorem sha1sumFromHex_sha1Display (d : List Nat) (hl : d.length = 20)
    (hb : ∀ b ∈ d, b < 256) :
    sha1sumFromHex (sha1Display d) = some d := by
  rw [sha1sumFromHex, if_pos (by rw [sha1Display_length, hl]),
    hexPairs_sha1Display d hb]

theorem bslice_sha1sumLine (d : List Nat) (hl : d.length = 20) :
    bslice (sha1sumLine d) 8 40 = sha1Display d := by
  rw [sha1sumLine, bslice_append_right _ _ _ _ (by rfl)]
  show bslice (sha1Display d) (8 - 8) 40 = sha1Display d
  have : (40 : Nat) = (sha1Display d).length := by rw [sha1Display_length, hl]
  rw [this]
  exact bslice_all _

theorem sSHA1SUMSP_isPrefixOf_line (d : List Nat) :
    sSHA1SUMSP.isPrefixOf (sha1sumLine d) = true := by
  rw [ List.isPrefixOf_iff_prefix]
  exact ⟨sha1Display d, rfl⟩

theorem bslice_take_mid (pre mid post : List Nat) (off len : Nat)
    (hpre : pre.length = off) (hmid : mid.length = len) :
    bslice (pre ++ (mid ++ post)) off len = mid := by
  rw [bslice_append_right _ _ _ _ (by omega), hpre, Nat.sub_self]
  exact bslice_front _ _ _ hmid

/-- Field-level round trip for one serialized record: the decode-relevant
fields of `parseInfo` over `serializeInfo` recover the record. -/
theorem parseInfo_serializeInfo (L : Nat) (i : RawItemInfo) (hL : 1 ≤ L)
    (hmain0 : 0 ∉ i.item_main_type) (hmainl : i.item_main_type.length ≤ L - 1)
    (hsub0 : 0 ∉ i.item_sub_type) (hsubl : i.item_sub_type.length ≤ L - 1) :
    (parseInfo L (serializeInfo L i)).offset_in_image = i.offset_in_image % 2 ^ 64 ∧
    (parseInfo L (serializeInfo L i)).item_size = i.item_size % 2 ^ 64 ∧
    (parseInfo L (serializeInfo L i)).item_main_type = i.item_main_type ∧
    (parseInfo L (serializeInfo L i)).item_sub_type = i.item_sub_type ∧
    (parseInfo L (serializeInfo L i)).verify = i.verify % 2 ^ 32 := by
  have hoff : bslice (serializeInfo L i) 16 8 = u64le i.offset_in_image := by
    rw [show serializeInfo L i =
        (u32le i.item_id ++ u32le i.file_type ++ u64le i.current_offset_in_item) ++
        (u64le i.offset_in_image ++ (u64le i.item_size ++
          (bytes_fill_from_str L i.item_main_type ++
            (bytes_fill_from_str L i.item_sub_type ++ (u32le i.verify ++
              (u16le i.is_backup_item ++ (u16le i.backup_item_id ++
                List.replicate 24 0))))))) from by
      simp [serializeInfo, List.append_assoc]]
    exact bslice_take_mid _ _ _ _ _
      (by simp [u32le, u64le, leBytes_length]) (leBytes_length 8 _)
  have hsz : bslice (serializeInfo L i) 24 8 = u64le i.item_size := by
    rw [show serializeInfo L i =
        (u32le i.item_id ++ u32le i.file_type ++ u64le i.current_offset_in_item ++
          u64le i.offset_in_image) ++
        (u64le i.item_size ++
          (bytes_fill_from_str L i.item_main_type ++
            (bytes_fill_from_str L i.item_sub_type ++ (u32le i.verify ++
              (u16le i.is_backup_item ++ (u16le i.backup_item_id ++
                List.replicate 24 0)))))) from by
      simp [serializeInfo, List.append_assoc]]
    exact bslice_take_mid _ _ _ _ _
      (by simp [u32le, u64le, leBytes_length]) (leBytes_length 8 _)
  have hmain : bslice (serializeInfo L i) 32 L =
      bytes_fill_from_str L i.item_main_type := by
    rw [show serializeInfo L i =
        (u32le i.item_id ++ u32le i.file_type ++ u64le i.current_offset_in_item ++
          u64le i.offset_in_image ++ u64le i.item_size) ++
        (bytes_fill_from_str L i.item_main_type ++
          (bytes_fill_from_str L i.item_sub_type ++ (u32le i.verify ++
            (u16le i.is_backup_item ++ (u16le i.backup_item_id ++
              List.replicate 24 0))))) from by
      simp [serializeInfo, List.append_assoc]]
    exact bslice_take_mid _ _ _ _ _
      (by simp [u32le, u64le, leBytes_length]) (bytes_fill_from_str_length _ _)
  have hsub : bslice (serializeInfo L i) (32 + L) L =
      bytes_fill_from_str L i.item_sub_type := by
    rw [show serializeInfo L i =
        (u32le i.item_id ++ u32le i.file_type ++ u64le i.current_offset_in_item ++
          u64le i.offset_in_image ++ u64le i.item_size ++
          bytes_fill_from_str L i.item_main_type) ++
        (bytes_fill_from_str L i.item_sub_type ++ (u32le i.verify ++
          (u16le i.is_backup_item ++ (u16le i.backup_item_id ++
            List.replicate 24 0)))) from by
      simp [serializeInfo, List.append_assoc]]
    exact bslice_take_mid _ _ _ _ _
      (by simp [u32le, u64le, leBytes_length, bytes_fill_from_str_length]; ring)
      (bytes_fill_from_str_length _ _)
  have hver : bslice (serializeInfo L i) (32 + 2 * L) 4 = u32le i.verify := by
    rw [show serializeInfo L i =
        (u32le i.item_id ++ u32le i.file_type ++ u64le i.current_offset_in_item ++
          u64le i.offset_in_image ++ u64le i.item_size ++
          bytes_fill_from_str L i.item_main_type ++
          bytes_fill_from_str L i.item_sub_type) ++
        (u32le i.verify ++ (u16le i.is_backup_item ++ (u16le i.backup_item_id ++
          List.replicate 24 0))) from by
      simp [serializeInfo, List.append_assoc]]
    exact bslice_take_mid _ _ _ _ _
      (by simp [u32le, u64le, leBytes_length, bytes_fill_from_str_length]; ring)
      (leBytes_length 4 _)
  simp only [parseInfo]
  refine ⟨?_, ?_, ?_, ?_, ?_⟩
  · rw [hoff, u64le, leVal_leBytes]
    norm_num
  · rw [hsz, u64le, leVal_leBytes]
    norm_num
  · rw [hmain]
    exact parseName_fill L _ hmain0 hmainl hL
  · rw [hsub]
    exact parseName_fill L _ hsub0 hsubl hL
  · rw [hver, u32le, leVal_leBytes]
    norm_num

/-- Field-level round trip for the serialized head. -/
theorem parseHead_serializeHead (h : RawImageHead) (tail : List Nat) :
    (parseHead (bslice (serializeHead h ++ tail) 0 SIZE_RAW_IMAGE_HEAD)).version =
      h.version % 2 ^ 32 ∧
    (parseHead (bslice (serializeHead h ++ tail) 0 SIZE_RAW_IMAGE_HEAD)).magic =
      h.magic % 2 ^ 32 ∧
    (parseHead (bslice (serializeHead h ++ tail) 0 SIZE_RAW_IMAGE_HEAD)).item_align_size =
      h.item_align_size % 2 ^ 32 ∧
    (parseHead (bslice (serializeHead h ++ tail) 0 SIZE_RAW_IMAGE_HEAD)).item_count =
      h.item_count % 2 ^ 32 := by
  rw [bslice_front _ _ _ (serializeHead_length h)]
  have hver : bslice (serializeHead h) 4 4 = u32le h.version := by
    rw [show serializeHead h = u32le h.crc ++
        (u32le h.version ++ (u32le h.magic ++ (u64le h.image_size ++
          (u32le h.item_align_size ++ (u32le h.item_count ++
            List.replicate 36 0))))) from by
      simp [serializeHead, List.append_assoc]]
    exact bslice_take_mid _ _ _ _ _ (leBytes_length 4 _) (leBytes_length 4 _)
  have hmag : bslice (serializeHead h) 8 4 = u32le h.magic := by
    rw [show serializeHead h = (u32le h.crc ++ u32le h.version) ++
        (u32le h.magic ++ (u64le h.image_size ++
          (u32le h.item_align_size ++ (u32le h.item_count ++
            List.replicate 36 0)))) from by
      simp [serializeHead, List.append_assoc]]
    exact bslice_take_mid _ _ _ _ _
      (by simp [u32le, leBytes_length]) (leBytes_length 4 _)
  have halg : bslice (serializeHead h) 20 4 = u32le h.item_align_size := by
    rw [show serializeHead h = (u32le h.crc ++ u32le h.version ++ u32le h.magic ++
          u64le h.image_size) ++
        (u32le h.item_align_size ++ (u32le h.item_count ++
          List.replicate 36 0)) from by
      simp [serializeHead, List.append_assoc]]
    exact bslice_take_mid _ _ _ _ _
      (by simp [u32le, u64le, leBytes_length]) (leBytes_length 4 _)
  have hcnt : bslice (serializeHead h) 24 4 = u32le h.item_count := by
    rw [show serializeHead h = (u32le h.crc ++ u32le h.version ++ u32le h.magic ++
          u64le h.image_size ++ u32le h.item_align_size) ++
        (u32le h.item_count ++ List.replicate 36 0) from by
      simp [serializeHead, List.append_assoc]]
    exact bslice_take_mid _ _ _ _ _
      (by simp [u32le, u64le, leBytes_length]) (leBytes_length 4 _)
  simp only [parseHead]
  refine ⟨?_, ?_, ?_, ?_⟩
  · rw [hver, u32le, leVal_leBytes]
    norm_num
  · rw [hmag, u32le, leVal_leBytes]
    norm_num
  · rw [halg, u32le, leVal_leBytes]
    norm_num
  · rw [hcnt, u32le, leVal_leBytes]
    norm_num

/-- Slot extraction: the `k`-th fixed-width record inside the
concatenated table. -/
theorem bslice_flatten (L : Nat) (recs : List (List Nat))
    (hlen : ∀ r ∈ recs, r.length = L) (tail : List Nat) :
    ∀ k, k < recs.length →
      bslice (recs.flatten ++ tail) (L * k) L = recs.getD k [] := by
  induction recs with
  | nil => intro k hk; simp at hk
  | cons r rest ih =>
    intro k hk
    have hr : r.length = L := hlen r (by simp)
    cases k with
    | zero =>
      rw [Nat.mul_zero, List.flatten_cons, List.append_assoc]
      exact (bslice_front _ _ _ hr).trans (by simp)
    | succ k =>
      rw [List.flatten_cons, List.append_assoc,
        bslice_append_right _ _ _ _
          (by rw [hr]
              have h1 := Nat.mul_le_mul_left L (show 1 ≤ k + 1 by omega)
              simpa using h1),
        hr, show L * (k + 1) - L = L * k by rw [Nat.mul_succ]; omega]
      exact (ih (fun x hx => hlen x (by simp [hx])) k
        (by simp only [List.length_cons] at hk; omega)).trans (by simp)

/-- Overwriting the first four header bytes with the checksum is the
serialization of the head with the checksum stored. -/
theorem serializeHead_crc_patch (h : RawImageHead) (c : Nat) :
    u32le c ++ (serializeHead h).drop 4 = serializeHead { h with crc := c } := by
  have hdrop : (serializeHead h).drop 4 = u32le h.version ++ u32le h.magic ++
      u64le h.image_size ++ u32le h.item_align_size ++ u32le h.item_count ++
      List.replicate 36 0 := by
    rw [show serializeHead h = u32le h.crc ++
        (u32le h.version ++ u32le h.magic ++ u64le h.image_size ++
          u32le h.item_align_size ++ u32le h.item_count ++
          List.replicate 36 0) from by simp [serializeHead, List.append_assoc]]
    exact List.drop_left' (leBytes_length 4 _)
  rw [hdrop]
  simp [serializeHead, List.append_assoc]

/-- The expected shape of one serialized record: name fields, stored
size, verify flag, the payload bytes its offset must address, and the
digest recorded for it in the encoder's `sha1sums` list. -/
structure SpecRec where
  sub : List Nat
  main : List Nat
  size : Nat
  ver : Nat
  content : List Nat
  digest : List Nat
deriving DecidableEq, Repr

def recDefault : SpecRec :=
  { sub := [], main := [], size := 0, ver := 0, content := [], digest := [] }

def infoDefault : RawItemInfo :=
  { item_id := 0, file_type := 0, current_offset_in_item := 0, offset_in_image := 0,
    item_size := 0, item_main_type := [], item_sub_type := [], verify := 0,
    is_backup_item := 0, backup_item_id := 0 }

/-- The expected main record of one item. -/
def mainRec (i : Item) : SpecRec :=
  { sub := i.stem, main := i.extension, size := i.data.length,
    ver := if i.extension = sPARTITION then 1 else 0,
    content := i.data, digest := i.sha1sum.getD [] }

/-- The expected synthesized `VERIFY` record of one partition item. -/
def verRec (i : Item) : SpecRec :=
  { sub := i.stem, main := sVERIFY, size := 48, ver := 0,
    content := sha1sumLine (i.sha1sum.getD []),
    digest := sha1Hash (sha1sumLine (i.sha1sum.getD [])) }

/-- The records `append_item` creates for one item: its main record,
plus a synthesized `VERIFY` record when it is a partition. -/
def blockSpec (i : Item) : List SpecRec :=
  mainRec i :: (if i.extension = sPARTITION then [verRec i] else [])

def specRecs (l : List Item) : List SpecRec := l.flatMap blockSpec

/-- An upper bound on the body bytes one item can contribute. -/
def bodySum (a : Nat) (l : List Item) : Nat :=
  (l.map (fun i => i.data.length + a + 48)).sum

/-- One record of the encoder state agrees with its expected shape
against the current body. -/
def recOK (body : List Nat) (info : RawItemInfo) (r : SpecRec) : Prop :=
  info.item_sub_type = r.sub ∧
  info.item_main_type = r.main ∧
  info.item_size = r.size ∧
  info.verify = r.ver ∧
  info.offset_in_image + r.size ≤ body.length ∧
  bslice body info.offset_in_image r.size = r.content ∧
  (r.ver = 1 →
    info.offset_in_image + r.size + 48 ≤ body.length ∧
    bslice body (info.offset_in_image + r.size) 48 = sha1sumLine r.digest)

/-- The invariant of the encoder state after appending the items of
`done`, for an image with alignment `al` and version raw value `vr`. -/
structure EncInv (vr al : Nat) (done : List Item) (s : ImageToWrite) : Prop where
  hcrc : s.head.crc = 0
  hver : s.head.version = vr
  hmagic : s.head.magic = MAGIC
  hisz : s.head.image_size = 0
  halign : s.head.item_align_size = al
  hcount : s.head.item_count = s.infos.length
  hdhi : s.data_head_infos = []
  hslen : s.sha1sums.length = s.infos.length
  hilen : s.infos.length = (specRecs done).length
  hblen : s.data_body.length ≤ bodySum al done
  hrecs : ∀ k, k < s.infos.length →
    recOK s.data_body (s.infos.getD k infoDefault) ((specRecs done).getD k recDefault) ∧
    s.sha1sums.getD k [] = ((specRecs done).getD k recDefault).digest

theorem recOK_extend (body ext : List Nat) (info : RawItemInfo) (r : SpecRec)
    (h : recOK body info r) : recOK (body ++ ext) info r := by
  obtain ⟨h1, h2, h3, h4, h5, h6, h7⟩ := h
  refine ⟨h1, h2, h3, h4, by simp; omega, ?_, ?_⟩
  · rw [bslice_append_left _ _ _ _ h5]
    exact h6
  · intro hv
    obtain ⟨ha, hb⟩ := h7 hv
    refine ⟨by simp; omega, ?_⟩
    rw [bslice_append_left _ _ _ _ ha]
    exact hb

theorem specRecs_append (l1 l2 : List Item) :
    specRecs (l1 ++ l2) = specRecs l1 ++ specRecs l2 := by
  simp [specRecs]

theorem specRecs_mem (l : List Item) (r : SpecRec) (h : r ∈ specRecs l) :
    (∃ i ∈ l, r = mainRec i) ∨
    (∃ i ∈ l, i.extension = sPARTITION ∧ r = verRec i) := by
  rw [specRecs, List.mem_flatMap] at h
  obtain ⟨i, hi, hr⟩ := h
  by_cases hp : i.extension = sPARTITION
  · rw [blockSpec, if_pos hp, List.mem_cons, List.mem_singleton] at hr
    rcases hr with hr | hr
    · exact .inl ⟨i, hi, hr⟩
    · exact .inr ⟨i, hi, hp, hr⟩
  · rw [blockSpec, if_neg hp, List.mem_cons] at hr
    rcases hr with hr | hr
    · exact .inl ⟨i, hi, hr⟩
    · simp at hr

theorem getD_mem_of_lt {α : Type} (l : List α) (k : Nat) (d : α) (h : k < l.length) :
    l.getD k d ∈ l := by
  rw [List.getD_eq_getElem l d h]
  exact List.getElem_mem h

theorem getD_snoc {α : Type} (l : List α) (x d : α) :
    (l ++ [x]).getD l.length d = x := by
  rw [List.getD_append_right _ _ _ _ (le_refl _), Nat.sub_self]
  rfl

theorem getD_snoc2 {α : Type} (l : List α) (x y d : α) :
    (l ++ [x, y]).getD (l.length + 1) d = y := by
  rw [List.getD_append_right _ _ _ _ (by omega), Nat.add_sub_cancel_left]
  rfl

/-- Any hit of the `find_backup` scan is a digest-equal non-`*_ENC.USB`
entry of the scanned list. -/
theorem findBackupGo_shape (d : List Nat) (pairs : List (List Nat × RawItemInfo)) :
    ∀ k, findBackupGo d pairs k = (0, 0, 0) ∨
      ∃ sh info, (sh, info) ∈ pairs ∧ sh = d ∧
        ¬(info.item_main_type = sUSB ∧ sENC.isSuffixOf info.item_sub_type) ∧
        ∃ id, findBackupGo d pairs k = (1, id, info.offset_in_image) := by
  induction pairs with
  | nil => intro k; exact .inl rfl
  | cons p rest ih =>
    intro k
    obtain ⟨sh, info⟩ := p
    by_cases hc : d = sh ∧ ¬(info.item_main_type = sUSB ∧ sENC.isSuffixOf info.item_sub_type)
    · right
      refine ⟨sh, info, by simp, hc.1.symm, hc.2, k % 2 ^ 16, ?_⟩
      rw [findBackupGo, if_pos hc]
    · rcases ih (k + 1) with h | ⟨sh', info', hmem, hd, hcond, id, heq⟩
      · left
        rw [findBackupGo, if_neg hc]
        exact h
      · right
        refine ⟨sh', info', List.mem_cons_of_mem _ hmem, hd, hcond, id, ?_⟩
        rw [findBackupGo, if_neg hc]
        exact heq

/-- The aligned offset is at least the current length and at most one
alignment unit above it (alignment at least 1). -/
theorem aligned_offset_bounds (l a : Nat) (ha : 1 ≤ a) :
    l ≤ (l + a - 1) / a * a ∧ (l + a - 1) / a * a ≤ l + a - 1 := by
  constructor
  · have h1 := Nat.div_add_mod' (l + a - 1) a
    have h2 : (l + a - 1) % a < a := Nat.mod_lt _ (by omega)
    omega
  · exact Nat.div_mul_le_self _ _

theorem append_item_backup_gen (s : ImageToWrite) (item : Item) (d : List Nat)
    (id off : Nat) (hd : item.sha1sum = some d) (hfb : s.find_backup d = (1, id, off))
    (hext : item.extension ≠ sPARTITION) :
    s.append_item item = .ok
      { head := { s.head with item_count := s.head.item_count + 1 },
        infos := s.infos ++
          [{ item_id := s.infos.length % 2 ^ 32,
             file_type :=
               if ANDROID_SPARSE_IMAGE_MAGIC_BYTES.isPrefixOf item.data then
                 FILE_TYPE_SPARSE
               else FILE_TYPE_GENERIC,
             current_offset_in_item := 0, offset_in_image := off,
             item_size := item.data.length, item_main_type := item.extension,
             item_sub_type := item.stem, verify := 0, is_backup_item := 1,
             backup_item_id := id }],
        sha1sums := s.sha1sums ++ [d],
        data_head_infos := s.data_head_infos,
        data_body := s.data_body } := by
  simp [ImageToWrite.append_item, hd, hfb, hext, Bind.bind, Except.bind, pure,
    Except.pure]

theorem append_item_backup_part (s : ImageToWrite) (item : Item) (d : List Nat)
    (id off : Nat) (hd : item.sha1sum = some d) (hfb : s.find_backup d = (1, id, off))
    (hext : item.extension = sPARTITION) (h48 : (sha1sumLine d).length = 48) :
    s.append_item item = .ok
      { head := { s.head with item_count := s.head.item_count + 1 + 1 },
        infos := s.infos ++
          [{ item_id := s.infos.length % 2 ^ 32,
             file_type :=
               if ANDROID_SPARSE_IMAGE_MAGIC_BYTES.isPrefixOf item.data then
                 FILE_TYPE_SPARSE
               else FILE_TYPE_GENERIC,
             current_offset_in_item := 0, offset_in_image := off,
             item_size := item.data.length, item_main_type := item.extension,
             item_sub_type := item.stem, verify := 1, is_backup_item := 1,
             backup_item_id := id },
           { item_id := (s.infos.length + 1) % 2 ^ 32, file_type := 0,
             current_offset_in_item := 0, offset_in_image := off + item.data.length,
             item_size := 48, item_main_type := sVERIFY, item_sub_type := item.stem,
             verify := 0, is_backup_item := 1, backup_item_id := id + 1 }],
        sha1sums := s.sha1sums ++ [d, sha1Hash (sha1sumLine d)],
        data_head_infos := s.data_head_infos,
        data_body := s.data_body ++ sha1sumLine d } := by
  simp [ImageToWrite.append_item, hd, hfb, hext, h48, Bind.bind, Except.bind, pure,
    Except.pure]

theorem append_item_fresh_gen (s : ImageToWrite) (item : Item) (d : List Nat)
    (hd : item.sha1sum = some d) (hfb : s.find_backup d = (0, 0, 0))
    (ha : s.head.item_align_size ≠ 0) (hext : item.extension ≠ sPARTITION) :
    s.append_item item = .ok
      { head := { s.head with item_count := s.head.item_count + 1 },
        infos := s.infos ++
          [{ item_id := s.infos.length % 2 ^ 32,
             file_type :=
               if ANDROID_SPARSE_IMAGE_MAGIC_BYTES.isPrefixOf item.data then
                 FILE_TYPE_SPARSE
               else FILE_TYPE_GENERIC,
             current_offset_in_item := 0,
             offset_in_image :=
               (s.data_body.length + s.head.item_align_size - 1) /
                 s.head.item_align_size * s.head.item_align_size,
             item_size := item.data.length, item_main_type := item.extension,
             item_sub_type := item.stem, verify := 0, is_backup_item := 0,
             backup_item_id := 0 }],
        sha1sums := s.sha1sums ++ [d],
        data_head_infos := s.data_head_infos,
        data_body := s.data_body ++
          List.replicate
            ((s.data_body.length + s.head.item_align_size - 1) /
                s.head.item_align_size * s.head.item_align_size -
              s.data_body.length) 0 ++ item.data } := by
  simp [ImageToWrite.append_item, hd, hfb, hext, ha, Bind.bind, Except.bind, pure,
    Except.pure]

theorem append_item_fresh_part (s : ImageToWrite) (item : Item) (d : List Nat)
    (hd : item.sha1sum = some d) (hfb : s.find_backup d = (0, 0, 0))
    (ha : s.head.item_align_size ≠ 0) (hext : item.extension = sPARTITION)
    (h48 : (sha1sumLine d).length = 48) :
    s.append_item item = .ok
      { head := { s.head with item_count := s.head.item_count + 1 + 1 },
        infos := s.infos ++
          [{ item_id := s.infos.length % 2 ^ 32,
             file_type :=
               if ANDROID_SPARSE_IMAGE_MAGIC_BYTES.isPrefixOf item.data then
                 FILE_TYPE_SPARSE
               else FILE_TYPE_GENERIC,
             current_offset_in_item := 0,
             offset_in_image :=
               (s.data_body.length + s.head.item_align_size - 1) /
                 s.head.item_align_size * s.head.item_align_size,
             item_size := item.data.length, item_main_type := item.extension,
             item_sub_type := item.stem, verify := 1, is_backup_item := 0,
             backup_item_id := 0 },
           { item_id := (s.infos.length + 1) % 2 ^ 32, file_type := 0,
             current_offset_in_item := 0,
             offset_in_image :=
               (s.data_body.length + s.head.item_align_size - 1) /
                 s.head.item_align_size * s.head.item_align_size + item.data.length,
             item_size := 48, item_main_type := sVERIFY, item_sub_type := item.stem,
             verify := 0, is_backup_item := 0, backup_item_id := 0 }],
        sha1sums := s.sha1sums ++ [d, sha1Hash (sha1sumLine d)],
        data_head_infos := s.data_head_infos,
        data_body := s.data_body ++
          List.replicate
            ((s.data_body.length + s.head.item_align_size - 1) /
                s.head.item_align_size * s.head.item_align_size -
              s.data_body.length) 0 ++ item.data ++ sha1sumLine d } := by
  simp [ImageToWrite.append_item, hd, hfb, hext, ha, h48, Bind.bind, Except.bind, pure,
    Except.pure]

theorem bslice_tail (pre mid : List Nat) (off len : Nat)
    (hpre : pre.length = off) (hmid : mid.length = len) :
    bslice (pre ++ mid) off len = mid := by
  subst hpre hmid
  exact bslice_at pre mid

theorem bodySum_append (a : Nat) (l : List Item) (i : Item) :
    bodySum a (l ++ [i]) = bodySum a l + (i.data.length + a + 48) := by
  simp [bodySum]

theorem getD_append_fst {α : Type} (l : List α) (x : α) (rest : List α) (d : α) :
    (l ++ x :: rest).getD l.length d = x := by
  rw [List.getD_append_right _ _ _ _ (le_refl _), Nat.sub_self]
  rfl

/-- One step of the encoder-state invariant: appending a well-formed item
of the image succeeds and extends the record skeleton by its block. -/
theorem encInv_append (img : Image)
    (H1 : 1 ≤ img.align)
    (H4 : ∀ i ∈ img.items, ∃ d, i.sha1sum = some d ∧ d.length = 20 ∧ ∀ b ∈ d, b < 256)
    (H5 : ∀ i ∈ img.items, ∀ j ∈ img.items, i.sha1sum = j.sha1sum → i.data = j.data)
    (H6 : ∀ i ∈ img.items, ∀ j ∈ img.items, i.extension = sPARTITION →
      j.extension ≠ sPARTITION → i.sha1sum ≠ j.sha1sum)
    (H7 : ∀ i ∈ img.items, ∀ j ∈ img.items, j.extension = sPARTITION →
      i.sha1sum ≠ some (sha1Hash (sha1sumLine (j.sha1sum.getD []))))
    (done : List Item) (s : ImageToWrite) (item : Item)
    (hInv : EncInv img.version.toRaw img.align done s)
    (hdone : ∀ i ∈ done, i ∈ img.items) (hitem : item ∈ img.items) :
    ∃ s', s.append_item item = .ok s' ∧
      EncInv img.version.toRaw img.align (done ++ [item]) s' := by
  obtain ⟨d, hd, hd20, hdlt⟩ := H4 item hitem
  have h48 : (sha1sumLine d).length = 48 := sha1sumLine_length d hd20
  have hdg : item.sha1sum.getD [] = d := by rw [hd]; rfl
  have ha : s.head.item_align_size ≠ 0 := by rw [hInv.halign]; omega
  have hn := hInv.hilen
  rcases findBackupGo_shape d (s.sha1sums.zip s.infos) 0 with hfb |
    ⟨sh, infoj, hmem, hshd, hcond, id, hfb⟩
  · -- no backup candidate: fresh append at the aligned offset
    have hfb' : s.find_backup d = (0, 0, 0) := hfb
    have hoffb := aligned_offset_bounds s.data_body.length s.head.item_align_size
      (by omega)
    by_cases hp : item.extension = sPARTITION
    · refine ⟨_, append_item_fresh_part s item d hd hfb' ha hp h48, ?_⟩
      refine { hcrc := hInv.hcrc, hver := hInv.hver, hmagic := hInv.hmagic,
               hisz := hInv.hisz, halign := hInv.halign,
               hcount := by simp [hInv.hcount], hdhi := hInv.hdhi,
               hslen := by simp [hInv.hslen],
               hilen := by simp [specRecs_append, specRecs, blockSpec, hp, hn],
               hblen := ?_, hrecs := ?_ }
      ·
        rw [bodySum_append]
        have hb := hInv.hblen
        have hal := hInv.halign
        simp only [List.length_append, List.length_replicate, h48]
        omega
      ·
        intro k hk
        simp only [List.length_append, List.length_cons, List.length_nil] at hk
        have hlen2 : (specRecs (done ++ [item])).length = (specRecs done).length + 2 := by
          simp [specRecs_append, specRecs, blockSpec, hp]
        have hspec : specRecs (done ++ [item]) =
            specRecs done ++ [mainRec item, verRec item] := by
          simp [specRecs_append, specRecs, blockSpec, hp]
        rcases Nat.lt_trichotomy k s.infos.length with hklt | hkeq | hkgt
        · have hks : k < (specRecs done).length := by omega
          rw [List.getD_append _ _ _ _ hklt, hspec, List.getD_append _ _ _ _ hks,
            List.getD_append _ _ _ _ (by rw [hInv.hslen]; omega)]
          obtain ⟨hrec, hdig⟩ := hInv.hrecs k hklt
          refine ⟨?_, hdig⟩
          rw [List.append_assoc, List.append_assoc]
          exact recOK_extend _ _ _ _ hrec
        · subst hkeq
          rw [getD_append_fst, hspec, hn, getD_append_fst,
            show (specRecs done).length = s.sha1sums.length from by
              rw [← hn, hInv.hslen],
            getD_append_fst]
          constructor
          · refine ⟨rfl, rfl, rfl, by simp [mainRec, hp], ?_, ?_, ?_⟩
            · simp only [List.length_append, List.length_replicate, mainRec, h48]
              omega
            · rw [show s.data_body ++
                  List.replicate
                    ((s.data_body.length + s.head.item_align_size - 1) /
                        s.head.item_align_size * s.head.item_align_size -
                      s.data_body.length) 0 ++ item.data ++ sha1sumLine d =
                  (s.data_body ++
                    List.replicate
                      ((s.data_body.length + s.head.item_align_size - 1) /
                          s.head.item_align_size * s.head.item_align_size -
                        s.data_body.length) 0) ++ (item.data ++ sha1sumLine d) from by
                simp [List.append_assoc]]
              exact bslice_take_mid _ _ _ _ _ (by simp; omega) rfl
            · intro _
              refine ⟨by simp [mainRec, h48]; omega, ?_⟩
              rw [show s.data_body ++
                  List.replicate
                    ((s.data_body.length + s.head.item_align_size - 1) /
                        s.head.item_align_size * s.head.item_align_size -
                      s.data_body.length) 0 ++ item.data ++ sha1sumLine d =
                  (s.data_body ++
                    List.replicate
                      ((s.data_body.length + s.head.item_align_size - 1) /
                          s.head.item_align_size * s.head.item_align_size -
                        s.data_body.length) 0 ++ item.data) ++ sha1sumLine d from by
                simp [List.append_assoc]]
              rw [show (mainRec item).size = item.data.length from rfl,
                show (mainRec item).digest = item.sha1sum.getD [] from rfl, hdg]
              exact bslice_tail _ _ _ _ (by simp; omega) h48
          · simp [mainRec, hdg]
        · have hkeq : k = s.infos.length + 1 := by omega
          subst hkeq
          rw [getD_snoc2, hspec, hn, getD_snoc2,
              show (specRecs done).length = s.sha1sums.length from by
                rw [← hn, hInv.hslen],
              getD_snoc2]
          constructor
          · refine ⟨rfl, rfl, rfl, rfl, ?_, ?_, by intro h; simp [verRec] at h⟩
            · simp only [List.length_append, List.length_replicate, verRec, h48]
              omega
            · rw [show s.data_body ++
                  List.replicate
                    ((s.data_body.length + s.head.item_align_size - 1) /
                        s.head.item_align_size * s.head.item_align_size -
                      s.data_body.length) 0 ++ item.data ++ sha1sumLine d =
                  (s.data_body ++
                    List.replicate
                      ((s.data_body.length + s.head.item_align_size - 1) /
                          s.head.item_align_size * s.head.item_align_size -
                        s.data_body.length) 0 ++ item.data) ++ sha1sumLine d from by
                simp [List.append_assoc]]
              rw [show (verRec item).size = 48 from rfl,
                show (verRec item).content = sha1sumLine (item.sha1sum.getD []) from rfl,
                hdg]
              exact bslice_tail _ _ _ _ (by simp; omega) h48
          · simp [verRec, hdg]
    · refine ⟨_, append_item_fresh_gen s item d hd hfb' ha hp, ?_⟩
      refine { hcrc := hInv.hcrc, hver := hInv.hver, hmagic := hInv.hmagic,
               hisz := hInv.hisz, halign := hInv.halign,
               hcount := by simp [hInv.hcount], hdhi := hInv.hdhi,
               hslen := by simp [hInv.hslen],
               hilen := by simp [specRecs_append, specRecs, blockSpec, hp, hn],
               hblen := ?_, hrecs := ?_ }
      ·
        rw [bodySum_append]
        have hb := hInv.hblen
        have hal := hInv.halign
        simp only [List.length_append, List.length_replicate]
        omega
      ·
        intro k hk
        simp only [List.length_append, List.length_cons, List.length_nil] at hk
        have hspec : specRecs (done ++ [item]) = specRecs done ++ [mainRec item] := by
          simp [specRecs_append, specRecs, blockSpec, hp]
        rcases Nat.lt_or_ge k s.infos.length with hklt | hkge
        · have hks : k < (specRecs done).length := by omega
          rw [List.getD_append _ _ _ _ hklt, hspec, List.getD_append _ _ _ _ hks,
            List.getD_append _ _ _ _ (by rw [hInv.hslen]; omega)]
          obtain ⟨hrec, hdig⟩ := hInv.hrecs k hklt
          refine ⟨?_, hdig⟩
          rw [List.append_assoc]
          exact recOK_extend _ _ _ _ hrec
        · have hkeq : k = s.infos.length := by omega
          subst hkeq
          rw [getD_append_fst, hspec, hn, getD_append_fst,
            show (specRecs done).length = s.sha1sums.length from by
              rw [← hn, hInv.hslen],
            getD_append_fst]
          constructor
          · refine ⟨rfl, rfl, rfl, by simp [mainRec, hp], ?_, ?_,
              by intro h; simp [mainRec, hp] at h⟩
            · simp only [List.length_append, List.length_replicate, mainRec]
              omega
            · rw [show (mainRec item).size = item.data.length from rfl,
                show (mainRec item).content = item.data from rfl]
              exact bslice_tail _ _ _ _ (by simp; omega) rfl
          · simp [mainRec, hdg]
  · -- a backup candidate exists at some index of the scanned list
    have hfb' : s.find_backup d = (1, id, infoj.offset_in_image) := hfb
    obtain ⟨j, hj, hpj⟩ := List.mem_iff_getElem.mp hmem
    have hjn : j < s.infos.length := by
      simp [List.length_zip, hInv.hslen] at hj
      exact hj
    have hjz := @List.getElem_zip _ _ s.sha1sums s.infos j hj
    rw [hpj] at hjz
    have hsha : s.sha1sums.getD j [] = d := by
      rw [List.getD_eq_getElem s.sha1sums [] (by rw [hInv.hslen]; exact hjn),
        ← hshd]
      exact (congrArg Prod.fst hjz).symm
    have hinfoj : s.infos.getD j infoDefault = infoj := by
      rw [List.getD_eq_getElem s.infos infoDefault hjn]
      exact (congrArg Prod.snd hjz).symm
    obtain ⟨hrecj, hdigj⟩ := hInv.hrecs j hjn
    rw [hinfoj] at hrecj
    rw [hsha] at hdigj
    -- provenance of the candidate record
    have hjs : j < (specRecs done).length := by omega
    have hmemj := getD_mem_of_lt (specRecs done) j recDefault hjs
    rcases specRecs_mem done _ hmemj with ⟨i', hi', hmain⟩ | ⟨i', hi', hpi', hver⟩
    · -- candidate is the main record of a previously appended item i'
      obtain ⟨d', hdi', hd20', hdlt'⟩ := H4 i' (hdone i' hi')
      have hdgd' : i'.sha1sum.getD [] = d' := by rw [hdi']; rfl
      have hdd' : d = d' := by
        have := hdigj
        rw [hmain] at this
        simp only [mainRec] at this
        rw [hdgd'] at this
        exact this
      subst hdd'
      have hdata : item.data = i'.data :=
        H5 item hitem i' (hdone i' hi') (by rw [hd, hdi'])
      rw [hmain] at hrecj
      obtain ⟨hr1, hr2, hr3, hr4, hr5, hr6, hr7⟩ := hrecj
      simp only [mainRec] at hr3 hr4 hr5 hr6 hr7
      by_cases hp : item.extension = sPARTITION
      · -- the candidate must itself be a partition main record
        have hpi' : i'.extension = sPARTITION := by
          by_contra hno
          exact H6 item hitem i' (hdone i' hi') hp hno (by rw [hd, hdi'])
        rw [if_pos hpi'] at hr4
        obtain ⟨hv5, hv6⟩ := hr7 (by rw [if_pos hpi'])
        rw [hdgd'] at hv6
        refine ⟨_, append_item_backup_part s item d id infoj.offset_in_image hd hfb'
          hp h48, ?_⟩
        refine { hcrc := hInv.hcrc, hver := hInv.hver, hmagic := hInv.hmagic,
                 hisz := hInv.hisz, halign := hInv.halign,
                 hcount := by simp [hInv.hcount], hdhi := hInv.hdhi,
                 hslen := by simp [hInv.hslen],
                 hilen := by simp [specRecs_append, specRecs, blockSpec, hp, hn],
                 hblen := ?_, hrecs := ?_ }
        ·
          rw [bodySum_append]
          have hb := hInv.hblen
          simp only [List.length_append, h48]
          omega
        ·
          intro k hk
          simp only [List.length_append, List.length_cons, List.length_nil] at hk
          have hspec : specRecs (done ++ [item]) =
              specRecs done ++ [mainRec item, verRec item] := by
            simp [specRecs_append, specRecs, blockSpec, hp]
          rcases Nat.lt_trichotomy k s.infos.length with hklt | hkeq | hkgt
          · have hks : k < (specRecs done).length := by omega
            rw [List.getD_append _ _ _ _ hklt, hspec, List.getD_append _ _ _ _ hks,
              List.getD_append _ _ _ _ (by rw [hInv.hslen]; omega)]
            obtain ⟨hrec, hdig⟩ := hInv.hrecs k hklt
            exact ⟨recOK_extend _ _ _ _ hrec, hdig⟩
          · subst hkeq
            rw [getD_append_fst, hspec, hn, getD_append_fst,
              show (specRecs done).length = s.sha1sums.length from by
                rw [← hn, hInv.hslen],
              getD_append_fst]
            constructor
            · refine ⟨rfl, rfl, rfl, by simp [mainRec, hp], ?_, ?_, ?_⟩
              · show infoj.offset_in_image + (mainRec item).size ≤ _
                simp only [mainRec, List.length_append]
                rw [hdata]
                omega
              · show bslice _ infoj.offset_in_image (mainRec item).size =
                  (mainRec item).content
                rw [show (mainRec item).size = item.data.length from rfl,
                  show (mainRec item).content = item.data from rfl, hdata,
                  bslice_append_left _ _ _ _ hr5]
                exact hr6
              · intro _
                constructor
                · show infoj.offset_in_image + (mainRec item).size + 48 ≤ _
                  simp only [mainRec, List.length_append]
                  rw [hdata]
                  omega
                · show bslice _ (infoj.offset_in_image + (mainRec item).size) 48 =
                    sha1sumLine (mainRec item).digest
                  rw [show (mainRec item).size = item.data.length from rfl,
                    show (mainRec item).digest = item.sha1sum.getD [] from rfl, hdg,
                    hdata, bslice_append_left _ _ _ _ (by omega)]
                  exact hv6
            · simp [mainRec, hdg]
          · have hkeq : k = s.infos.length + 1 := by omega
            subst hkeq
            rw [getD_snoc2, hspec, hn, getD_snoc2,
              show (specRecs done).length = s.sha1sums.length from by
                rw [← hn, hInv.hslen],
              getD_snoc2]
            constructor
            · refine ⟨rfl, rfl, rfl, rfl, ?_, ?_, by intro h; simp [verRec] at h⟩
              · show infoj.offset_in_image + item.data.length + (verRec item).size ≤ _
                simp only [verRec, List.length_append]
                rw [hdata]
                omega
              · show bslice _ (infoj.offset_in_image + item.data.length)
                  (verRec item).size = (verRec item).content
                rw [show (verRec item).size = 48 from rfl,
                  show (verRec item).content =
                    sha1sumLine (item.sha1sum.getD []) from rfl, hdg, hdata,
                  bslice_append_left _ _ _ _ (by omega)]
                exact hv6
            · simp [verRec, hdg]
      · -- non-partition backup: the body is untouched
        refine ⟨_, append_item_backup_gen s item d id infoj.offset_in_image hd hfb'
          hp, ?_⟩
        refine { hcrc := hInv.hcrc, hver := hInv.hver, hmagic := hInv.hmagic,
                 hisz := hInv.hisz, halign := hInv.halign,
                 hcount := by simp [hInv.hcount], hdhi := hInv.hdhi,
                 hslen := by simp [hInv.hslen],
                 hilen := by simp [specRecs_append, specRecs, blockSpec, hp, hn],
                 hblen := ?_, hrecs := ?_ }
        ·
          rw [bodySum_append]
          have hb := hInv.hblen
          show s.data_body.length ≤ _
          omega
        ·
          intro k hk
          simp only [List.length_append, List.length_cons, List.length_nil] at hk
          have hspec : specRecs (done ++ [item]) = specRecs done ++ [mainRec item] := by
            simp [specRecs_append, specRecs, blockSpec, hp]
          rcases Nat.lt_or_ge k s.infos.length with hklt | hkge
          · have hks : k < (specRecs done).length := by omega
            rw [List.getD_append _ _ _ _ hklt, hspec, List.getD_append _ _ _ _ hks,
              List.getD_append _ _ _ _ (by rw [hInv.hslen]; omega)]
            exact hInv.hrecs k hklt
          · have hkeq : k = s.infos.length := by omega
            subst hkeq
            rw [getD_append_fst, hspec, hn, getD_append_fst,
              show (specRecs done).length = s.sha1sums.length from by
                rw [← hn, hInv.hslen],
              getD_append_fst]
            constructor
            · refine ⟨rfl, rfl, rfl, by simp [mainRec, hp], ?_, ?_,
                by intro h; simp [mainRec, hp] at h⟩
              · show infoj.offset_in_image + (mainRec item).size ≤
                  s.data_body.length
                simp only [mainRec]
                rw [hdata]
                omega
              · show bslice _ infoj.offset_in_image (mainRec item).size =
                  (mainRec item).content
                rw [show (mainRec item).size = item.data.length from rfl,
                  show (mainRec item).content = item.data from rfl, hdata]
                exact hr6
            · simp [mainRec, hdg]
    · -- candidate is a synthesized verify record: excluded by hypothesis H7
      exfalso
      have : item.sha1sum = some (sha1Hash (sha1sumLine (i'.sha1sum.getD []))) := by
        rw [hd]
        congr 1
        rw [hdigj, hver]
        rfl
      exact H7 item hitem i' (hdone i' hi') hpi' this

/-- Folding `append_item` over well-formed items preserves the encoder
invariant. -/
theorem encInv_fold (img : Image)
    (H1 : 1 ≤ img.align)
    (H4 : ∀ i ∈ img.items, ∃ d, i.sha1sum = some d ∧ d.length = 20 ∧ ∀ b ∈ d, b < 256)
    (H5 : ∀ i ∈ img.items, ∀ j ∈ img.items, i.sha1sum = j.sha1sum → i.data = j.data)
    (H6 : ∀ i ∈ img.items, ∀ j ∈ img.items, i.extension = sPARTITION →
      j.extension ≠ sPARTITION → i.sha1sum ≠ j.sha1sum)
    (H7 : ∀ i ∈ img.items, ∀ j ∈ img.items, j.extension = sPARTITION →
      i.sha1sum ≠ some (sha1Hash (sha1sumLine (j.sha1sum.getD [])))) :
    ∀ (todo done : List Item) (s : ImageToWrite),
    EncInv img.version.toRaw img.align done s →
    (∀ i ∈ done, i ∈ img.items) → (∀ i ∈ todo, i ∈ img.items) →
    ∃ s', todo.foldlM ImageToWrite.append_item s = .ok s' ∧
      EncInv img.version.toRaw img.align (done ++ todo) s' := by
  intro todo
  induction todo with
  | nil =>
    intro done s hInv hdone htodo
    exact ⟨s, rfl, by simpa using hInv⟩
  | cons x xs ih =>
    intro done s hInv hdone htodo
    obtain ⟨s1, hs1, hInv1⟩ := encInv_append img H1 H4 H5 H6 H7 done s x hInv hdone
      (htodo x (by simp))
    obtain ⟨s', hs', hInv'⟩ := ih (done ++ [x]) s1 hInv1
      (by intro i hi
          rcases List.mem_append.mp hi with h | h
          · exact hdone i h
          · rw [List.mem_singleton] at h
            exact h ▸ htodo x (by simp))
      (fun i hi => htodo i (by simp [hi]))
    refine ⟨s', ?_, by simpa [List.append_assoc] using hInv'⟩
    rw [List.foldlM_cons, hs1]
    simpa [Bind.bind, Except.bind] using hs'

theorem machineStep_none_partition (info : RawItemInfo) (data : List Nat)
    (hmain : info.item_main_type = sPARTITION) (hver : info.verify ≠ 0) :
    machineStep none info data =
      .ok ([], some { data := data, extension := info.item_main_type,
                      stem := info.item_sub_type, sha1sum := none }) := by
  simp [machineStep, hmain, hver]

theorem machineStep_none_gen (info : RawItemInfo) (data : List Nat)
    (hmain : info.item_main_type ≠ sPARTITION) (hver : info.verify = 0) :
    machineStep none info data =
      .ok ([{ data := data, extension := info.item_main_type,
              stem := info.item_sub_type, sha1sum := none }], none) := by
  simp [machineStep, hmain, hver]

theorem machineStep_verify (pend : Item) (info : RawItemInfo) (d : List Nat)
    (hsub : info.item_sub_type = pend.stem) (hmain : info.item_main_type = sVERIFY)
    (hsz : info.item_size = 48) (hver : info.verify = 0)
    (hd20 : d.length = 20) (hdlt : ∀ b ∈ d, b < 256) :
    machineStep (some pend) info (sha1sumLine d) =
      .ok ([{ pend with sha1sum := some d }], none) := by
  simp [machineStep, hsub, hmain, hsz, hver, sSHA1SUMSP_isPrefixOf_line,
    bslice_sha1sumLine d hd20, sha1sumFromHex_sha1Display d hd20 hdlt]

theorem decodeLoop_cons (image : List Nat) (v : ImageVersion) (k : Nat)
    (rest : List Nat) (need : Option Item) (bs data : List Nat)
    (emitted : List Item) (need2 : Option Item) (out : List Item)
    (hr1 : readExact image (SIZE_RAW_IMAGE_HEAD + v.sizeRawInfo * k) v.sizeRawInfo =
      .ok bs)
    (hr2 : readExact image (parseInfo v.sizeItemType bs).offset_in_image
      (parseInfo v.sizeItemType bs).item_size = .ok data)
    (hstep : machineStep need (parseInfo v.sizeItemType bs) data = .ok (emitted, need2))
    (hrest : decodeLoop image v rest need2 = .ok out) :
    decodeLoop image v (k :: rest) need = .ok (emitted ++ out) := by
  simp only [decodeLoop, hr1, hr2, hstep, hrest, Bind.bind, Except.bind, pure,
    Except.pure]

/-- The decode loop over a serialized record skeleton emits the encoded
items with non-partition digests dropped. -/
theorem decode_blocks (image : List Nat) (v : ImageVersion) :
    ∀ (em : List Item) (base : Nat),
    (∀ i ∈ em, ∃ d, i.sha1sum = some d ∧ d.length = 20 ∧ ∀ b ∈ d, b < 256) →
    (∀ k, k < (specRecs em).length →
      ∃ bs, readExact image (SIZE_RAW_IMAGE_HEAD + v.sizeRawInfo * (base + k))
          v.sizeRawInfo = .ok bs ∧
        (parseInfo v.sizeItemType bs).item_sub_type =
          ((specRecs em).getD k recDefault).sub ∧
        (parseInfo v.sizeItemType bs).item_main_type =
          ((specRecs em).getD k recDefault).main ∧
        (parseInfo v.sizeItemType bs).item_size =
          ((specRecs em).getD k recDefault).size ∧
        (parseInfo v.sizeItemType bs).verify =
          ((specRecs em).getD k recDefault).ver ∧
        readExact image (parseInfo v.sizeItemType bs).offset_in_image
          (parseInfo v.sizeItemType bs).item_size =
          .ok ((specRecs em).getD k recDefault).content) →
    decodeLoop image v (List.range' base (specRecs em).length) none =
      .ok (em.map (fun i =>
        if i.extension = sPARTITION then i else { i with sha1sum := none })) := by
  intro em
  induction em with
  | nil =>
    intro base hdig hrec
    simp [specRecs, decodeLoop]
  | cons i em' ih =>
    intro base hdig hrec
    obtain ⟨d, hd, hd20, hdlt⟩ := hdig i (by simp)
    have hsplit : specRecs (i :: em') = blockSpec i ++ specRecs em' := by
      simp [specRecs]
    by_cases hp : i.extension = sPARTITION
    · have hbl : blockSpec i = [mainRec i, verRec i] := by simp [blockSpec, hp]
      have hlen : (specRecs (i :: em')).length = (specRecs em').length + 2 := by
        rw [hsplit, hbl]
        simp [List.length_append]
      have hg0 : (specRecs (i :: em')).getD 0 recDefault = mainRec i := by
        rw [hsplit, hbl]
        rfl
      have hg1 : (specRecs (i :: em')).getD 1 recDefault = verRec i := by
        rw [hsplit, hbl]
        rfl
      obtain ⟨bs0, hread0, e01, e02, e03, e04, hdata0⟩ := hrec 0 (by omega)
      obtain ⟨bs1, hread1, e11, e12, e13, e14, hdata1⟩ := hrec 1 (by omega)
      rw [hg0] at e01 e02 e03 e04 hdata0
      rw [hg1] at e11 e12 e13 e14 hdata1
      simp only [mainRec] at e01 e02 e03 e04 hdata0
      simp only [verRec] at e11 e12 e13 e14 hdata1
      rw [if_pos hp] at e04
      rw [hd, Option.getD_some] at hdata1
      rw [Nat.add_zero] at hread0
      have hrec' : ∀ k, k < (specRecs em').length →
          ∃ bs, readExact image
              (SIZE_RAW_IMAGE_HEAD + v.sizeRawInfo * ((base + 2) + k))
              v.sizeRawInfo = .ok bs ∧
            (parseInfo v.sizeItemType bs).item_sub_type =
              ((specRecs em').getD k recDefault).sub ∧
            (parseInfo v.sizeItemType bs).item_main_type =
              ((specRecs em').getD k recDefault).main ∧
            (parseInfo v.sizeItemType bs).item_size =
              ((specRecs em').getD k recDefault).size ∧
            (parseInfo v.sizeItemType bs).verify =
              ((specRecs em').getD k recDefault).ver ∧
            readExact image (parseInfo v.sizeItemType bs).offset_in_image
              (parseInfo v.sizeItemType bs).item_size =
              .ok ((specRecs em').getD k recDefault).content := by
        intro k hk
        obtain ⟨bs, hr, f1, f2, f3, f4, f5⟩ := hrec (2 + k) (by omega)
        have hgk : (specRecs (i :: em')).getD (2 + k) recDefault =
            (specRecs em').getD k recDefault := by
          rw [hsplit, hbl, List.getD_append_right _ _ _ _ (by simp)]
          simp
        rw [hgk] at f1 f2 f3 f4 f5
        rw [show base + (2 + k) = base + 2 + k by omega] at hr
        exact ⟨bs, hr, f1, f2, f3, f4, f5⟩
      have hih := ih (base + 2)
        (fun j hj => hdig j (List.mem_cons_of_mem i hj)) hrec'
      have hstep0 : machineStep none (parseInfo v.sizeItemType bs0) i.data =
          .ok ([], some { data := i.data, extension := i.extension, stem := i.stem,
                          sha1sum := none }) := by
        rw [machineStep_none_partition _ _ (e02.trans hp) (by rw [e04]; omega),
          e01, e02]
      have hstep1 : machineStep
          (some { data := i.data, extension := i.extension, stem := i.stem,
                  sha1sum := none })
          (parseInfo v.sizeItemType bs1) (sha1sumLine d) =
          .ok ([{ data := i.data, extension := i.extension, stem := i.stem,
                  sha1sum := some d }], none) := by
        exact machineStep_verify _ _ d e11 e12 e13 e14 hd20 hdlt
      have hieq : ({ data := i.data, extension := i.extension, stem := i.stem,
                     sha1sum := some d } : Item) = i := by
        rw [← hd]
      rw [hlen, show (specRecs em').length + 2 = (specRecs em').length + 1 + 1 from
        rfl, List.range'_succ, List.range'_succ,
        show base + 1 + 1 = base + 2 from by omega, List.map_cons, if_pos hp]
      exact (decodeLoop_cons image v base _ none bs0 i.data _ _ _
        hread0 hdata0 hstep0
        (decodeLoop_cons image v (base + 1) _ _ bs1 (sha1sumLine d) _ _ _
          hread1 hdata1 hstep1 hih)).trans
        (by rw [hieq]; simp)
    · have hbl : blockSpec i = [mainRec i] := by simp [blockSpec, hp]
      have hlen : (specRecs (i :: em')).length = (specRecs em').length + 1 := by
        rw [hsplit, hbl]
        simp [List.length_append]
      have hg0 : (specRecs (i :: em')).getD 0 recDefault = mainRec i := by
        rw [hsplit, hbl]
        rfl
      obtain ⟨bs0, hread0, e01, e02, e03, e04, hdata0⟩ := hrec 0 (by omega)
      rw [hg0] at e01 e02 e03 e04 hdata0
      simp only [mainRec] at e01 e02 e03 e04 hdata0
      rw [if_neg hp] at e04
      rw [Nat.add_zero] at hread0
      have hrec' : ∀ k, k < (specRecs em').length →
          ∃ bs, readExact image
              (SIZE_RAW_IMAGE_HEAD + v.sizeRawInfo * ((base + 1) + k))
              v.sizeRawInfo = .ok bs ∧
            (parseInfo v.sizeItemType bs).item_sub_type =
              ((specRecs em').getD k recDefault).sub ∧
            (parseInfo v.sizeItemType bs).item_main_type =
              ((specRecs em').getD k recDefault).main ∧
            (parseInfo v.sizeItemType bs).item_size =
              ((specRecs em').getD k recDefault).size ∧
            (parseInfo v.sizeItemType bs).verify =
              ((specRecs em').getD k recDefault).ver ∧
            readExact image (parseInfo v.sizeItemType bs).offset_in_image
              (parseInfo v.sizeItemType bs).item_size =
              .ok ((specRecs em').getD k recDefault).content := by
        intro k hk
        obtain ⟨bs, hr, f1, f2, f3, f4, f5⟩ := hrec (1 + k) (by omega)
        have hgk : (specRecs (i :: em')).getD (1 + k) recDefault =
            (specRecs em').getD k recDefault := by
          rw [hsplit, hbl, List.getD_append_right _ _ _ _ (by simp)]
          simp
        rw [hgk] at f1 f2 f3 f4 f5
        rw [show base + (1 + k) = base + 1 + k by omega] at hr
        exact ⟨bs, hr, f1, f2, f3, f4, f5⟩
      have hih := ih (base + 1)
        (fun j hj => hdig j (List.mem_cons_of_mem i hj)) hrec'
      have hstep0 : machineStep none (parseInfo v.sizeItemType bs0) i.data =
          .ok ([{ data := i.data, extension := i.extension, stem := i.stem,
                  sha1sum := none }], none) := by
        rw [machineStep_none_gen _ _ (by rw [e02]; exact hp) e04, e01, e02]
      rw [hlen, List.range'_succ, List.map_cons, if_neg hp]
      exact (decodeLoop_cons image v base _ none bs0 i.data _ _ _
        hread0 hdata0 hstep0 hih).trans (by simp)

/-- `finalize` succeeds when the stored count matches the record list,
with the explicit resulting state. -/
theorem finalize_ok (s : ImageToWrite) (v : ImageVersion)
    (hc : s.head.item_count = s.infos.length) :
    s.finalize v = .ok
      { s with
          head := { s.head with
            image_size := s.data_body.length +
              (SIZE_RAW_IMAGE_HEAD + v.sizeRawInfo * s.head.item_count),
            version := v.toRaw },
          infos := s.infos.map (fun i =>
            { i with offset_in_image := i.offset_in_image +
                (SIZE_RAW_IMAGE_HEAD + v.sizeRawInfo * s.head.item_count) }),
          data_head_infos := serializeHead
              { s.head with
                image_size := s.data_body.length +
                  (SIZE_RAW_IMAGE_HEAD + v.sizeRawInfo * s.head.item_count),
                version := v.toRaw } ++
            ((s.infos.map (fun i =>
              { i with offset_in_image := i.offset_in_image +
                  (SIZE_RAW_IMAGE_HEAD + v.sizeRawInfo * s.head.item_count) })).map
                (serializeInfo v.sizeItemType)).flatten } := by
  simp only [ImageToWrite.finalize, Bind.bind, Except.bind, pure, Except.pure]
  split
  · next hcond =>
    exfalso
    apply hcond
    rw [List.length_append, serializeHead_length, serializeInfos_length]
    simp only [hc, ImageVersion.sizeRawInfo, List.length_map]
    ring
  · rfl

/-- The classification loop permutes its input into the slots and the
generic list. -/
theorem classifyUsb_perm (rest : List Item) :
    ∀ (d0 de0 u0 ue0 : Option Item) (g0 : List Item)
      (d de u ue : Option Item) (g : List Item),
    classifyUsb rest d0 de0 u0 ue0 g0 = .ok (d, de, u, ue, g) →
    (d.toList ++ de.toList ++ u.toList ++ ue.toList ++ g).Perm
      (d0.toList ++ de0.toList ++ u0.toList ++ ue0.toList ++ g0 ++ rest) := by
  induction rest with
  | nil =>
    intro d0 de0 u0 ue0 g0 d de u ue g h
    rw [classifyUsb] at h
    simp only [Except.ok.injEq, Prod.mk.injEq] at h
    obtain ⟨rfl, rfl, rfl, rfl, rfl⟩ := h
    simp
  | cons x rest ih =>
    intro d0 de0 u0 ue0 g0 d de u ue g h
    rw [classifyUsb] at h
    by_cases hu : x.extension = sUSB
    · rw [if_pos hu] at h
      by_cases h1 : x.stem = sDDR
      · rw [if_pos h1] at h
        by_cases hs : d0.isSome
        · rw [if_pos hs] at h
          exact Except.noConfusion h
        · rw [if_neg hs] at h
          have hd0 : d0 = none := Option.not_isSome_iff_eq_none.mp hs
          subst hd0
          have hthis := ih (some x) de0 u0 ue0 g0 d de u ue g h
          refine hthis.trans ?_
          simpa [List.append_assoc] using
            (List.Perm.append_left ([] : List Item)
              (@List.perm_middle _ x
                (de0.toList ++ u0.toList ++ ue0.toList ++ g0) rest).symm)
      · rw [if_neg h1] at h
        by_cases h2 : x.stem = sUBOOT
        · rw [if_pos h2] at h
          by_cases hs : u0.isSome
          · rw [if_pos hs] at h
            exact Except.noConfusion h
          · rw [if_neg hs] at h
            have hu0 : u0 = none := Option.not_isSome_iff_eq_none.mp hs
            subst hu0
            have hthis := ih d0 de0 (some x) ue0 g0 d de u ue g h
            refine hthis.trans ?_
            simpa [List.append_assoc] using
              (List.Perm.append_left (d0.toList ++ de0.toList)
                (@List.perm_middle _ x (ue0.toList ++ g0) rest).symm)
        · rw [if_neg h2] at h
          by_cases h3 : x.stem = sDDR_ENC
          · rw [if_pos h3] at h
            by_cases hs : de0.isSome
            · rw [if_pos hs] at h
              exact Except.noConfusion h
            · rw [if_neg hs] at h
              have hde0 : de0 = none := Option.not_isSome_iff_eq_none.mp hs
              subst hde0
              have hthis := ih d0 (some x) u0 ue0 g0 d de u ue g h
              refine hthis.trans ?_
              simpa [List.append_assoc] using
                (List.Perm.append_left d0.toList
                  (@List.perm_middle _ x
                    (u0.toList ++ ue0.toList ++ g0) rest).symm)
          · rw [if_neg h3] at h
            by_cases h4 : x.stem = sUBOOT_ENC
            · rw [if_pos h4] at h
              by_cases hs : ue0.isSome
              · rw [if_pos hs] at h
                exact Except.noConfusion h
              · rw [if_neg hs] at h
                have hue0 : ue0 = none := Option.not_isSome_iff_eq_none.mp hs
                subst hue0
                have hthis := ih d0 de0 u0 (some x) g0 d de u ue g h
                refine hthis.trans ?_
                simpa [List.append_assoc] using
                  (List.Perm.append_left (d0.toList ++ de0.toList ++ u0.toList)
                    (@List.perm_middle _ x g0 rest).symm)
            · rw [if_neg h4] at h
              exact Except.noConfusion h
    · rw [if_neg hu] at h
      have hthis := ih d0 de0 u0 ue0 (g0 ++ [x]) d de u ue g h
      refine hthis.trans ?_
      simp [List.append_assoc]

theorem opt_some_getD {α : Type} (o : Option α) (x : α) (h : o.isSome = true) :
    o = some (o.getD x) := by
  cases o with
  | none => simp at h
  | some a => rfl

theorem getD_map {α β : Type} (f : α → β) (l : List α) (k : Nat) (d : α) (e : β)
    (h : k < l.length) : (l.map f).getD k e = f (l.getD k d) := by
  rw [List.getD_eq_getElem _ _ (by simpa using h), List.getElem_map,
    List.getD_eq_getElem _ _ h]

theorem specRecs_length_le (l : List Item) : (specRecs l).length ≤ 2 * l.length := by
  induction l with
  | nil => simp [specRecs]
  | cons i r ih =>
    have hsplit : specRecs (i :: r) = blockSpec i ++ specRecs r := by simp [specRecs]
    have hbl : (blockSpec i).length ≤ 2 := by
      by_cases hp : i.extension = sPARTITION <;> simp [blockSpec, hp]
    rw [hsplit, List.length_append]
    simp only [List.length_cons]
    omega

theorem bodySum_perm (a : Nat) (l1 l2 : List Item) (h : l1.Perm l2) :
    bodySum a l1 = bodySum a l2 := by
  unfold bodySum
  exact List.Perm.sum_eq (h.map _)

/-- On success, the emission order is a permutation of the image's
items. -/
theorem orderedItems_perm (img : Image) (em : List Item)
    (h : orderedItems img = .ok em) : em.Perm img.items := by
  simp only [orderedItems, Bind.bind, Except.bind] at h
  cases hcl : classifyUsb img.items none none none none [] with
  | error e =>
    rw [hcl] at h
    exact Except.noConfusion h
  | ok t =>
    rw [hcl] at h
    obtain ⟨d, de, u, ue, g⟩ := t
    cases d with
    | none => simp [pure, Except.pure] at h
    | some dd =>
      cases u with
      | none => simp [pure, Except.pure] at h
      | some uu =>
        simp only [pure, Except.pure, Except.ok.injEq] at h
        subst h
        have hperm := classifyUsb_perm img.items none none none none []
          (some dd) de (some uu) ue g hcl
        simp only [Option.toList_some, Option.toList_none, List.nil_append,
          List.append_nil] at hperm
        refine List.Perm.trans ?_ hperm
        simp only [List.cons_append, List.nil_append, List.append_assoc]
        exact List.Perm.cons dd (List.Perm.append_left de.toList
          (List.Perm.cons uu (List.Perm.append_left ue.toList (sortItems_perm g))))

theorem specRecs_ver_le (l : List Item) (r : SpecRec) (h : r ∈ specRecs l) :
    r.ver ≤ 1 := by
  rcases specRecs_mem l r h with ⟨i, _, rfl⟩ | ⟨i, _, _, rfl⟩
  · by_cases hp : i.extension = sPARTITION <;> simp [mainRec, hp]
  · simp [verRec]

theorem toRaw_lt (v : ImageVersion) : v.toRaw < 2 ^ 32 := by
  cases v <;> decide

theorem imageVersionFromRaw_toRaw (v : ImageVersion) :
    imageVersionFromRaw v.toRaw = .ok v := by
  cases v <;> rfl

theorem sizeItemType_pos (v : ImageVersion) : 1 ≤ v.sizeItemType := by
  cases v <;> decide

theorem sVERIFY_fits (v : ImageVersion) :
    0 ∉ sVERIFY ∧ sVERIFY.length ≤ v.sizeItemType - 1 := by
  cases v <;> constructor <;> decide

theorem tryReadFile_eq (image : List Nat) (v : ImageVersion) (items : List Item)
    (hread : readExact image 0 SIZE_RAW_IMAGE_HEAD =
      .ok (bslice image 0 SIZE_RAW_IMAGE_HEAD))
    (hmagic : (parseHead (bslice image 0 SIZE_RAW_IMAGE_HEAD)).magic = MAGIC)
    (hver : imageVersionFromRaw
      (parseHead (bslice image 0 SIZE_RAW_IMAGE_HEAD)).version = .ok v)
    (hloop : decodeLoop image v
      (List.range (parseHead (bslice image 0 SIZE_RAW_IMAGE_HEAD)).item_count) none =
      .ok items) :
    tryReadFile image = .ok
      { version := v,
        align := (parseHead (bslice image 0 SIZE_RAW_IMAGE_HEAD)).item_align_size,
        items := items } := by
  simp only [tryReadFile, Bind.bind, Except.bind, hread, hmagic, hver, hloop, pure,
    Except.pure]
  simp

/-- C8 (amended): for a well-formed image whose items all carry 20-byte
digests — names NUL-free and fitting the version's name field, digests
determining the data, partition and non-partition digests disjoint, no
digest equal to the hash of another partition's verify payload, and the
total encoded size within the 64-bit offset fields — a successful encode
decodes back to an image with the same version and alignment whose items
are (in emission order) a permutation of the input items, with every
`PARTITION` item keeping exactly its stored digest and every other item
decoded with no digest.  The input digests of non-partition items are
lost, contrary to the original claim. -/
theorem c8_round_trip_digest_projection (img : Image) (bytes : List Nat)
    (H1 : 1 ≤ img.align) (H2 : img.align < 2 ^ 32)
    (H3 : ∀ i ∈ img.items, 0 ∉ i.stem ∧ i.stem.length ≤ img.version.sizeItemType - 1 ∧
      0 ∉ i.extension ∧ i.extension.length ≤ img.version.sizeItemType - 1)
    (H4 : ∀ i ∈ img.items, i.sha1sum.isSome = true ∧
      (i.sha1sum.getD []).length = 20 ∧ ∀ b ∈ i.sha1sum.getD [], b < 256)
    (H5 : ∀ i ∈ img.items, ∀ j ∈ img.items, i.sha1sum = j.sha1sum → i.data = j.data)
    (H6 : ∀ i ∈ img.items, ∀ j ∈ img.items, i.extension = sPARTITION →
      j.extension ≠ sPARTITION → i.sha1sum ≠ j.sha1sum)
    (H7 : ∀ i ∈ img.items, ∀ j ∈ img.items, j.extension = sPARTITION →
      i.sha1sum ≠ some (sha1Hash (sha1sumLine (j.sha1sum.getD []))))
    (H8 : 2 * img.items.length < 2 ^ 32)
    (H9 : SIZE_RAW_IMAGE_HEAD +
      img.version.sizeRawInfo * (2 * img.items.length) +
      bodySum img.align img.items < 2 ^ 64)
    (henc : encodeImage img = .ok bytes) :
    ∃ em, orderedItems img = .ok em ∧ em.Perm img.items ∧
      tryReadFile bytes = .ok
        { version := img.version, align := img.align,
          items := em.map (fun i =>
            if i.extension = sPARTITION then i else { i with sha1sum := none }) } := by
  have H4' : ∀ i ∈ img.items,
      ∃ d, i.sha1sum = some d ∧ d.length = 20 ∧ ∀ b ∈ d, b < 256 := by
    intro i hi
    obtain ⟨hs, hl, hb⟩ := H4 i hi
    exact ⟨i.sha1sum.getD [], opt_some_getD _ _ hs, hl, hb⟩
  obtain ⟨em, hor⟩ : ∃ em, orderedItems img = .ok em := by
    cases ho : orderedItems img with
    | ok em => exact ⟨em, rfl⟩
    | error e =>
      simp only [encodeImage, imageToWriteFromImage, Bind.bind, Except.bind, ho]
        at henc
      exact Except.noConfusion henc
  have hperm := orderedItems_perm img em hor
  have hmem : ∀ i ∈ em, i ∈ img.items := fun i hi => (hperm.mem_iff).mp hi
  have hInv0 : EncInv img.version.toRaw img.align []
      { head := RawImageHead.new img.version img.align, infos := [], sha1sums := [],
        data_head_infos := [], data_body := [] } :=
    { hcrc := rfl, hver := rfl, hmagic := rfl, hisz := rfl, halign := rfl,
      hcount := rfl, hdhi := rfl, hslen := rfl, hilen := rfl,
      hblen := by simp [bodySum],
      hrecs := fun k hk => absurd hk (by simp) }
  obtain ⟨s1, hfold, hInv1⟩ := encInv_fold img H1 H4' H5 H6 H7 em []
    { head := RawImageHead.new img.version img.align, infos := [], sha1sums := [],
      data_head_infos := [], data_body := [] }
    hInv0 (by intro i hi; simp at hi) hmem
  simp only [List.nil_append] at hInv1
  have hc := hInv1.hcount
  have hn := hInv1.hilen
  have hfin := finalize_ok s1 img.version hc
  refine ⟨em, hor, hperm, ?_⟩
  set W := img.version.sizeItemType with hW
  set RS := img.version.sizeRawInfo with hRS
  set TT := SIZE_RAW_IMAGE_HEAD + RS * s1.head.item_count with hTT
  set h2 := { s1.head with
    image_size := s1.data_body.length + TT,
    version := img.version.toRaw } with hh2
  set F := ((s1.infos.map (fun i =>
    { i with offset_in_image := i.offset_in_image + TT })).map
      (serializeInfo W)).flatten with hF
  set C := crc32Update (crc32Update 0xffffffff ((serializeHead h2 ++ F).drop 4))
    s1.data_body with hC
  set h3 := { h2 with crc := C } with hh3
  have hbytes : bytes = serializeHead h3 ++ (F ++ s1.data_body) := by
    have hcomp : encodeImage img = .ok
        ((u32le C ++ (serializeHead h2 ++ F).drop 4) ++ s1.data_body) := by
      simp only [encodeImage, imageToWriteFromImage, Bind.bind, Except.bind, hor,
        hfold, hfin, pure, Except.pure, ImageToWrite.seal]
    have hbts := Except.ok.inj (hcomp.symm.trans henc)
    rw [← hbts]
    rw [List.drop_append_of_le_length (by rw [serializeHead_length]; decide),
      ← List.append_assoc, serializeHead_crc_patch, List.append_assoc]
  have hRSW : RS = 64 + 2 * W := by
    rw [hRS, hW]
    rfl
  have hWpos : 1 ≤ W := by
    rw [hW]
    exact sizeItemType_pos _
  have hFlen : F.length = RS * s1.infos.length := by
    rw [hF, serializeInfos_length, List.length_map, hRSW, Nat.mul_comm]
  have hTT64 : TT = 64 + RS * s1.infos.length := by
    rw [hTT, hc]
    rfl
  have hlenB : bytes.length = TT + s1.data_body.length := by
    rw [hbytes, List.length_append, List.length_append, serializeHead_length, hFlen,
      hTT64]
    simp only [SIZE_RAW_IMAGE_HEAD]
    omega
  have hn2 : s1.infos.length ≤ 2 * img.items.length := by
    rw [hn, ← hperm.length_eq]
    exact specRecs_length_le em
  have hbody_le : s1.data_body.length ≤ bodySum img.align img.items :=
    le_trans hInv1.hblen (le_of_eq (bodySum_perm _ _ _ hperm))
  have hbound : TT + s1.data_body.length < 2 ^ 64 := by
    have hmul : RS * s1.infos.length ≤ RS * (2 * img.items.length) :=
      Nat.mul_le_mul_left _ hn2
    have h9 := H9
    simp only [SIZE_RAW_IMAGE_HEAD] at h9
    rw [hTT64]
    omega
  have hrec : ∀ k, k < (specRecs em).length →
      ∃ bs, readExact bytes (SIZE_RAW_IMAGE_HEAD + RS * (0 + k)) RS = .ok bs ∧
        (parseInfo W bs).item_sub_type = ((specRecs em).getD k recDefault).sub ∧
        (parseInfo W bs).item_main_type = ((specRecs em).getD k recDefault).main ∧
        (parseInfo W bs).item_size = ((specRecs em).getD k recDefault).size ∧
        (parseInfo W bs).verify = ((specRecs em).getD k recDefault).ver ∧
        readExact bytes (parseInfo W bs).offset_in_image
          (parseInfo W bs).item_size =
          .ok ((specRecs em).getD k recDefault).content := by
    intro k hk
    have hkn : k < s1.infos.length := by
      rw [hn]
      exact hk
    obtain ⟨hrk, hdk⟩ := hInv1.hrecs k hkn
    set info1 := s1.infos.getD k infoDefault with hinfo1
    set spc := (specRecs em).getD k recDefault with hspc
    obtain ⟨hr1, hr2, hr3, hr4, hr5, hr6, hr7⟩ := hrk
    set info2 := { info1 with offset_in_image := info1.offset_in_image + TT }
      with hinfo2
    have hgetD2 : (s1.infos.map (fun i =>
        { i with offset_in_image := i.offset_in_image + TT })).getD k infoDefault =
        info2 :=
      getD_map _ _ k infoDefault infoDefault hkn
    have hslot : bslice bytes (SIZE_RAW_IMAGE_HEAD + RS * (0 + k)) RS =
        serializeInfo W info2 := by
      rw [hbytes, bslice_append_right _ _ _ _ (by
          rw [serializeHead_length]
          simp [SIZE_RAW_IMAGE_HEAD]),
        serializeHead_length,
        show SIZE_RAW_IMAGE_HEAD + RS * (0 + k) - SIZE_RAW_IMAGE_HEAD = RS * k from by
          simp [SIZE_RAW_IMAGE_HEAD],
        hF,
        bslice_flatten RS _ (by
          intro r hr
          obtain ⟨i0, hi0, rfl⟩ := List.mem_map.mp hr
          rw [serializeInfo_length, hRSW]) s1.data_body k
          (by simpa [List.length_map] using hkn),
        getD_map (serializeInfo W) _ k infoDefault []
          (by simpa [List.length_map] using hkn),
        hgetD2]
    have hread : readExact bytes (SIZE_RAW_IMAGE_HEAD + RS * (0 + k)) RS =
        .ok (serializeInfo W info2) := by
      rw [readExact, if_pos (by
          rw [hlenB, hTT64]
          have hmul2 : RS * (k + 1) ≤ RS * s1.infos.length :=
            Nat.mul_le_mul_left _ hkn
          rw [Nat.mul_add, Nat.mul_one] at hmul2
          simp only [SIZE_RAW_IMAGE_HEAD, Nat.zero_add]
          omega), hslot]
    have hmem_k : spc ∈ specRecs em := getD_mem_of_lt (specRecs em) k recDefault hk
    have hnames : (0 ∉ spc.sub ∧ spc.sub.length ≤ W - 1) ∧
        (0 ∉ spc.main ∧ spc.main.length ≤ W - 1) ∧ spc.ver ≤ 1 := by
      rcases specRecs_mem em _ hmem_k with ⟨i, hiem, hmr⟩ | ⟨i, hiem, hpi, hvr⟩
      · obtain ⟨ha, hb, hcx, hdx⟩ := H3 i (hmem i hiem)
        rw [hmr]
        exact ⟨⟨ha, hb⟩, ⟨hcx, hdx⟩,
          by by_cases hp : i.extension = sPARTITION <;> simp [mainRec, hp]⟩
      · obtain ⟨ha, hb, hcx, hdx⟩ := H3 i (hmem i hiem)
        rw [hvr]
        exact ⟨⟨ha, hb⟩, by simpa [verRec, hW] using sVERIFY_fits img.version,
          by simp [verRec]⟩
    obtain ⟨⟨hsub0, hsubl⟩, ⟨hmain0, hmainl⟩, hverle⟩ := hnames
    have hi2main : info2.item_main_type = spc.main := hr2
    have hi2sub : info2.item_sub_type = spc.sub := hr1
    have hi2size : info2.item_size = spc.size := hr3
    have hi2ver : info2.verify = spc.ver := hr4
    have hi2off : info2.offset_in_image = info1.offset_in_image + TT := rfl
    have hpi := parseInfo_serializeInfo W info2 hWpos
      (by rw [hi2main]; exact hmain0)
      (by rw [hi2main]; exact hmainl)
      (by rw [hi2sub]; exact hsub0)
      (by rw [hi2sub]; exact hsubl)
    obtain ⟨hp1, hp2, hp3, hp4, hp5⟩ := hpi
    refine ⟨_, hread, ?_, ?_, ?_, ?_, ?_⟩
    · rw [hp4]
      exact hi2sub
    · rw [hp3]
      exact hi2main
    · rw [hp2, hi2size]
      exact Nat.mod_eq_of_lt (by omega)
    · rw [hp5, hi2ver]
      exact Nat.mod_eq_of_lt (by omega)
    · rw [hp1, hp2, hi2size, hi2off,
        Nat.mod_eq_of_lt (show info1.offset_in_image + TT < 2 ^ 64 by omega),
        Nat.mod_eq_of_lt (show spc.size < 2 ^ 64 by omega)]
      rw [readExact, if_pos (by rw [hlenB]; omega)]
      rw [hbytes, ← List.append_assoc,
        bslice_append_right _ _ _ _ (by
          rw [List.length_append, serializeHead_length, hFlen]
          simp only [SIZE_RAW_IMAGE_HEAD]
          rw [hTT64]
          omega),
        show (serializeHead h3 ++ F).length = 64 + RS * s1.infos.length from by
          rw [List.length_append, serializeHead_length, hFlen]
          simp [SIZE_RAW_IMAGE_HEAD],
        show info1.offset_in_image + TT - (64 + RS * s1.infos.length) =
            info1.offset_in_image from by
          rw [hTT64]
          omega]
      exact congrArg Except.ok hr6
  have hdig : ∀ i ∈ em, ∃ d, i.sha1sum = some d ∧ d.length = 20 ∧ ∀ b ∈ d, b < 256 :=
    fun i hi => H4' i (hmem i hi)
  have hdec := decode_blocks bytes img.version em 0 hdig hrec
  have hread64 : readExact bytes 0 SIZE_RAW_IMAGE_HEAD =
      .ok (bslice bytes 0 SIZE_RAW_IMAGE_HEAD) := by
    rw [readExact, if_pos (by
      rw [hlenB, hTT64]
      simp [SIZE_RAW_IMAGE_HEAD]
      omega)]
  obtain ⟨hhv, hhm, hha, hhc⟩ := parseHead_serializeHead h3 (F ++ s1.data_body)
  have hhv2 : (parseHead (bslice bytes 0 SIZE_RAW_IMAGE_HEAD)).version =
      img.version.toRaw := by
    rw [hbytes, hhv, show h3.version = img.version.toRaw from rfl,
      Nat.mod_eq_of_lt (toRaw_lt _)]
  have hhm2 : (parseHead (bslice bytes 0 SIZE_RAW_IMAGE_HEAD)).magic = MAGIC := by
    rw [hbytes, hhm, show h3.magic = s1.head.magic from rfl, hInv1.hmagic,
      Nat.mod_eq_of_lt (by decide)]
  have hha2 : (parseHead (bslice bytes 0 SIZE_RAW_IMAGE_HEAD)).item_align_size =
      img.align := by
    rw [hbytes, hha, show h3.item_align_size = s1.head.item_align_size from rfl,
      hInv1.halign, Nat.mod_eq_of_lt H2]
  have hhc2 : (parseHead (bslice bytes 0 SIZE_RAW_IMAGE_HEAD)).item_count =
      s1.infos.length := by
    rw [hbytes, hhc, show h3.item_count = s1.head.item_count from rfl, hc,
      Nat.mod_eq_of_lt (by omega)]
  have hver2 : imageVersionFromRaw
      (parseHead (bslice bytes 0 SIZE_RAW_IMAGE_HEAD)).version = .ok img.version := by
    rw [hhv2]
    exact imageVersionFromRaw_toRaw _
  have hloop : decodeLoop bytes img.version
      (List.range (parseHead (bslice bytes 0 SIZE_RAW_IMAGE_HEAD)).item_count) none =
      .ok (em.map (fun i =>
        if i.extension = sPARTITION then i else { i with sha1sum := none })) := by
    rw [hhc2, hn, List.range_eq_range']
    exact hdec
  have hfinal := tryReadFile_eq bytes img.version _ hread64 hhm2 hver2 hloop
  rw [hha2] at hfinal
  exact hfinal

/-- A concrete image with digests on every item, used to refute C8 as
stated and to witness the amended round trip. -/
def c8Img : Image :=
  { version := .V1, align := 4,
    items :=
      [{ data := [1], extension := sUSB, stem := sDDR,
         sha1sum := some (List.replicate 20 1) },
       { data := [2, 3], extension := sUSB, stem := sUBOOT,
         sha1sum := some (List.replicate 20 2) },
       { data := [5, 6, 7], extension := sPARTITION, stem := strA "boot",
         sha1sum := some (List.replicate 20 3) }] }

/-- The bytes `c8Img` encodes to. -/
def c8Bytes : List Nat := (encodeImage c8Img).toOption.getD []

/-- C8 is false as stated: every item of `c8Img` carries a digest and the
image encodes successfully, but decoding the encoded image returns the
two non-`PARTITION` items with no digest, so the decoded item set does
not carry the same digests as the input. -/
theorem c8_counterexample :
    (∀ i ∈ c8Img.items, i.sha1sum.isSome) ∧
    (encodeImage c8Img >>= tryReadFile) = .ok
      { version := .V1, align := 4,
        items :=
          [{ data := [1], extension := sUSB, stem := sDDR, sha1sum := none },
           { data := [2, 3], extension := sUSB, stem := sUBOOT, sha1sum := none },
           { data := [5, 6, 7], extension := sPARTITION, stem := strA "boot",
             sha1sum := some (List.replicate 20 3) }] } := by
  exact ⟨by decide, by decide⟩

/-- Witness for the amended C8 at the concrete image `c8Img`. -/
theorem c8_round_trip_digest_projection_witness :
    ∃ em, orderedItems c8Img = .ok em ∧ em.Perm c8Img.items ∧
      tryReadFile c8Bytes = .ok
        { version := c8Img.version, align := c8Img.align,
          items := em.map (fun i =>
            if i.extension = sPARTITION then i else { i with sha1sum := none }) } :=
  c8_round_trip_digest_projection c8Img c8Bytes (by decide) (by decide) (by decide)
    (by decide) (by decide) (by decide) (by decide) (by decide) (by decide) rfl
